import Mathlib

/-!
# Instance / encounter state engine (`InstanceScript.cpp`)

A shallow embedding of the boss-state machine, the door policy, the save/load
codec, the object registry, the deferred-operation queue and the challenge-mode
run of `src/server/game/Instances/InstanceScript.cpp`, followed by the
properties proved about them.

Conventions of the embedding:

* `std::string` / `char const*` contents are `List Char`; a null `char const*`
  is `none`.
* `uint32` values are `Nat`; where the source can wrap, the reduction modulo
  `2 ^ 32` is written out.
* Pointers to a `BossInfo` (`&bosses[id]`) are boss indices.
* Calls that leave the class (network packets, database statements, creature
  AI) are recorded, in call order, in the `trace` field of the instance.
* A local variable the source reads without having initialised it takes its
  value from an explicit `Indeterminate` parameter.
-/

/-! ## Character classes (`<cctype>`, "C" locale) -/

/-- The `isspace` test of the "C" locale: space, and `\t \n \v \f \r`. -/
def isspace (c : Char) : Bool :=
  decide (c.toNat = 32) || (decide (9 ≤ c.toNat) && decide (c.toNat ≤ 13))

/-- The `isalpha` test of the "C" locale: `A`..`Z` and `a`..`z`. -/
def isalpha (c : Char) : Bool :=
  (decide (65 ≤ c.toNat) && decide (c.toNat ≤ 90)) ||
    (decide (97 ≤ c.toNat) && decide (c.toNat ≤ 122))

/-- The `isdigit` test: `0`..`9`. -/
def isdigit (c : Char) : Bool :=
  decide (48 ≤ c.toNat) && decide (c.toNat ≤ 57)

/-- Largest `uint32`. -/
def UINT32_MAX : Nat := 4294967295

/-- Value of a run of decimal digits, most significant first. -/
def digitsValue (ds : List Char) : Nat :=
  ds.foldl (fun acc c => acc * 10 + (c.toNat - 48)) 0

/-! ## `std::istringstream` and `std::ostringstream` -/

/-- An input string stream: the characters not yet consumed and the two state
bits the formatted extractors look at (`skipws` and `dec` are the defaults and
are never changed by the source). -/
structure IStringStream where
  buf : List Char
  eofbit : Bool := false
  failbit : Bool := false
deriving DecidableEq, Repr

namespace IStringStream

/-- The stream constructed from a string: `std::istringstream loadStream(data)`. -/
def ofString (data : List Char) : IStringStream := { buf := data }

/-- Mirror of `good()`: no state bit is set. -/
def good (s : IStringStream) : Bool := !s.eofbit && !s.failbit

/-- The `sentry` of a formatted input function: a stream that is not good gets
`failbit`; otherwise leading whitespace is skipped, and running into the end
while skipping sets `eofbit` and `failbit`. -/
def sentry (s : IStringStream) : Bool × IStringStream :=
  if s.good then
    match s.buf.dropWhile isspace with
    | [] => (false, { buf := [], eofbit := true, failbit := true })
    | c :: cs => (true, { s with buf := c :: cs })
  else (false, { s with failbit := true })

/-- Extraction `data >> buff` for `char buff`: the next non-whitespace
character, or `none` when nothing is stored into `buff`. -/
def extractChar (s : IStringStream) : Option Char × IStringStream :=
  match s.sentry with
  | (true, s1) =>
    match s1.buf with
    | c :: cs => (some c, { s1 with buf := cs })
    | [] => (none, { s1 with eofbit := true, failbit := true })
  | (false, s1) => (none, s1)

/-- Extraction `data >> buff` for `uint32 buff` (base 10): an optional sign and
a run of digits. `none` when the sentry fails and nothing is stored; a field
without digits stores 0 and sets `failbit`; a value above `UINT32_MAX` stores
`UINT32_MAX` and sets `failbit`; a negative field stores the negated value
modulo `2 ^ 32`. Reading up to the end of the buffer sets `eofbit`. -/
def extractUInt32 (s : IStringStream) : Option Nat × IStringStream :=
  match s.sentry with
  | (false, s1) => (none, s1)
  | (true, s1) =>
    let signed : Bool × List Char :=
      match s1.buf with
      | [] => (false, [])
      | c :: r => if c = '-' then (true, r) else if c = '+' then (false, r) else (false, c :: r)
    let ds := signed.2.takeWhile isdigit
    let rest := signed.2.dropWhile isdigit
    if ds.isEmpty then
      (some 0, { buf := rest, eofbit := rest.isEmpty, failbit := true })
    else if UINT32_MAX < digitsValue ds then
      (some UINT32_MAX, { buf := rest, eofbit := rest.isEmpty, failbit := true })
    else
      (some (if signed.1 then (4294967296 - digitsValue ds) % 4294967296 else digitsValue ds),
        { buf := rest, eofbit := rest.isEmpty, failbit := false })

end IStringStream

/-- Insertion `data << uint32(x)`: the decimal digits of `x`. -/
def writeUInt32 (x : Nat) : List Char := Nat.toDigits 10 x

/-! ## Data model -/

/-- Modelled from the spec: `enum EncounterState` is declared in
`InstanceScript.h`, which is not among the sources. The six states are the ones
`GetBossStateName` switches over, in that order. -/
inductive EncounterState where
  | NOT_STARTED
  | IN_PROGRESS
  | FAIL
  | DONE
  | SPECIAL
  | TO_BE_DECIDED
deriving DecidableEq, Repr

namespace EncounterState

/-- Modelled from the spec: the integer value of each enumerator (declaration
order of `InstanceScript.h`, `TO_BE_DECIDED` last, as the test
`buff < TO_BE_DECIDED` of `ReadSaveDataBossStates` presupposes). -/
def toNat : EncounterState → Nat
  | NOT_STARTED => 0
  | IN_PROGRESS => 1
  | FAIL => 2
  | DONE => 3
  | SPECIAL => 4
  | TO_BE_DECIDED => 5

/-- The cast `EncounterState(buff)`; the source applies it only to values below
`TO_BE_DECIDED`. -/
def ofUInt32 : Nat → EncounterState
  | 0 => NOT_STARTED
  | 1 => IN_PROGRESS
  | 2 => FAIL
  | 3 => DONE
  | 4 => SPECIAL
  | _ => TO_BE_DECIDED

end EncounterState

/-- Modelled from the spec: `enum DoorType` is declared in `InstanceScript.h`.
The three types `UpdateDoorState` has a case for, and every further type
(`default:` branch) as `DOOR_TYPE_OTHER`. -/
inductive DoorType where
  | DOOR_TYPE_ROOM
  | DOOR_TYPE_PASSAGE
  | DOOR_TYPE_SPAWN_HOLE
  | DOOR_TYPE_OTHER (k : Nat)
deriving DecidableEq, Repr

namespace DoorType

/-- Modelled from the spec: the integer value of each enumerator of
`InstanceScript.h`, which indexes the array `door[MAX_DOOR_TYPES]` of a
`BossInfo`; the types without a case in `UpdateDoorState` follow the three
that have one. -/
def toNat : DoorType → Nat
  | DOOR_TYPE_ROOM => 0
  | DOOR_TYPE_PASSAGE => 1
  | DOOR_TYPE_SPAWN_HOLE => 2
  | DOOR_TYPE_OTHER k => 3 + k

end DoorType

/-- The two go-states `UpdateDoorState` sets: `GO_STATE_ACTIVE` shows the
door open, `GO_STATE_READY` closed. -/
inductive GOState where
  | GO_STATE_ACTIVE
  | GO_STATE_READY
deriving DecidableEq, Repr

/-- An `ObjectGuid`; 0 stands for `ObjectGuid::Empty`. -/
abbrev ObjectGuid := Nat

/-- What the engine reads of a `Creature`. -/
structure Creature where
  guid : ObjectGuid
  entry : Nat := 0
  IsAlive : Bool := true
  isWorldBoss : Bool := false
  IsInCombat : Bool := false
  hasVictim : Bool := false
  IsInWorld : Bool := true
  IsPet : Bool := false
deriving DecidableEq, Repr

/-- What the engine reads and writes of a `GameObject`. -/
structure GameObject where
  guid : ObjectGuid
  entry : Nat := 0
  goState : GOState := GOState.GO_STATE_READY
deriving DecidableEq, Repr

/-- What the engine reads of a `Player`. -/
structure Player where
  guid : ObjectGuid
  IsAlive : Bool := true
  GetGuildId : Nat := 0
deriving DecidableEq, Repr

/-- A `BossInfo`: the state, one guid set per door type (`door[MAX_DOOR_TYPES]`,
in type order), the minion guid set and the boundary list (each boundary known
by an id). `std::set` is a list in iteration order. -/
structure BossInfo where
  state : EncounterState := EncounterState.TO_BE_DECIDED
  door : List (List ObjectGuid) := []
  minion : List ObjectGuid := []
  boundary : List Nat := []
deriving DecidableEq, Repr

/-- The fields of a `DoorData` table row that `LoadDoorData` reads. -/
structure DoorData where
  entry : Nat
  bossId : Nat
  type : DoorType
deriving DecidableEq, Repr

/-- The fields of a `MinionData` table row that `LoadMinionData` reads. -/
structure MinionData where
  entry : Nat
  bossId : Nat
deriving DecidableEq, Repr

/-- The fields of a `BossBoundaryEntry` that `LoadBossBoundaries` reads; the
boundary object is known by an id. -/
structure BossBoundaryEntry where
  BossId : Nat
  Boundary : Nat
deriving DecidableEq, Repr

/-- The failure of an `ASSERT`: the process is aborted and the call does not
return. -/
inductive Abort where
  | ASSERT
deriving DecidableEq, Repr

/-- A `DoorInfo`: the boss the door is linked to (an index for the source's
`BossInfo*`) and the link type. -/
structure DoorInfo where
  bossId : Nat
  type : DoorType
deriving DecidableEq, Repr

/-- A callback held by the deferred-operation queue: the lambda that
`StartChallengeMode` schedules, or any other callback, known by an id. The
bodies of the callbacks are not modelled; invoking one is recorded in the
trace. -/
inductive DelayedOperation where
  | ChallengeModeStart
  | Script (id : Nat)
deriving DecidableEq, Repr

/-- Modelled from the spec: `MapChallengeModeEntry` is declared in
`DB2Structure.h`. The fields the engine reads: the id and the three tier
thresholds, `CriteriaCount` holding the values `uint32(CriteriaCount[i])` for
`i = 0, 1, 2`. -/
structure MapChallengeModeEntry where
  ID : Nat
  CriteriaCount : List Nat
deriving DecidableEq, Repr

/-- Modelled from the spec: `ChallengeData` is declared in `ChallengeModeMgr.h`.
The fields of the run record that `CompleteChallengeMode` fills from its own
state; `member` lists the guids of the recorded members in insertion order
(the date and chest id come from collaborators and are left out). -/
structure ChallengeData where
  ID : Nat
  MapID : Nat
  RecordTime : Nat
  ChallengeLevel : Nat
  TimerLevel : Nat
  ChallengeID : Nat
  Affixes : List Nat
  GuildID : Nat
  member : List ObjectGuid
deriving DecidableEq, Repr

/-- Calls that leave the class, as recorded in the trace. -/
inductive Event where
  | EncounterStart (inCombatResCount maxInCombatResCount inCombatResChargeRecovery
      nextCombatResChargeTime : Nat)
  | EncounterEnd
  | ProcEncounterStart (player : ObjectGuid)
  | ScenarioSaveToDB
  | UpdateInstanceData (completedEncounterMask : Nat) (data : List Char) (entranceId : Nat)
      (instanceId : Nat)
  | Respawn (creature : ObjectGuid)
  | EnterEvadeMode (creature : ObjectGuid)
  | DoZoneInCombat (creature : ObjectGuid)
  | OperationCalled (operation : DelayedOperation)
  | LastOperationCalled
  | ChangePlayerDifficultyResult (result : Nat)
  | CastChallengeCreatureSpell (creature : ObjectGuid)
  | DoNearTeleportPlayers
  | SummonChallengerDoor
  | ShowChallengeDoor
  | GetScenarioByID (player : ObjectGuid) (scenarioId : Nat)
  | ChallengeModeReset (mapId : Nat)
  | StartTimer (totalTime timeLeft : Nat)
  | ChallengeModeStart (mapId challengeId challengeLevel : Nat)
  | CastChallengePlayerSpell (player : ObjectGuid)
  | StartElapsedTimer (timerId currentDuration : Nat)
  | UpdateDeathCount (deathCount : Nat)
  | AddChallengeKey (player : ObjectGuid) (challengeLevel : Nat)
  | ChallengeModeComplete (duration mapId challengeId challengeLevel : Nat)
  | DoCompleteAchievement (achievement : Nat)
  | SpawnChallengeModeRewardChest
  | Reward (player : ObjectGuid) (challengeLevel : Nat)
  | CheckBestMemberMapId (player : ObjectGuid)
  | ChallengeModeMapStatsUpdate (player : ObjectGuid) (challengeId recordTime : Nat)
  | UpdateCriteria (player : ObjectGuid) (mapId challengeLevel : Nat)
  | RemoveChallengersBurden (player : ObjectGuid)
  | SaveChallenge (challengeData : ChallengeData)
  | GainCombatResurrectionCharge (inCombatResCount combatResChargeRecovery : Nat)
deriving DecidableEq, Repr

/-- The values held by locals that the source reads although no extraction
stored into them: `char buff` of `ReadSaveDataHeaders` (by header position) and
`uint32 buff` of `ReadSaveDataBossStates` (by boss index). -/
structure Indeterminate where
  headerBuff : Nat → Char
  bossBuff : Nat → Nat

/-- The fields of `InstanceScript` (and of its `InstanceMap` and the
challenge-mode manager) that the modelled functions use. `std::map`s are
association lists, `_affixesTest` lists the bits that are set, and the two
optional members are modelled by whether they are initialised. -/
structure InstanceScript where
  headers : List Char := []
  bosses : List BossInfo := []
  doors : List (Nat × DoorInfo) := []
  minions : List (Nat × Nat) := []
  creatures : List Creature := []
  gameObjects : List GameObject := []
  players : List Player := []
  hasInstanceScenario : Bool := false
  instanceId : Nat := 0
  completedEncounters : Nat := 0
  _entranceId : Nat := 0
  _combatResurrectionTimer : Nat := 0
  _combatResurrectionCharges : Nat := 0
  _combatResurrectionTimerStarted : Bool := false
  saveDataMore : List Char := []
  trace : List Event := []
  mapId : Nat := 0
  _objectGuids : List (Nat × ObjectGuid) := []
  timedDelayedOperations : List (Int × Option DelayedOperation) := []
  emptyWarned : Bool := false
  mapChallengeModes : List (Nat × MapChallengeModeEntry) := []
  _challengeModeStarted : Bool := false
  _challengeModeId : Nat := 0
  _challengeModeLevel : Nat := 0
  _challengeModeStartTime : Nat := 0
  _challengeModeDeathCount : Nat := 0
  _affixes : List Nat := [0, 0, 0, 0]
  _affixesTest : List Nat := []
  _challengeModeDoorPosition : Bool := false
  _challengeModeScenario : Option Nat := none
deriving DecidableEq, Repr

namespace InstanceScript

open EncounterState DoorType GOState

/-! ## Collaborators reached through `instance` -/

/-- Appends one outbound call to the trace. -/
def emit (inst : InstanceScript) (e : Event) : InstanceScript :=
  { inst with trace := inst.trace ++ [e] }

/-- Mirror of `instance->GetCreature(guid)`: the creature with that guid, if it
is on the map. -/
def GetCreature (inst : InstanceScript) (guid : ObjectGuid) : Option Creature :=
  inst.creatures.find? (fun c => decide (c.guid = guid))

/-- Mirror of `instance->GetGameObject(guid)`. -/
def GetGameObject (inst : InstanceScript) (guid : ObjectGuid) : Option GameObject :=
  inst.gameObjects.find? (fun g => decide (g.guid = guid))

/-- Mirror of `door->SetGoState(state)` on the game object with that guid. -/
def SetGoState (inst : InstanceScript) (guid : ObjectGuid) (state : GOState) : InstanceScript :=
  { inst with
    gameObjects := inst.gameObjects.map
      (fun g => if g.guid = guid then { g with goState := state } else g) }

/-- Dereference `info.bossInfo->state` of a link to boss `id`. `LoadDoorData`
only creates links to indices below `bosses.size()`. -/
def bossState (inst : InstanceScript) (id : Nat) : EncounterState :=
  (inst.bosses[id]?.getD {}).state

/-! ## Construction-time tables -/

/-- Mirror of `InstanceScript::SetHeaders`: every alphabetic character of the
argument is pushed onto `headers`. -/
def SetHeaders (inst : InstanceScript) (dataHeaders : List Char) : InstanceScript :=
  { inst with
    headers := dataHeaders.foldl (fun hs header => if isalpha header then hs ++ [header] else hs)
      inst.headers }

/-- Mirror of `InstanceScript::LoadBossBoundaries`: the boundary of every
entry whose boss index is in range is pushed onto that boss's list. -/
def LoadBossBoundaries (inst : InstanceScript) (data : List BossBoundaryEntry) : InstanceScript :=
  data.foldl
    (fun acc entry =>
      if entry.BossId < acc.bosses.length then
        { acc with
          bosses := acc.bosses.modify
            (fun bossInfo => { bossInfo with boundary := bossInfo.boundary ++ [entry.Boundary] })
            entry.BossId }
      else acc)
    inst

/-- Mirror of `InstanceScript::LoadMinionData` on a table that ends at its
first row with entry 0: `std::map::insert` keeps the row already stored for an
entry. -/
def LoadMinionData : InstanceScript → List MinionData → InstanceScript
  | inst, [] => inst
  | inst, data :: rest =>
    if data.entry = 0 then inst
    else
      LoadMinionData
        (if data.bossId < inst.bosses.length then
          (if inst.minions.any (fun kv => decide (kv.1 = data.entry)) then inst
            else { inst with minions := inst.minions ++ [(data.entry, data.bossId)] })
          else inst)
        rest

/-- Mirror of `InstanceScript::LoadDoorData` on a table that ends at its first
row with entry 0: `std::multimap::insert` adds the link behind those the entry
already has. -/
def LoadDoorData : InstanceScript → List DoorData → InstanceScript
  | inst, [] => inst
  | inst, data :: rest =>
    if data.entry = 0 then inst
    else
      LoadDoorData
        (if data.bossId < inst.bosses.length then
          { inst with
            doors := inst.doors ++ [(data.entry, { bossId := data.bossId, type := data.type })] }
          else inst)
        rest

/-- Mirror of `InstanceScript::GetBossInfo`: the returned `BossInfo*` is the
index of the boss it points to (`none` would be a null pointer); a failed
`ASSERT` aborts. -/
def GetBossInfo (inst : InstanceScript) (id : Nat) : Except Abort (Option Nat) :=
  if id < inst.bosses.length then Except.ok (some id) else Except.error Abort.ASSERT

/-! ## Combat resurrection and encounter broadcasts -/

/-- Mirror of `InstanceScript::ResetCombatResurrections`. -/
def ResetCombatResurrections (inst : InstanceScript) : InstanceScript :=
  { inst with
    _combatResurrectionCharges := 0
    _combatResurrectionTimer := 0
    _combatResurrectionTimerStarted := false }

/-- Mirror of `InstanceScript::InitializeCombatResurrections`. -/
def InitializeCombatResurrections (inst : InstanceScript) (charges : Nat) (interval : Nat) :
    InstanceScript :=
  let inst1 := { inst with _combatResurrectionCharges := charges }
  if interval = 0 then inst1
  else { inst1 with _combatResurrectionTimer := interval, _combatResurrectionTimerStarted := true }

/-- Mirror of `InstanceScript::GetCombatResurrectionChargeInterval`:
`90 * MINUTE * IN_MILLISECONDS / playerCount` with `MINUTE = 60` and
`IN_MILLISECONDS = 1000`, and 0 without players. -/
def GetCombatResurrectionChargeInterval (inst : InstanceScript) : Nat :=
  if inst.players.length = 0 then 0 else 90 * 60 * 1000 / inst.players.length

/-- Mirror of `InstanceScript::AddCombatResurrectionCharge`; the charge count
is a `uint8` (the type `InitializeCombatResurrections` takes), and the packet
sent to the players is recorded in the trace. -/
def AddCombatResurrectionCharge (inst : InstanceScript) : InstanceScript :=
  let inst1 := { inst with
    _combatResurrectionCharges := (inst._combatResurrectionCharges + 1) % 256
    _combatResurrectionTimer := inst.GetCombatResurrectionChargeInterval }
  inst1.emit
    (Event.GainCombatResurrectionCharge inst1._combatResurrectionCharges
      inst1._combatResurrectionTimer)

/-- Mirror of `InstanceScript::UpdateCombatResurrection`. -/
def UpdateCombatResurrection (inst : InstanceScript) (diff : Nat) : InstanceScript :=
  if inst._combatResurrectionTimerStarted = false then inst
  else if inst._combatResurrectionTimer ≤ diff then inst.AddCombatResurrectionCharge
  else { inst with _combatResurrectionTimer := inst._combatResurrectionTimer - diff }

/-- Mirror of `InstanceScript::SendEncounterStart`. -/
def SendEncounterStart (inst : InstanceScript) (inCombatResCount maxInCombatResCount
    inCombatResChargeRecovery nextCombatResChargeTime : Nat) : InstanceScript :=
  inst.emit (Event.EncounterStart inCombatResCount maxInCombatResCount inCombatResChargeRecovery
    nextCombatResChargeTime)

/-- Mirror of `InstanceScript::SendEncounterEnd`. -/
def SendEncounterEnd (inst : InstanceScript) : InstanceScript :=
  inst.emit Event.EncounterEnd

/-- The `DoOnPlayers` call of `SetBossState`: the encounter-start proc on every
player that is alive, in player-list order. -/
def procEncounterStart (inst : InstanceScript) : InstanceScript :=
  inst.players.foldl
    (fun acc player => if player.IsAlive then acc.emit (Event.ProcEncounterStart player.guid) else acc)
    inst

/-! ## Save -/

/-- Mirror of `InstanceScript::WriteSaveDataHeaders` on the stream content `data`. -/
def WriteSaveDataHeaders (inst : InstanceScript) (data : List Char) : List Char :=
  inst.headers.foldl (fun out header => out ++ [header] ++ [' ']) data

/-- Mirror of `InstanceScript::WriteSaveDataBossStates` on the stream content `data`. -/
def WriteSaveDataBossStates (inst : InstanceScript) (data : List Char) : List Char :=
  inst.bosses.foldl (fun out bossInfo => out ++ writeUInt32 bossInfo.state.toNat ++ [' ']) data

/-- Modelled from the spec: `WriteSaveDataMore` is a virtual hook whose base
body is in `InstanceScript.h`; it appends the subclass's extra data, which is
the field `saveDataMore` (empty for the base class). -/
def WriteSaveDataMore (inst : InstanceScript) (data : List Char) : List Char :=
  data ++ inst.saveDataMore

/-- Mirror of `InstanceScript::GetSaveData`. -/
def GetSaveData (inst : InstanceScript) : List Char :=
  inst.WriteSaveDataMore (inst.WriteSaveDataBossStates (inst.WriteSaveDataHeaders []))

/-- Mirror of `InstanceScript::SaveToDB`: the scenario, when there is one, is
saved first; the instance row is updated unless the save data is empty. -/
def SaveToDB (inst : InstanceScript) : InstanceScript :=
  let inst1 := if inst.hasInstanceScenario then inst.emit Event.ScenarioSaveToDB else inst
  let data := inst1.GetSaveData
  if data.isEmpty then inst1
  else inst1.emit
    (Event.UpdateInstanceData inst1.completedEncounters data inst1._entranceId inst1.instanceId)

/-! ## Doors and minions -/

/-- The links of a door entry: `doors.equal_range(entry)`, in table order. -/
def doorRange (inst : InstanceScript) (entry : Nat) : List DoorInfo :=
  (inst.doors.filter (fun kv => decide (kv.1 = entry))).map (fun kv => kv.2)

/-- The `for` loop of `UpdateDoorState` over the links of the door: it runs
while links remain and `isOpen` is still true; a link type without a case
leaves `isOpen` as it is. -/
def UpdateDoorState.loop (inst : InstanceScript) : List DoorInfo → Bool → Bool
  | [], isOpen => isOpen
  | info :: range, isOpen =>
    if isOpen then
      UpdateDoorState.loop inst range
        (match info.type with
          | DOOR_TYPE_ROOM => decide (inst.bossState info.bossId ≠ IN_PROGRESS)
          | DOOR_TYPE_PASSAGE => decide (inst.bossState info.bossId = DONE)
          | DOOR_TYPE_SPAWN_HOLE => decide (inst.bossState info.bossId = IN_PROGRESS)
          | DOOR_TYPE_OTHER _ => isOpen)
    else isOpen

/-- Mirror of `InstanceScript::UpdateDoorState`: a door without links is left
alone; otherwise its go-state is set from the loop's result. -/
def UpdateDoorState (inst : InstanceScript) (door : GameObject) : InstanceScript :=
  match inst.doorRange door.entry with
  | [] => inst
  | info :: range =>
    inst.SetGoState door.guid
      (if UpdateDoorState.loop inst (info :: range) true then GO_STATE_ACTIVE else GO_STATE_READY)

/-- Mirror of `InstanceScript::AddDoor`: a door whose entry has no link is
ignored; otherwise its guid is inserted into (or erased from) the door set
`door[type]` of the boss of every link, and an added door has its state
updated. -/
def AddDoor (inst : InstanceScript) (door : GameObject) (add : Bool) : InstanceScript :=
  match inst.doorRange door.entry with
  | [] => inst
  | info :: range =>
    let inst1 := (info :: range).foldl
      (fun acc data =>
        { acc with
          bosses := acc.bosses.modify
            (fun bossInfo =>
              { bossInfo with
                door := bossInfo.door.modify
                  (fun guids =>
                    if add then (if door.guid ∈ guids then guids else guids ++ [door.guid])
                    else guids.filter (fun guid => decide (guid ≠ door.guid)))
                  data.type.toNat })
            data.bossId })
      inst
    if add then inst1.UpdateDoorState door else inst1

/-- Mirror of `InstanceScript::UpdateMinionState`; the creature calls are
recorded in the trace. -/
def UpdateMinionState (inst : InstanceScript) (minion : Creature) (state : EncounterState) :
    InstanceScript :=
  match state with
  | NOT_STARTED =>
    if !minion.IsAlive then inst.emit (Event.Respawn minion.guid)
    else if minion.IsInCombat then inst.emit (Event.EnterEvadeMode minion.guid)
    else inst
  | IN_PROGRESS =>
    if !minion.IsAlive then inst.emit (Event.Respawn minion.guid)
    else if !minion.hasVictim then inst.emit (Event.DoZoneInCombat minion.guid)
    else inst
  | _ => inst

/-! ## The boss-state machine -/

/-- The assignment `bossInfo->state = state` for boss `id`. -/
def assignState (inst : InstanceScript) (id : Nat) (state : EncounterState) : InstanceScript :=
  { inst with bosses := inst.bosses.modify (fun bossInfo => { bossInfo with state := state }) id }

/-- The world-boss scan of `SetBossState`: some minion guid of the boss
resolves to a creature that is a world boss and alive. -/
def worldBossMinionAlive (inst : InstanceScript) (bossInfo : BossInfo) : Bool :=
  bossInfo.minion.any (fun guid =>
    match inst.GetCreature guid with
    | some minion => minion.isWorldBoss && minion.IsAlive
    | none => false)

/-- The `switch (state)` of `SetBossState`, entered with the boss still in its
old state. -/
def enterState (inst : InstanceScript) (oldState state : EncounterState) : InstanceScript :=
  match state with
  | NOT_STARTED =>
    if oldState = IN_PROGRESS then inst.ResetCombatResurrections.SendEncounterEnd else inst
  | IN_PROGRESS =>
    let resInterval := inst.GetCombatResurrectionChargeInterval
    ((inst.InitializeCombatResurrections 1 resInterval).SendEncounterStart 1 9 resInterval
      resInterval).procEncounterStart
  | FAIL => inst.ResetCombatResurrections.SendEncounterEnd
  | DONE => inst.ResetCombatResurrections.SendEncounterEnd
  | _ => inst

/-- The door loop at the end of `SetBossState`: every guid of every door set of
the boss, in type order, that resolves to a game object. -/
def updateDoors (inst : InstanceScript) (guids : List ObjectGuid) : InstanceScript :=
  guids.foldl
    (fun acc guid =>
      match acc.GetGameObject guid with
      | some door => acc.UpdateDoorState door
      | none => acc)
    inst

/-- The minion loop at the end of `SetBossState`, over the copied guid set. -/
def updateMinions (inst : InstanceScript) (guids : List ObjectGuid) (state : EncounterState) :
    InstanceScript :=
  guids.foldl
    (fun acc guid =>
      match acc.GetCreature guid with
      | some minion => acc.UpdateMinionState minion state
      | none => acc)
    inst

/-- Mirror of `InstanceScript::SetBossState`: the returned flag and the state
of the instance afterwards. -/
def SetBossState (inst : InstanceScript) (id : Nat) (state : EncounterState) :
    Bool × InstanceScript :=
  match inst.bosses[id]? with
  | none => (false, inst)
  | some bossInfo =>
    if bossInfo.state = TO_BE_DECIDED then
      (false, inst.assignState id state)
    else if bossInfo.state = state then
      (false, inst)
    else if state = DONE ∧ inst.worldBossMinionAlive bossInfo = true then
      (false, inst)
    else
      let inst1 := ((inst.enterState bossInfo.state state).assignState id state).SaveToDB
      let inst2 := inst1.updateDoors bossInfo.door.flatten
      (true, inst2.updateMinions bossInfo.minion state)

/-! ## Load -/

/-- The loop of `InstanceScript::ReadSaveDataHeaders` from header position
`pos` on: each expected header is compared with the extracted character, or,
when the extraction stored nothing, with what `buff` happens to hold. -/
def ReadSaveDataHeaders.loop (u : Indeterminate) :
    List Char → Nat → IStringStream → Bool × IStringStream
  | [], _, data => (true, data)
  | header :: rest, pos, data =>
    let r := data.extractChar
    let buff := r.1.getD (u.headerBuff pos)
    if header ≠ buff then (false, r.2)
    else ReadSaveDataHeaders.loop u rest (pos + 1) r.2

/-- Mirror of `InstanceScript::ReadSaveDataHeaders`. -/
def ReadSaveDataHeaders (inst : InstanceScript) (u : Indeterminate) (data : IStringStream) :
    Bool × IStringStream :=
  ReadSaveDataHeaders.loop u inst.headers 0 data

/-- The loop of `InstanceScript::ReadSaveDataBossStates` with `count` bosses
left, the next one being `bossId`. -/
def ReadSaveDataBossStates.loop (u : Indeterminate) :
    Nat → Nat → InstanceScript → IStringStream → InstanceScript × IStringStream
  | 0, _, inst, data => (inst, data)
  | count + 1, bossId, inst, data =>
    let r := data.extractUInt32
    let buff := r.1.getD (u.bossBuff bossId % 4294967296)
    let buff :=
      if buff = IN_PROGRESS.toNat ∨ buff = FAIL.toNat ∨ buff = SPECIAL.toNat then NOT_STARTED.toNat
      else buff
    let inst1 :=
      if buff < TO_BE_DECIDED.toNat then (inst.SetBossState bossId (EncounterState.ofUInt32 buff)).2
      else inst
    ReadSaveDataBossStates.loop u count (bossId + 1) inst1 r.2

/-- Mirror of `InstanceScript::ReadSaveDataBossStates`. -/
def ReadSaveDataBossStates (inst : InstanceScript) (u : Indeterminate) (data : IStringStream) :
    InstanceScript × IStringStream :=
  ReadSaveDataBossStates.loop u inst.bosses.length 0 inst data

/-- Modelled from the spec: `ReadSaveDataMore` is a virtual hook whose base
body is in `InstanceScript.h`; the base class reads nothing and changes
nothing. -/
def ReadSaveDataMore (inst : InstanceScript) (data : IStringStream) :
    InstanceScript × IStringStream :=
  (inst, data)

/-- Mirror of `InstanceScript::Load`; a null `data` is `none`. The
`OUT_LOAD_INST_DATA*` macros only log. -/
def Load (inst : InstanceScript) (u : Indeterminate) (data : Option (List Char)) : InstanceScript :=
  match data with
  | none => inst
  | some text =>
    let r := inst.ReadSaveDataHeaders u (IStringStream.ofString text)
    if r.1 then
      let r1 := inst.ReadSaveDataBossStates u r.2
      (r1.1.ReadSaveDataMore r1.2).1
    else inst

/-! ## Object registry -/

/-- Mirror of `InstanceScript::GetObjectGuid`: the guid stored for the role, or
`ObjectGuid::Empty` when `_objectGuids.find(type)` finds nothing. -/
def GetObjectGuid (inst : InstanceScript) (type : Nat) : ObjectGuid :=
  match inst._objectGuids.find? (fun kv => decide (kv.1 = type)) with
  | some kv => kv.2
  | none => 0

/-- Mirror of `InstanceScript::AddObject(WorldObject*, uint32, bool)` for an
object with guid `guid`: `_objectGuids[type] = guid` replaces whatever the
role held; a removal erases the role only when it holds that very guid. -/
def AddObject (inst : InstanceScript) (guid : ObjectGuid) (type : Nat) (add : Bool) :
    InstanceScript :=
  if add then
    { inst with
      _objectGuids := (type, guid) :: inst._objectGuids.filter (fun kv => decide (kv.1 ≠ type)) }
  else
    match inst._objectGuids.find? (fun kv => decide (kv.1 = type)) with
    | some kv =>
      if kv.2 = guid then
        { inst with _objectGuids := inst._objectGuids.filter (fun kv => decide (kv.1 ≠ type)) }
      else inst
    | none => inst

/-! ## Deferred operations -/

/-- The value of an integer after conversion to `int32`. -/
def toInt32 (x : Int) : Int :=
  (x + 2147483648) % 4294967296 - 2147483648

/-- Modelled from the spec: `AddTimedDelayedOperation` is defined in
`InstanceScript.h`, which is not among the sources. In the words of the
specification it appends one entry (remaining delay, action) to the queue and
does nothing else; the delay is stored in the `int32` of the queue's pairs. -/
def AddTimedDelayedOperation (inst : InstanceScript) (timeout : Nat)
    (operation : DelayedOperation) : InstanceScript :=
  { inst with
    timedDelayedOperations :=
      inst.timedDelayedOperations ++ [(toInt32 (timeout : Int), some operation)] }

/-- The first loop of `UpdateOperations` over the queue: every delay is
lowered by `diff` (`int32 -= uint32`), and an entry whose delay went negative
has its callback invoked and then cleared. Invoking a cleared (empty)
`std::function` throws `std::bad_function_call`, which is `none`. -/
def UpdateOperations.loop (diff : Nat) :
    List (Int × Option DelayedOperation) → List Event →
      Option (List (Int × Option DelayedOperation) × List Event)
  | [], trace => some ([], trace)
  | (first, second) :: rest, trace =>
    if toInt32 (first - (diff : Int)) < 0 then
      match second with
      | none => none
      | some operation =>
        match UpdateOperations.loop diff rest (trace ++ [Event.OperationCalled operation]) with
        | some r => some ((toInt32 (first - (diff : Int)), none) :: r.1, r.2)
        | none => none
    else
      match UpdateOperations.loop diff rest trace with
      | some r => some ((toInt32 (first - (diff : Int)), second) :: r.1, r.2)
      | none => none

/-- One round of the removal loop of `UpdateOperations`: `find_if` for the
first entry whose callback is cleared, and `erase` of it when there is one. -/
def UpdateOperations.eraseFirstCleared :
    List (Int × Option DelayedOperation) → List (Int × Option DelayedOperation)
  | [] => []
  | entry :: rest =>
    if entry.2.isNone then rest else entry :: UpdateOperations.eraseFirstCleared rest

/-- The removal loop of `UpdateOperations`, run `count` times. -/
def UpdateOperations.remove :
    Nat → List (Int × Option DelayedOperation) → List (Int × Option DelayedOperation)
  | 0, queue => queue
  | count + 1, queue => UpdateOperations.remove count (UpdateOperations.eraseFirstCleared queue)

/-- Mirror of `InstanceScript::UpdateOperations`: the instance afterwards, or
`none` when a callback call throws. `LastOperationCalled` is a virtual hook;
its call is recorded in the trace. -/
def UpdateOperations (inst : InstanceScript) (diff : Nat) : Option InstanceScript :=
  match UpdateOperations.loop diff inst.timedDelayedOperations inst.trace with
  | none => none
  | some r =>
    let timedDelayedOperationCountToRemove :=
      (r.1.countP (fun entry => entry.2.isNone)) % 4294967296
    let inst1 := { inst with
      timedDelayedOperations := UpdateOperations.remove timedDelayedOperationCountToRemove r.1
      trace := r.2 }
    if inst1.timedDelayedOperations.isEmpty ∧ inst1.emptyWarned = false then
      some ({ inst1 with emptyWarned := true }.emit Event.LastOperationCalled)
    else some inst1

/-! ## Challenge mode -/

/-- Appends outbound calls to the trace, in order. -/
def emitAll (inst : InstanceScript) (events : List Event) : InstanceScript :=
  { inst with trace := inst.trace ++ events }

/-- The lookup `sChallengeModeMgr->GetMapChallengeModeEntryByModeId(modeId)` in
the manager's table. -/
def GetMapChallengeModeEntryByModeId (inst : InstanceScript) (modeId : Nat) :
    Option MapChallengeModeEntry :=
  (inst.mapChallengeModes.find? (fun kv => decide (kv.1 = modeId))).map (fun kv => kv.2)

/-- Modelled from the spec: `IsChallengeModeStarted` is an inline getter of
`InstanceScript.h`; it returns the active flag `_challengeModeStarted`. -/
def IsChallengeModeStarted (inst : InstanceScript) : Bool :=
  inst._challengeModeStarted

/-- Mirror of `InstanceScript::HasAffix`. -/
def HasAffix (inst : InstanceScript) (affix : Nat) : Bool :=
  decide (affix ∈ inst._affixesTest)

/-- Mirror of `InstanceScript::GetChallengeModeCurrentDuration`, in `uint32`
arithmetic; `msDiffToNow` is what `GetMSTimeDiffToNow(_challengeModeStartTime)`
returns. -/
def GetChallengeModeCurrentDuration (inst : InstanceScript) (msDiffToNow : Nat) : Nat :=
  (msDiffToNow / 1000 % 4294967296 + 5 * inst._challengeModeDeathCount) % 4294967296

/-- Mirror of `InstanceScript::SendChallengeModeStart` without a target
player: with a known mode the start packet goes to all players, twice. -/
def SendChallengeModeStart (inst : InstanceScript) : InstanceScript :=
  match inst.GetMapChallengeModeEntryByModeId inst._challengeModeId with
  | none => inst
  | some mapChallengeModeEntry =>
    inst.emitAll
      [Event.ChallengeModeStart inst.mapId mapChallengeModeEntry.ID inst._challengeModeLevel,
        Event.ChallengeModeStart inst.mapId mapChallengeModeEntry.ID inst._challengeModeLevel]

/-- Mirror of `InstanceScript::SendChallengeModeElapsedTimer` without a target
player. -/
def SendChallengeModeElapsedTimer (inst : InstanceScript) (msDiffToNow : Nat) : InstanceScript :=
  inst.emit (Event.StartElapsedTimer 1 (inst.GetChallengeModeCurrentDuration msDiffToNow))

/-- Mirror of `InstanceScript::SendChallengeModeDeathCount` without a target
player. -/
def SendChallengeModeDeathCount (inst : InstanceScript) : InstanceScript :=
  inst.emit (Event.UpdateDeathCount inst._challengeModeDeathCount)

/-- Mirror of `InstanceScript::OnPlayerDeath`; the death count is a `uint32`. -/
def OnPlayerDeath (inst : InstanceScript) (msDiffToNow : Nat) : InstanceScript :=
  if inst.IsChallengeModeStarted then
    let inst1 := { inst with
      _challengeModeDeathCount := (inst._challengeModeDeathCount + 1) % 4294967296 }
    (inst1.SendChallengeModeElapsedTimer msDiffToNow).SendChallengeModeDeathCount
  else inst

/-- Mirror of `ChallengeModeWorker::Visit` on the creatures of the map: every
creature in the world that is not a pet is respawned when dead and gets the
challenge spell. -/
def challengeModeWorkerVisit (inst : InstanceScript) : InstanceScript :=
  inst.creatures.foldl
    (fun acc creature =>
      if creature.IsInWorld ∧ creature.IsPet = false then
        (if creature.IsAlive = false then acc.emit (Event.Respawn creature.guid)
          else acc).emit (Event.CastChallengeCreatureSpell creature.guid)
      else acc)
    inst

/-- Mirror of `InstanceScript::AfterChallengeModeStarted`. -/
def AfterChallengeModeStarted (inst : InstanceScript) : InstanceScript :=
  match inst._challengeModeScenario with
  | some scenarioId =>
    inst.emitAll (inst.players.map (fun player => Event.GetScenarioByID player.guid scenarioId))
  | none => inst

/-- Mirror of `InstanceScript::StartChallengeMode`. The mode id is stored
before the three guards; `_affixesTest` is the list of the bits that are set;
`ShowChallengeDoor` is a virtual hook whose call is recorded. -/
def StartChallengeMode (inst : InstanceScript) (modeid level affix1 affix2 affix3 affix4 : Nat) :
    InstanceScript :=
  let inst0 := { inst with _challengeModeId := modeid }
  match inst0.GetMapChallengeModeEntryByModeId inst0._challengeModeId with
  | none => inst0
  | some _ =>
    if inst0.IsChallengeModeStarted then inst0
    else if inst0.completedEncounters ≠ 0 then inst0
    else
      let inst1 := { inst0 with _affixes := [affix1, affix2, affix3, affix4] }
      let inst2 := { inst1 with
        _affixesTest := inst1._affixes.foldl
          (fun bits affix => if affix ∈ bits then bits else bits ++ [affix]) inst1._affixesTest }
      let inst3 := { inst2 with _challengeModeStarted := true, _challengeModeLevel := level }
      let inst4 := (inst3.emit (Event.ChangePlayerDifficultyResult 5)).challengeModeWorkerVisit
      let inst5 := inst4.emit Event.DoNearTeleportPlayers
      let inst6 :=
        if inst5._challengeModeDoorPosition then inst5.emit Event.SummonChallengerDoor else inst5
      let inst7 := (inst6.emit Event.ShowChallengeDoor).AfterChallengeModeStarted
      let inst8 := inst7.emitAll
        [Event.ChangePlayerDifficultyResult 11, Event.ChallengeModeReset inst7.mapId,
          Event.StartTimer 10 10]
      let inst9 := inst8.SendChallengeModeStart.emitAll
        (inst8.players.map (fun player => Event.CastChallengePlayerSpell player.guid))
      inst9.AddTimedDelayedOperation 10000 DelayedOperation.ChallengeModeStart

/-- The loop of `CompleteChallengeMode` over the three tier thresholds: one
more for every `uint32(CriteriaCount[i]) > totalDuration`. -/
def mythicIncrement (mapChallengeModeEntry : MapChallengeModeEntry) (totalDuration : Nat) : Nat :=
  (List.range 3).foldl
    (fun increment i =>
      if mapChallengeModeEntry.CriteriaCount.getD i 0 > totalDuration then increment + 1
      else increment)
    0

/-- The `guildCounter[guild]++` of `CompleteChallengeMode` on a `std::map` kept
in key order. -/
def guildCounterIncrement (guild : Nat) : List (Nat × Nat) → List (Nat × Nat)
  | [] => [(guild, 1)]
  | (g, n) :: rest =>
    if guild < g then (guild, 1) :: (g, n) :: rest
    else if guild = g then (g, (n + 1) % 4294967296) :: rest
    else (g, n) :: guildCounterIncrement guild rest

/-- The guild counter `CompleteChallengeMode` builds over the players: players
without a guild (guild id 0) are not counted. -/
def guildCounter (players : List Player) : List (Nat × Nat) :=
  players.foldl
    (fun counter player =>
      if player.GetGuildId ≠ 0 then guildCounterIncrement player.GetGuildId counter else counter)
    []

/-- The guild id of the run record: 0, overwritten by every guild, in key
order, that has 3 or more members among the players. -/
def challengeGuildId (players : List Player) : Nat :=
  (guildCounter players).foldl (fun guildId v => if v.2 ≥ 3 then v.1 else guildId) 0

/-- The run record `CompleteChallengeMode` hands to the challenge-mode manager. -/
def challengeData (inst : InstanceScript) (mapChallengeModeEntry : MapChallengeModeEntry)
    (totalDuration : Nat) : ChallengeData :=
  { ID := inst.instanceId
    MapID := inst.mapId
    RecordTime := totalDuration * 1000 % 4294967296
    ChallengeLevel := inst._challengeModeLevel
    TimerLevel :=
      max (inst._challengeModeLevel + mythicIncrement mapChallengeModeEntry totalDuration) 2
    ChallengeID := mapChallengeModeEntry.ID
    Affixes := inst._affixes
    GuildID := challengeGuildId inst.players
    member := inst.players.map (fun player => player.guid) }

/-- The achievement block of `CompleteChallengeMode`: only when the timer was
respected (`mythicIncrement` is not zero), one call per level threshold
reached, two for level 15. -/
def challengeAchievements (inst : InstanceScript) (increment : Nat) : List Event :=
  if increment ≠ 0 then
    (if inst._challengeModeLevel ≥ 2 then [Event.DoCompleteAchievement 11183] else []) ++
    (if inst._challengeModeLevel ≥ 5 then [Event.DoCompleteAchievement 11184] else []) ++
    (if inst._challengeModeLevel ≥ 10 then [Event.DoCompleteAchievement 11185] else []) ++
    (if inst._challengeModeLevel ≥ 15 then
      [Event.DoCompleteAchievement 11162, Event.DoCompleteAchievement 11224] else [])
  else []

/-- The outbound calls of the second `DoOnPlayers` of `CompleteChallengeMode`
for one player. -/
def challengeRewardCalls (inst : InstanceScript) (totalDuration : Nat) (player : Player) :
    List Event :=
  [Event.Reward player.guid inst._challengeModeLevel,
    Event.CheckBestMemberMapId player.guid,
    Event.ChallengeModeMapStatsUpdate player.guid inst._challengeModeLevel
      (totalDuration * 1000 % 4294967296),
    Event.UpdateCriteria player.guid inst.mapId inst._challengeModeLevel,
    Event.RemoveChallengersBurden player.guid]

/-- Mirror of `InstanceScript::CompleteChallengeMode`. The function assigns no
member of the class; what it does is the sequence of outbound calls, in order:
the key grants, the completion packet, the achievements, the reward chest
(`SpawnChallengeModeRewardChest` is a virtual hook), the per-player reward
calls and the hand-over of the run record. `msDiffToNow` is what
`GetMSTimeDiffToNow(_challengeModeStartTime)` returns. -/
def CompleteChallengeMode (inst : InstanceScript) (msDiffToNow : Nat) : InstanceScript :=
  match inst.GetMapChallengeModeEntryByModeId inst._challengeModeId with
  | none => inst
  | some mapChallengeModeEntry =>
    let totalDuration := inst.GetChallengeModeCurrentDuration msDiffToNow
    let increment := mythicIncrement mapChallengeModeEntry totalDuration
    inst.emitAll
      (inst.players.map
          (fun player =>
            Event.AddChallengeKey player.guid (max (inst._challengeModeLevel + increment) 1)) ++
        [Event.ChallengeModeComplete totalDuration inst.mapId mapChallengeModeEntry.ID
          (inst._challengeModeLevel + increment)] ++
        inst.challengeAchievements increment ++
        [Event.SpawnChallengeModeRewardChest] ++
        inst.players.flatMap (fun player => inst.challengeRewardCalls totalDuration player) ++
        [Event.SaveChallenge (inst.challengeData mapChallengeModeEntry totalDuration)])

end InstanceScript

/-! ## Definitions used to state the properties -/

/-- The stream after `n` further `uint32` extractions. -/
def IStringStream.afterUInt32s : Nat → IStringStream → IStringStream
  | 0, s => s
  | n + 1, s => IStringStream.afterUInt32s n s.extractUInt32.2

namespace InstanceScript

open EncounterState DoorType GOState

/-- The door with that guid is on the map and shown open (`GO_STATE_ACTIVE`). -/
def doorIsOpen (inst : InstanceScript) (guid : ObjectGuid) : Prop :=
  (inst.GetGameObject guid).map (fun g => g.goState) = some GO_STATE_ACTIVE

instance (inst : InstanceScript) (guid : ObjectGuid) : Decidable (inst.doorIsOpen guid) := by
  unfold doorIsOpen
  infer_instance

/-- The rule of one link, in the words of the specification: a Room link
says open iff the boss is not in progress, a Passage link iff the boss is
done, a SpawnHole link iff the boss is in progress; a link of any other type
has no rule and never says closed. -/
def linkSaysOpen (inst : InstanceScript) (info : DoorInfo) : Bool :=
  match info.type with
  | DOOR_TYPE_ROOM => decide (inst.bossState info.bossId ≠ IN_PROGRESS)
  | DOOR_TYPE_PASSAGE => decide (inst.bossState info.bossId = DONE)
  | DOOR_TYPE_SPAWN_HOLE => decide (inst.bossState info.bossId = IN_PROGRESS)
  | DOOR_TYPE_OTHER _ => true

/-- The door policy in the words of the specification: the conjunction of the
rules of all links. -/
def doorPolicy (inst : InstanceScript) (links : List DoorInfo) : Bool :=
  links.all (fun info => inst.linkSaysOpen info)

/-- The header part of the save format: each header character followed by one
space. -/
def headerText (hs : List Char) : List Char :=
  hs.flatMap (fun header => [header, ' '])

/-- A sequence of `uint32` tokens in the save format: each in decimal followed
by one space. -/
def tokenText (ts : List Nat) : List Char :=
  ts.flatMap (fun t => writeUInt32 t ++ [' '])

/-- The state a boss that is still in `TO_BE_DECIDED` is left in by one round
of `ReadSaveDataBossStates` whose `buff` holds `t`. -/
def loadedState (t : Nat) : EncounterState :=
  if t = 0 ∨ t = 1 ∨ t = 2 ∨ t = 4 then NOT_STARTED
  else if t = 3 then DONE
  else TO_BE_DECIDED

/-- What `buff` holds, before the coercion, in the round of
`ReadSaveDataBossStates` for boss `i`, when the loop starts at boss 0 on the
stream `data`: the extracted value, or the unset content when the extraction
stored nothing. -/
def bossBuffAt (u : Indeterminate) (data : IStringStream) (i : Nat) : Nat :=
  (data.afterUInt32s i).extractUInt32.1.getD (u.bossBuff i % 4294967296)

/-- Modelled from the spec: the constructor of `BossInfo` is in
`InstanceScript.h`, which is not among the sources. Freshly constructed, an
`InstanceScript` has all its bosses in the pre-load sentinel `TO_BE_DECIDED`,
the state whose first assignment `SetBossState` treats as loading. -/
def isFresh (inst : InstanceScript) : Prop :=
  ∀ b ∈ inst.bosses, b.state = TO_BE_DECIDED

instance (inst : InstanceScript) : Decidable inst.isFresh := by
  unfold isFresh
  infer_instance

/-- The queue after one tick, in the words of the specification: every delay
lowered by `diff`, the entries whose delay went negative removed, the others
kept in their order. -/
def tickQueue (diff : Nat) (queue : List (Int × Option DelayedOperation)) :
    List (Int × Option DelayedOperation) :=
  (queue.map (fun entry => (toInt32 (entry.1 - (diff : Int)), entry.2))).filter
    (fun entry => decide (0 ≤ entry.1))

/-- The callbacks a tick invokes: those of the entries whose delay goes
negative, in queue order. -/
def firedOperations (diff : Nat) (queue : List (Int × Option DelayedOperation)) :
    List DelayedOperation :=
  (queue.filter (fun entry => decide (toInt32 (entry.1 - (diff : Int)) < 0))).filterMap
    (fun entry => entry.2)

/-- A sequence of `UpdateOperations` calls; `none` when one of them throws. -/
def runTicks : List Nat → InstanceScript → Option InstanceScript
  | [], inst => some inst
  | diff :: rest, inst => (inst.UpdateOperations diff).bind (runTicks rest)

/-- How often the callback `operation` has been invoked according to a trace. -/
def callCount (operation : DelayedOperation) (trace : List Event) : Nat :=
  trace.count (Event.OperationCalled operation)

/-- How often the "queue drained" notification has been invoked according to a
trace. -/
def drainedCount (trace : List Event) : Nat :=
  trace.count Event.LastOperationCalled

/-- A call on the deferred-operation queue. -/
inductive QueueCall where
  | Schedule (timeout : Nat) (operation : DelayedOperation)
  | Tick (diff : Nat)
deriving DecidableEq, Repr

/-- A sequence of schedule and `UpdateOperations` calls; `none` when a tick
throws. -/
def runCalls : List QueueCall → InstanceScript → Option InstanceScript
  | [], inst => some inst
  | QueueCall.Schedule timeout operation :: rest, inst =>
    runCalls rest (inst.AddTimedDelayedOperation timeout operation)
  | QueueCall.Tick diff :: rest, inst => (inst.UpdateOperations diff).bind (runCalls rest)

/-- The key grants recorded in a trace, in order: player and granted level. -/
def keyGrants (trace : List Event) : List (ObjectGuid × Nat) :=
  trace.filterMap (fun e =>
    match e with
    | Event.AddChallengeKey player challengeLevel => some (player, challengeLevel)
    | _ => none)

/-! ## Sample instances -/

/-- An instance used to instantiate the statements below: two bosses, the
first in progress with a living world-boss minion and a passage door, the
second not yet loaded. -/
def sampleInstance : InstanceScript :=
  { headers := ['T', 'K']
    bosses := [{ state := IN_PROGRESS, door := [[], [9], []], minion := [5] }, { }]
    doors := [(77, { bossId := 0, type := DOOR_TYPE_PASSAGE })]
    minions := [(40, 0)]
    creatures := [{ guid := 5, entry := 40, isWorldBoss := true }]
    gameObjects := [{ guid := 9, entry := 77 }]
    players := [{ guid := 1 }, { guid := 2 }] }

/-- An instance whose only boss is still in the pre-load state and has a living
world-boss minion. -/
def unloadedBossWithWorldBoss : InstanceScript :=
  { bosses := [{ state := TO_BE_DECIDED, minion := [5] }]
    creatures := [{ guid := 5, isWorldBoss := true, IsAlive := true }] }

/-- An instance with a door that has a Room link to boss 0 (done) and a
SpawnHole link to boss 1 (in progress). -/
def twoLinkInstance : InstanceScript :=
  { bosses := [{ state := DONE, door := [[9], [], []] },
      { state := IN_PROGRESS, door := [[], [], [9]] }]
    doors := [(77, { bossId := 0, type := DOOR_TYPE_ROOM }),
      (12, { bossId := 0, type := DOOR_TYPE_PASSAGE }),
      (77, { bossId := 1, type := DOOR_TYPE_SPAWN_HOLE })]
    gameObjects := [{ guid := 9, entry := 77 }] }

/-- Buffers that happen to hold `'A'` and 0 wherever the source reads them
unset. -/
def idleBuffers : Indeterminate :=
  { headerBuff := fun _ => 'A', bossBuff := fun _ => 0 }

/-- An instance holding one boss in every state, with subclass data after the
boss states. -/
def savedInstance : InstanceScript :=
  { headers := ['T', 'K']
    bosses := [{ state := DONE }, { state := FAIL }, { state := NOT_STARTED },
      { state := IN_PROGRESS }, { state := SPECIAL }, { state := TO_BE_DECIDED }]
    saveDataMore := ['7', ' ', 'x'] }

/-- A freshly constructed instance with the headers and boss count of
`savedInstance`. -/
def freshInstance : InstanceScript :=
  { headers := ['T', 'K'], bosses := [{ }, { }, { }, { }, { }, { }] }

/-- An instance without headers and bosses whose map has a scenario. -/
def scenarioOnlyInstance : InstanceScript :=
  { hasInstanceScenario := true }

/-- The contents the unset locals have when each keeps what the previous use of
its stack slot left there: the header buffer the character `'A'` extracted one
round earlier, the boss buffer the value 3. -/
def staleBuffers : Indeterminate :=
  { headerBuff := fun _ => 'A', bossBuff := fun _ => 3 }

/-- An instance that expects the headers `A A` and has one boss, not started. -/
def repeatedHeaderInstance : InstanceScript :=
  { headers := ['A', 'A'], bosses := [{ state := NOT_STARTED }] }

/-- An instance with a registry, a queue holding one script callback, and an
active challenge run of mode 1 at level 4 with one recorded death. -/
def runningInstance : InstanceScript :=
  { bosses := [{ state := DONE }]
    players := [{ guid := 1, GetGuildId := 7 }, { guid := 2 }]
    mapId := 1763
    _objectGuids := [(10, 501), (11, 502)]
    timedDelayedOperations := [(30, some (DelayedOperation.Script 1))]
    mapChallengeModes := [(1, { ID := 244, CriteriaCount := [1800, 1500, 1200] }),
      (2, { ID := 245, CriteriaCount := [2400, 1900, 1400] })]
    _challengeModeStarted := true
    _challengeModeId := 1
    _challengeModeLevel := 4
    _challengeModeDeathCount := 1
    _affixes := [9, 7, 13, 0]
    _affixesTest := [9, 7, 13, 0] }

/-- An instance whose queue holds one script callback due after 30 ms and
whose latch is not set. -/
def queuedInstance : InstanceScript :=
  { timedDelayedOperations := [(30, some (DelayedOperation.Script 1))] }

/-- An instance with 5,400,001 players and one boss that is not started. -/
def crowdedInstance : InstanceScript :=
  { bosses := [{ state := NOT_STARTED }]
    players := List.replicate 5400001 { guid := 1 } }

/-- An instance without players whose only boss is not started and whose
recharge timer, left started by an earlier encounter, holds 77. -/
def emptyInstance : InstanceScript :=
  { bosses := [{ state := NOT_STARTED }]
    _combatResurrectionTimer := 77
    _combatResurrectionTimerStarted := true }

/-- An instance with two players in an encounter: 1 charge, 500 ms left on the
started recharge timer. -/
def rechargingInstance : InstanceScript :=
  { bosses := [{ state := IN_PROGRESS }]
    players := [{ guid := 1 }, { guid := 2 }]
    _combatResurrectionCharges := 1
    _combatResurrectionTimer := 500
    _combatResurrectionTimerStarted := true }

/-- How many of the players are in guild `guild`. -/
def guildMembers (players : List Player) (guild : Nat) : Nat :=
  (players.filter (fun player => decide (player.GetGuildId = guild))).length

/-- The sum of the counts a guild counter holds under the key `guild`. -/
def guildTotal (guild : Nat) (counter : List (Nat × Nat)) : Nat :=
  ((counter.filter (fun v => decide (v.1 = guild))).map (fun v => v.2)).sum

/-- An instance whose queue holds three script callbacks, due after 10, 50 and
20 ms. -/
def threeOperations : InstanceScript :=
  { timedDelayedOperations := [(10, some (DelayedOperation.Script 1)),
      (50, some (DelayedOperation.Script 2)), (20, some (DelayedOperation.Script 3))] }

/-- An active challenge run of mode 1 with five players: three in guild 7, one
in guild 9 and one without a guild. -/
def guildRunInstance : InstanceScript :=
  { players := [{ guid := 1, GetGuildId := 7 }, { guid := 2, GetGuildId := 9 },
      { guid := 3, GetGuildId := 7 }, { guid := 4 }, { guid := 5, GetGuildId := 7 }]
    mapChallengeModes := [(1, { ID := 244, CriteriaCount := [1800, 1500, 1200] })]
    _challengeModeStarted := true
    _challengeModeId := 1
    _challengeModeLevel := 4 }

/-- One round of the door loop at the end of `SetBossState`, for the guid
`guid`. -/
def doorRound (inst : InstanceScript) (guid : ObjectGuid) : InstanceScript :=
  match inst.GetGameObject guid with
  | some door => inst.UpdateDoorState door
  | none => inst

/-- A freshly constructed instance with the headers `T K` and one boss. -/
def oneBossInstance : InstanceScript :=
  { headers := ['T', 'K'], bosses := [{ }] }

end InstanceScript

/-! # Properties -/

namespace InstanceScript

open EncounterState DoorType GOState

/-! ## Frame lemmas: what each helper leaves alone -/

/-- A fold whose every step preserves a projection preserves it. -/
theorem foldl_preserves {α β : Type} (p : InstanceScript → β)
    (f : InstanceScript → α → InstanceScript) (h : ∀ acc x, p (f acc x) = p acc)
    (l : List α) (inst : InstanceScript) : p (l.foldl f inst) = p inst := by
  induction l generalizing inst with
  | nil => rfl
  | cons x xs ih => simp only [List.foldl_cons]; rw [ih, h]

@[simp] theorem emit_bosses (inst : InstanceScript) (e : Event) :
    (inst.emit e).bosses = inst.bosses := rfl

@[simp] theorem emit_trace (inst : InstanceScript) (e : Event) :
    (inst.emit e).trace = inst.trace ++ [e] := rfl

@[simp] theorem SetGoState_bosses (inst : InstanceScript) (g : ObjectGuid) (st : GOState) :
    (inst.SetGoState g st).bosses = inst.bosses := rfl

@[simp] theorem UpdateDoorState_bosses (inst : InstanceScript) (door : GameObject) :
    (inst.UpdateDoorState door).bosses = inst.bosses := by
  unfold UpdateDoorState
  split <;> rfl

@[simp] theorem updateDoors_bosses (inst : InstanceScript) (guids : List ObjectGuid) :
    (inst.updateDoors guids).bosses = inst.bosses := by
  unfold updateDoors
  apply foldl_preserves (fun i => i.bosses)
  intro acc guid
  dsimp only
  split
  · exact UpdateDoorState_bosses _ _
  · rfl

@[simp] theorem UpdateMinionState_bosses (inst : InstanceScript) (m : Creature)
    (st : EncounterState) : (inst.UpdateMinionState m st).bosses = inst.bosses := by
  unfold UpdateMinionState
  split
  · split
    · rfl
    · split <;> rfl
  · split
    · rfl
    · split <;> rfl
  · rfl

@[simp] theorem updateMinions_bosses (inst : InstanceScript) (guids : List ObjectGuid)
    (st : EncounterState) : (inst.updateMinions guids st).bosses = inst.bosses := by
  unfold updateMinions
  apply foldl_preserves (fun i => i.bosses)
  intro acc guid
  dsimp only
  split
  · exact UpdateMinionState_bosses _ _ _
  · rfl

@[simp] theorem SaveToDB_bosses (inst : InstanceScript) : inst.SaveToDB.bosses = inst.bosses := by
  unfold SaveToDB
  dsimp only
  split <;> split <;> rfl

@[simp] theorem procEncounterStart_bosses (inst : InstanceScript) :
    inst.procEncounterStart.bosses = inst.bosses := by
  unfold procEncounterStart
  apply foldl_preserves (fun i => i.bosses)
  intro acc player
  dsimp only
  split <;> rfl

@[simp] theorem enterState_bosses (inst : InstanceScript) (old st : EncounterState) :
    (inst.enterState old st).bosses = inst.bosses := by
  unfold enterState
  cases st <;> dsimp only
  · split <;> rfl
  · rw [procEncounterStart_bosses]
    unfold SendEncounterStart InitializeCombatResurrections
    dsimp only
    split <;> rfl
  all_goals rfl

@[simp] theorem assignState_bosses (inst : InstanceScript) (id : Nat) (st : EncounterState) :
    (inst.assignState id st).bosses =
      inst.bosses.modify (fun bossInfo => { bossInfo with state := st }) id := rfl

/-- After the assignment the boss holds the assigned state. -/
theorem bossState_assignState (inst : InstanceScript) (id : Nat) (st : EncounterState)
    (h : id < inst.bosses.length) : (inst.assignState id st).bossState id = st := by
  simp [bossState, List.getElem?_eq_getElem h]

/-- The assignment does not reach any other boss. -/
theorem bossState_assignState_ne (inst : InstanceScript) (id j : Nat) (st : EncounterState)
    (h : id ≠ j) : (inst.assignState id st).bossState j = inst.bossState j := by
  simp [bossState, List.getElem?_modify_ne _ _ h]

/-- Assigning to a boss the state it already has changes nothing. -/
theorem assignState_same (inst : InstanceScript) (id : Nat) (bossInfo : BossInfo)
    (h : inst.bosses[id]? = some bossInfo) : inst.assignState id bossInfo.state = inst := by
  have hb : inst.bosses.modify (fun b => { b with state := bossInfo.state }) id = inst.bosses := by
    apply List.ext_getElem?
    intro j
    rw [List.getElem?_modify]
    by_cases hj : id = j
    · subst hj
      simp [h]
    · simp [hj]
  unfold assignState
  rw [hb]

/-! ## `SetBossState` -/

/-- The world-boss scan finds something exactly when some minion guid of the
boss resolves to a creature that is a world boss and alive. -/
theorem worldBossMinionAlive_iff (inst : InstanceScript) (bossInfo : BossInfo) :
    inst.worldBossMinionAlive bossInfo = true ↔
      ∃ guid ∈ bossInfo.minion, ∃ minion, inst.GetCreature guid = some minion ∧
        minion.isWorldBoss = true ∧ minion.IsAlive = true := by
  unfold worldBossMinionAlive
  rw [List.any_eq_true]
  constructor
  · rintro ⟨guid, hmem, h⟩
    refine ⟨guid, hmem, ?_⟩
    cases hc : inst.GetCreature guid with
    | none => simp [hc] at h
    | some minion =>
      simp only [hc, Bool.and_eq_true] at h
      exact ⟨minion, rfl, h.1, h.2⟩
  · rintro ⟨guid, hmem, minion, hc, hw, ha⟩
    exact ⟨guid, hmem, by simp [hc, hw, ha]⟩

/-- C1. `SetBossState(id, newState)` returns true exactly when `id` is below
the boss-table size, the boss is not in the pre-load state `TO_BE_DECIDED`,
`newState` differs from the boss's state, and it is not the case that
`newState` is `DONE` while a minion of the boss resolves to a living world-boss
creature; and when it returns true the boss's state afterwards is `newState`. -/
theorem SetBossState_true_iff (inst : InstanceScript) (id : Nat) (newState : EncounterState) :
    ((inst.SetBossState id newState).1 = true ↔
      (id < inst.bosses.length ∧ inst.bossState id ≠ TO_BE_DECIDED ∧
        newState ≠ inst.bossState id ∧
        ¬ (newState = DONE ∧
          ∃ guid ∈ (inst.bosses[id]?.getD {}).minion, ∃ minion,
            inst.GetCreature guid = some minion ∧ minion.isWorldBoss = true ∧
              minion.IsAlive = true))) ∧
    ((inst.SetBossState id newState).1 = true →
      (inst.SetBossState id newState).2.bossState id = newState) := by
  cases hb : inst.bosses[id]? with
  | none =>
    have hlen : ¬ id < inst.bosses.length := by
      intro h
      rw [List.getElem?_eq_getElem h] at hb
      cases hb
    simp [SetBossState, hb, hlen]
  | some bossInfo =>
    have hlen : id < inst.bosses.length := by
      by_contra h
      rw [List.getElem?_eq_none (Nat.le_of_not_lt h)] at hb
      cases hb
    have hst : inst.bossState id = bossInfo.state := by simp [bossState, hb]
    rw [← worldBossMinionAlive_iff]
    simp only [hst, hb, Option.getD_some]
    unfold SetBossState
    simp only [hb]
    by_cases h1 : bossInfo.state = TO_BE_DECIDED
    · rw [if_pos h1]
      simp [h1]
    · rw [if_neg h1]
      by_cases h2 : bossInfo.state = newState
      · rw [if_pos h2]
        simp [h2]
      · rw [if_neg h2]
        have h2' : newState ≠ bossInfo.state := fun h => h2 h.symm
        by_cases h3 : newState = DONE ∧ inst.worldBossMinionAlive bossInfo = true
        · rw [if_pos h3]
          simp [h3]
        · rw [if_neg h3]
          refine ⟨?_, ?_⟩
          · simp only [true_iff]
            exact ⟨hlen, h1, h2', h3⟩
          · intro _
            simp only [bossState, updateMinions_bosses, updateDoors_bosses, SaveToDB_bosses]
            have := bossState_assignState (inst.enterState bossInfo.state newState) id newState
              (by simpa using hlen)
            simpa [bossState] using this

/-- C2, refuted as stated. The only boss has a living world-boss minion, yet
`SetBossState(0, DONE)` on it, still in the pre-load state, stores `DONE`: the
state does not stay what it was. -/
theorem SetBossState_done_guard_counterexample :
    (0 < unloadedBossWithWorldBoss.bosses.length ∧
      ∃ guid ∈ (unloadedBossWithWorldBoss.bosses[0]?.getD ({ } : BossInfo)).minion, ∃ minion,
        unloadedBossWithWorldBoss.GetCreature guid = some minion ∧
          minion.isWorldBoss = true ∧ minion.IsAlive = true) ∧
    unloadedBossWithWorldBoss.bossState 0 = TO_BE_DECIDED ∧
    (unloadedBossWithWorldBoss.SetBossState 0 DONE).2.bossState 0 = DONE := by
  refine ⟨⟨by decide, 5, by decide, { guid := 5, isWorldBoss := true, IsAlive := true }, ?_, rfl,
    rfl⟩, ?_, ?_⟩ <;> decide

/-- C2, amended. For a boss in range that is not in the pre-load state
`TO_BE_DECIDED`: if a minion of the boss resolves to a living world-boss
creature, `SetBossState(id, DONE)` returns false and the whole instance, the
boss's state and the trace of saves and broadcasts included, is unchanged. -/
theorem SetBossState_done_guard (inst : InstanceScript) (id : Nat) (bossInfo : BossInfo)
    (hboss : inst.bosses[id]? = some bossInfo) (hloaded : bossInfo.state ≠ TO_BE_DECIDED)
    (hminion : ∃ guid ∈ bossInfo.minion, ∃ minion, inst.GetCreature guid = some minion ∧
      minion.isWorldBoss = true ∧ minion.IsAlive = true) :
    inst.SetBossState id DONE = (false, inst) := by
  rw [← worldBossMinionAlive_iff] at hminion
  unfold SetBossState
  simp only [hboss]
  rw [if_neg hloaded]
  by_cases h2 : bossInfo.state = DONE
  · rw [if_pos h2]
  · rw [if_neg h2]
    simp [hminion]

/-- The guard of C2 at `sampleInstance`: boss 0 is in progress and its minion 5
is a living world boss. -/
theorem SetBossState_done_guard_witness :
    sampleInstance.bosses[0]? =
        some { state := IN_PROGRESS, door := [[], [9], []], minion := [5] } ∧
      sampleInstance.SetBossState 0 DONE = (false, sampleInstance) :=
  ⟨rfl, SetBossState_done_guard sampleInstance 0
    { state := IN_PROGRESS, door := [[], [9], []], minion := [5] } rfl (by decide)
    ⟨5, List.mem_singleton.mpr rfl, { guid := 5, entry := 40, isWorldBoss := true }, rfl, rfl,
      rfl⟩⟩

/-- C3. For a boss in range whose state already is `s`, `SetBossState(id, s)`
returns false and leaves the whole instance unchanged: every boss state, the
combat-resurrection fields, and the trace (no broadcast, no save). -/
theorem SetBossState_same_state (inst : InstanceScript) (id : Nat) (bossInfo : BossInfo)
    (s : EncounterState) (hboss : inst.bosses[id]? = some bossInfo) (hs : bossInfo.state = s) :
    inst.SetBossState id s = (false, inst) := by
  subst hs
  unfold SetBossState
  simp only [hboss]
  by_cases h1 : bossInfo.state = TO_BE_DECIDED
  · rw [if_pos h1, assignState_same inst id bossInfo hboss]
  · rw [if_neg h1]
    simp

/-- C3 at `sampleInstance`: boss 0 is in progress and is set to in progress
again; boss 1 is unloaded and is set to `TO_BE_DECIDED` again. -/
theorem SetBossState_same_state_witness :
    sampleInstance.SetBossState 0 IN_PROGRESS = (false, sampleInstance) ∧
      sampleInstance.SetBossState 1 TO_BE_DECIDED = (false, sampleInstance) :=
  ⟨SetBossState_same_state sampleInstance 0 _ IN_PROGRESS rfl rfl,
    SetBossState_same_state sampleInstance 1 { } TO_BE_DECIDED rfl rfl⟩

/-- C4. For a boss in range that is in the pre-load state `TO_BE_DECIDED`,
`SetBossState(id, newState)` returns false and the instance afterwards differs
from the one before only in that boss's `state`, which is `newState`: the
combat-resurrection fields, the trace (no broadcast, no save), the game objects
(no door update) and the creatures (no minion update) are as before. -/
theorem SetBossState_first_assignment (inst : InstanceScript) (id : Nat) (bossInfo : BossInfo)
    (newState : EncounterState) (hboss : inst.bosses[id]? = some bossInfo)
    (hfresh : bossInfo.state = TO_BE_DECIDED) :
    inst.SetBossState id newState =
      (false, { inst with bosses := inst.bosses.set id { bossInfo with state := newState } }) := by
  unfold SetBossState
  simp only [hboss]
  rw [if_pos hfresh]
  unfold assignState
  congr 2
  apply List.ext_getElem?
  intro j
  rw [List.getElem?_modify, List.getElem?_set]
  by_cases hj : id = j
  · subst hj
    have hlen : id < inst.bosses.length := by
      by_contra h
      rw [List.getElem?_eq_none (Nat.le_of_not_lt h)] at hboss
      cases hboss
    simp [hboss, hlen]
  · simp [hj]

/-- C4 at `sampleInstance`: boss 1 is unloaded; setting it to `DONE` returns
false, stores `DONE`, and leaves the trace and the combat-resurrection fields
alone. -/
theorem SetBossState_first_assignment_witness :
    sampleInstance.bosses[1]? = some ({ } : BossInfo) ∧
      sampleInstance.SetBossState 1 DONE =
        (false, { sampleInstance with
          bosses := sampleInstance.bosses.set 1 { ({ } : BossInfo) with state := DONE } }) :=
  ⟨rfl, SetBossState_first_assignment sampleInstance 1 { } DONE rfl rfl⟩

/-! ## `UpdateDoorState` -/

/-- Once `isOpen` is false the loop of `UpdateDoorState` stops with false. -/
theorem UpdateDoorState_loop_false (inst : InstanceScript) (links : List DoorInfo) :
    UpdateDoorState.loop inst links false = false := by
  cases links <;> simp [UpdateDoorState.loop]

/-- The short-circuiting loop, entered with `isOpen = true`, computes the
conjunction of the link rules. -/
theorem UpdateDoorState_loop_eq_doorPolicy (inst : InstanceScript) (links : List DoorInfo) :
    UpdateDoorState.loop inst links true = inst.doorPolicy links := by
  induction links with
  | nil => rfl
  | cons info rest ih =>
    have hstep : UpdateDoorState.loop inst (info :: rest) true =
        UpdateDoorState.loop inst rest (inst.linkSaysOpen info) := by
      simp only [UpdateDoorState.loop, linkSaysOpen, if_true]
    rw [hstep]
    unfold doorPolicy
    rw [List.all_cons]
    cases hl : inst.linkSaysOpen info
    · rw [UpdateDoorState_loop_false]
      rfl
    · rw [ih]
      rfl

/-- The conjunction of the link rules does not depend on the order of the
links. -/
theorem doorPolicy_perm (inst : InstanceScript) {l1 l2 : List DoorInfo} (h : l1.Perm l2) :
    inst.doorPolicy l1 = inst.doorPolicy l2 := by
  unfold doorPolicy
  rw [Bool.eq_iff_iff, List.all_eq_true, List.all_eq_true]
  exact ⟨fun H x hx => H x (h.mem_iff.mpr hx), fun H x hx => H x (h.mem_iff.mp hx)⟩

/-- Looking a door up after `SetGoState` on its guid gives the same object with
the new go-state. -/
theorem GetGameObject_SetGoState (inst : InstanceScript) (door : GameObject) (st : GOState)
    (h : inst.GetGameObject door.guid = some door) :
    (inst.SetGoState door.guid st).GetGameObject door.guid = some { door with goState := st } := by
  unfold GetGameObject SetGoState at *
  dsimp only
  rw [List.find?_map]
  have hfun : ((fun g : GameObject => decide (g.guid = door.guid)) ∘
      fun g : GameObject => if g.guid = door.guid then { g with goState := st } else g) =
      fun g => decide (g.guid = door.guid) := by
    funext g
    simp only [Function.comp]
    split <;> rfl
  rw [hfun, h]
  simp

/-- What `UpdateDoorState` does to a door on the map that has at least one
link: it is open afterwards iff the loop's result is true. -/
theorem doorIsOpen_UpdateDoorState (inst : InstanceScript) (door : GameObject)
    (hdoor : inst.GetGameObject door.guid = some door) (hlinks : inst.doorRange door.entry ≠ []) :
    (inst.UpdateDoorState door).doorIsOpen door.guid ↔
      UpdateDoorState.loop inst (inst.doorRange door.entry) true = true := by
  unfold UpdateDoorState doorIsOpen
  cases hr : inst.doorRange door.entry with
  | nil => exact absurd hr hlinks
  | cons info range =>
    dsimp only
    rw [GetGameObject_SetGoState inst door _ hdoor]
    cases UpdateDoorState.loop inst (info :: range) true <;> simp

/-- C5. For a door on the map whose entry has exactly one link, to boss `B`:
after `UpdateDoorState` the door is open iff `B` is not `IN_PROGRESS` for a
Room link, iff `B` is `DONE` for a Passage link, and iff `B` is `IN_PROGRESS`
for a SpawnHole link. -/
theorem UpdateDoorState_single_link (inst : InstanceScript) (door : GameObject) (B : Nat)
    (bossInfo : BossInfo) (type : DoorType)
    (hdoor : inst.GetGameObject door.guid = some door)
    (hlink : inst.doorRange door.entry = [{ bossId := B, type := type }])
    (hboss : inst.bosses[B]? = some bossInfo) :
    (type = DOOR_TYPE_ROOM →
      ((inst.UpdateDoorState door).doorIsOpen door.guid ↔ bossInfo.state ≠ IN_PROGRESS)) ∧
    (type = DOOR_TYPE_PASSAGE →
      ((inst.UpdateDoorState door).doorIsOpen door.guid ↔ bossInfo.state = DONE)) ∧
    (type = DOOR_TYPE_SPAWN_HOLE →
      ((inst.UpdateDoorState door).doorIsOpen door.guid ↔ bossInfo.state = IN_PROGRESS)) := by
  have hst : inst.bossState B = bossInfo.state := by simp [bossState, hboss]
  have hne : inst.doorRange door.entry ≠ [] := by simp [hlink]
  rw [doorIsOpen_UpdateDoorState inst door hdoor hne, hlink]
  refine ⟨?_, ?_, ?_⟩ <;> intro ht <;> subst ht <;> simp [UpdateDoorState.loop, hst]

/-- C5 at `sampleInstance`: door 9 has the single Passage link to boss 0, which
is in progress, so the door is not open after the update. -/
theorem UpdateDoorState_single_link_witness :
    (sampleInstance.GetGameObject 9 = some { guid := 9, entry := 77 } ∧
      sampleInstance.doorRange 77 = [{ bossId := 0, type := DOOR_TYPE_PASSAGE }]) ∧
    ((sampleInstance.UpdateDoorState { guid := 9, entry := 77 }).doorIsOpen 9 ↔
      IN_PROGRESS = DONE) :=
  ⟨⟨rfl, rfl⟩,
    (UpdateDoorState_single_link sampleInstance { guid := 9, entry := 77 } 0
      { state := IN_PROGRESS, door := [[], [9], []], minion := [5] } DOOR_TYPE_PASSAGE
      rfl rfl rfl).2.1 rfl⟩

/-- C6. For a door on the map with one or more links: after `UpdateDoorState`
the door is open iff every link's rule says open; the short-circuiting loop
returns the conjunction of all link rules; and it returns the same for every
reordering of the links. -/
theorem UpdateDoorState_all_links (inst : InstanceScript) (door : GameObject)
    (hdoor : inst.GetGameObject door.guid = some door) (hlinks : inst.doorRange door.entry ≠ []) :
    ((inst.UpdateDoorState door).doorIsOpen door.guid ↔
      ∀ info ∈ inst.doorRange door.entry, inst.linkSaysOpen info = true) ∧
    UpdateDoorState.loop inst (inst.doorRange door.entry) true =
      inst.doorPolicy (inst.doorRange door.entry) ∧
    ∀ links : List DoorInfo, links.Perm (inst.doorRange door.entry) →
      UpdateDoorState.loop inst links true =
        UpdateDoorState.loop inst (inst.doorRange door.entry) true := by
  refine ⟨?_, UpdateDoorState_loop_eq_doorPolicy _ _, ?_⟩
  · rw [doorIsOpen_UpdateDoorState inst door hdoor hlinks, UpdateDoorState_loop_eq_doorPolicy]
    unfold doorPolicy
    rw [List.all_eq_true]
  · intro links hperm
    rw [UpdateDoorState_loop_eq_doorPolicy, UpdateDoorState_loop_eq_doorPolicy]
    exact doorPolicy_perm inst hperm

/-- C6 at `twoLinkInstance`: door 9 has two links and both rules say open, so
the door is open after the update. -/
theorem UpdateDoorState_all_links_witness :
    (twoLinkInstance.GetGameObject 9 = some { guid := 9, entry := 77 } ∧
      twoLinkInstance.doorRange 77 =
        [{ bossId := 0, type := DOOR_TYPE_ROOM }, { bossId := 1, type := DOOR_TYPE_SPAWN_HOLE }]) ∧
    (twoLinkInstance.UpdateDoorState { guid := 9, entry := 77 }).doorIsOpen 9 :=
  ⟨⟨rfl, rfl⟩,
    (UpdateDoorState_all_links twoLinkInstance { guid := 9, entry := 77 } rfl (by decide)).1.mpr
      (by decide)⟩

end InstanceScript

/-! ## Stream lemmas -/

theorem isspace_of_isalpha {c : Char} (h : isalpha c = true) : isspace c = false := by
  simp only [isalpha, Bool.or_eq_true, Bool.and_eq_true, decide_eq_true_eq] at h
  simp only [isspace, Bool.or_eq_false_iff, Bool.and_eq_false_iff, decide_eq_false_iff_not]
  omega

theorem isspace_of_isdigit {c : Char} (h : isdigit c = true) : isspace c = false := by
  simp only [isdigit, Bool.and_eq_true, decide_eq_true_eq] at h
  simp only [isspace, Bool.or_eq_false_iff, Bool.and_eq_false_iff, decide_eq_false_iff_not]
  omega

theorem not_sign_of_isdigit {c : Char} (h : isdigit c = true) : c ≠ '-' ∧ c ≠ '+' := by
  constructor <;> intro hc <;> subst hc <;> revert h <;> decide

/-- Every digit character `Nat.toDigits` produces in base 10 is a decimal digit
with the digit's value. -/
theorem digitChar_lt_ten (m : Nat) (h : m < 10) :
    isdigit (Nat.digitChar m) = true ∧ (Nat.digitChar m).toNat - 48 = m := by
  interval_cases m <;> decide

theorem digitsValue_append_singleton (pre : List Char) (c : Char) :
    digitsValue (pre ++ [c]) = digitsValue pre * 10 + (c.toNat - 48) := by
  simp [digitsValue, List.foldl_append]

/-- The digits `Nat.toDigitsCore` puts in front of its accumulator are a
non-empty run of decimal digits whose value is the number. -/
theorem toDigitsCore_spec (fuel n : Nat) (acc : List Char) (h : n < fuel) :
    ∃ pre : List Char, Nat.toDigitsCore 10 fuel n acc = pre ++ acc ∧ pre ≠ [] ∧
      (∀ c ∈ pre, isdigit c = true) ∧ digitsValue pre = n := by
  induction fuel generalizing n acc with
  | zero => omega
  | succ fuel ih =>
    have hd := digitChar_lt_ten (n % 10) (Nat.mod_lt _ (by decide))
    unfold Nat.toDigitsCore
    dsimp only
    by_cases h0 : n / 10 = 0
    · rw [if_pos h0]
      refine ⟨[Nat.digitChar (n % 10)], rfl, by simp, ?_, ?_⟩
      · intro c hc
        rw [List.mem_singleton] at hc
        rw [hc]
        exact hd.1
      · have : digitsValue [Nat.digitChar (n % 10)] = (Nat.digitChar (n % 10)).toNat - 48 := by
          simp [digitsValue]
        rw [this, hd.2]
        omega
    · rw [if_neg h0]
      obtain ⟨pre, hpre, _, hdig, hval⟩ := ih (n / 10) (Nat.digitChar (n % 10) :: acc) (by omega)
      refine ⟨pre ++ [Nat.digitChar (n % 10)], ?_, by simp, ?_, ?_⟩
      · rw [hpre]
        simp
      · intro c hc
        rw [List.mem_append, List.mem_singleton] at hc
        rcases hc with hc | hc
        · exact hdig c hc
        · rw [hc]
          exact hd.1
      · rw [digitsValue_append_singleton, hval, hd.2]
        omega

/-- What `data << uint32(x)` writes is a non-empty run of decimal digits whose
value is `x`. -/
theorem writeUInt32_spec (x : Nat) :
    writeUInt32 x ≠ [] ∧ (∀ c ∈ writeUInt32 x, isdigit c = true) ∧
      digitsValue (writeUInt32 x) = x := by
  obtain ⟨pre, hpre, hne, hdig, hval⟩ := toDigitsCore_spec (x + 1) x [] (by omega)
  have : writeUInt32 x = pre := by
    unfold writeUInt32 Nat.toDigits
    rw [hpre]
    simp
  rw [this]
  exact ⟨hne, hdig, hval⟩

namespace IStringStream

/-- A good stream whose buffer, after the leading whitespace, starts with `c`
passes the sentry positioned at `c`. -/
theorem sentry_of_dropWhile (s : IStringStream) (c : Char) (cs : List Char)
    (hgood : s.good = true) (hbuf : s.buf.dropWhile isspace = c :: cs) :
    s.sentry = (true, { buf := c :: cs, eofbit := false, failbit := false }) := by
  unfold sentry
  rw [if_pos hgood, hbuf]
  simp only [good, Bool.and_eq_true, Bool.not_eq_true'] at hgood
  cases s
  simp_all

/-- Extraction of a character from a good stream: the first non-whitespace
character. -/
theorem extractChar_of_dropWhile (s : IStringStream) (c : Char) (cs : List Char)
    (hgood : s.good = true) (hbuf : s.buf.dropWhile isspace = c :: cs) :
    s.extractChar = (some c, { buf := cs, eofbit := false, failbit := false }) := by
  unfold extractChar
  rw [sentry_of_dropWhile s c cs hgood hbuf]

/-- Extraction of a `uint32` from a good stream whose buffer continues, after
the leading whitespace, with a non-empty run of digits of value at most
`UINT32_MAX` and then a character that is not a digit. -/
theorem extractUInt32_of_digits (s : IStringStream) (ds : List Char) (c : Char) (rest : List Char)
    (hgood : s.good = true) (hbuf : s.buf.dropWhile isspace = ds ++ c :: rest)
    (hne : ds ≠ []) (hds : ∀ d ∈ ds, isdigit d = true) (hc : isdigit c = false)
    (hval : digitsValue ds ≤ UINT32_MAX) :
    s.extractUInt32 =
      (some (digitsValue ds), { buf := c :: rest, eofbit := false, failbit := false }) := by
  cases ds with
  | nil => exact absurd rfl hne
  | cons d ds' =>
    have hd : isdigit d = true := hds d (List.mem_cons_self _ _)
    have hsign := not_sign_of_isdigit hd
    have htake : List.takeWhile isdigit (d :: ds' ++ c :: rest) = d :: ds' := by
      rw [List.takeWhile_append_of_pos hds]
      simp [hc]
    have hdrop : List.dropWhile isdigit (d :: ds' ++ c :: rest) = c :: rest := by
      rw [List.dropWhile_append_of_pos hds]
      simp [hc]
    unfold extractUInt32
    rw [sentry_of_dropWhile s d (ds' ++ c :: rest) hgood (by simpa using hbuf)]
    simp only [if_neg hsign.1, if_neg hsign.2]
    have htake' : List.takeWhile isdigit (d :: (ds' ++ c :: rest)) = d :: ds' := by simpa using htake
    have hdrop' : List.dropWhile isdigit (d :: (ds' ++ c :: rest)) = c :: rest := by
      simpa using hdrop
    rw [htake', hdrop']
    simp only [List.isEmpty_cons, Bool.false_eq_true, if_false]
    rw [if_neg (Nat.not_lt.mpr hval)]

end IStringStream

/-- A list that starts with a character that is not whitespace loses nothing
when leading whitespace is dropped. -/
theorem dropWhile_isspace_cons {c : Char} (cs : List Char) (h : isspace c = false) :
    List.dropWhile isspace (c :: cs) = c :: cs := by
  simp [h]

theorem dropWhile_isspace_idem (l : List Char) :
    List.dropWhile isspace (List.dropWhile isspace l) = List.dropWhile isspace l := by
  induction l with
  | nil => rfl
  | cons c cs ih =>
    cases hc : isspace c
    · simp [hc]
    · simpa [hc] using ih

namespace InstanceScript

open EncounterState DoorType GOState

/-! ## The save format -/

theorem foldl_append_eq_flatMap {α : Type} (f : α → List Char) (l : List α) (data : List Char) :
    l.foldl (fun out x => out ++ f x) data = data ++ l.flatMap f := by
  induction l generalizing data with
  | nil => simp
  | cons x xs ih => simp [List.foldl_cons, ih, List.flatMap_cons, List.append_assoc]

/-- The string `GetSaveData` returns, in closed form. -/
theorem GetSaveData_eq (inst : InstanceScript) :
    inst.GetSaveData =
      headerText inst.headers ++ tokenText (inst.bosses.map (fun b => b.state.toNat)) ++
        inst.saveDataMore := by
  have h1 : inst.WriteSaveDataHeaders [] = headerText inst.headers := by
    unfold WriteSaveDataHeaders headerText
    have := foldl_append_eq_flatMap (fun header => [header, ' ']) inst.headers []
    simpa [List.append_assoc] using this
  have h2 : ∀ data, inst.WriteSaveDataBossStates data =
      data ++ tokenText (inst.bosses.map (fun b => b.state.toNat)) := by
    intro data
    unfold WriteSaveDataBossStates tokenText
    have := foldl_append_eq_flatMap (fun b : BossInfo => writeUInt32 b.state.toNat ++ [' '])
      inst.bosses data
    simp only [List.append_assoc] at this ⊢
    rw [this, List.flatMap_map]
  unfold GetSaveData WriteSaveDataMore
  rw [h1, h2]

/-! ## Reading back what was written -/

/-- When the buffer continues with the text of the expected headers, every
comparison of `ReadSaveDataHeaders` succeeds and the stream is left, still
good, in front of what follows the header text. -/
theorem ReadSaveDataHeaders_loop_headerText (u : Indeterminate) (rest : List Char) :
    ∀ (hs : List Char) (pos : Nat) (data : IStringStream),
      (∀ h ∈ hs, isspace h = false) → data.good = true →
      data.buf.dropWhile isspace = (headerText hs ++ rest).dropWhile isspace →
      ∃ d : IStringStream, ReadSaveDataHeaders.loop u hs pos data = (true, d) ∧ d.good = true ∧
        d.buf.dropWhile isspace = rest.dropWhile isspace := by
  intro hs
  induction hs with
  | nil =>
    intro pos data _ hgood hbuf
    exact ⟨data, rfl, hgood, by simpa [headerText] using hbuf⟩
  | cons h hs ih =>
    intro pos data hns hgood hbuf
    have hh : isspace h = false := hns h (List.mem_cons_self _ _)
    have hbuf' : data.buf.dropWhile isspace = h :: ' ' :: (headerText hs ++ rest) := by
      rw [hbuf]
      simp [headerText, List.flatMap_cons, hh]
    have hext := IStringStream.extractChar_of_dropWhile data h _ hgood hbuf'
    obtain ⟨d, hd, hdg, hdb⟩ := ih (pos + 1)
      { buf := ' ' :: (headerText hs ++ rest), eofbit := false, failbit := false }
      (fun c hc => hns c (List.mem_cons_of_mem _ hc)) rfl
      (by
        have hsp : isspace ' ' = true := by decide
        simp [hsp])
    refine ⟨d, ?_, hdg, hdb⟩
    rw [ReadSaveDataHeaders.loop]
    simp only [hext, Option.getD_some, ne_eq, not_true_eq_false, if_false]
    exact hd

/-- On a boss still in `TO_BE_DECIDED`, `SetBossState` takes the loading branch. -/
theorem SetBossState_loading (inst : InstanceScript) (id : Nat) (bossInfo : BossInfo)
    (st : EncounterState) (hboss : inst.bosses[id]? = some bossInfo)
    (hfresh : bossInfo.state = TO_BE_DECIDED) :
    inst.SetBossState id st = (false, inst.assignState id st) := by
  unfold SetBossState
  simp only [hboss]
  rw [if_pos hfresh]

/-- One round of the loop body of `ReadSaveDataBossStates` on a boss still in
`TO_BE_DECIDED`: only that boss's state changes, to `loadedState t`. -/
theorem loadRound_fresh (inst : InstanceScript) (k : Nat) (bossInfo : BossInfo) (t : Nat)
    (hboss : inst.bosses[k]? = some bossInfo) (hfresh : bossInfo.state = TO_BE_DECIDED) :
    (if (if t = IN_PROGRESS.toNat ∨ t = FAIL.toNat ∨ t = SPECIAL.toNat then NOT_STARTED.toNat
          else t) < TO_BE_DECIDED.toNat
      then (inst.SetBossState k (EncounterState.ofUInt32
        (if t = IN_PROGRESS.toNat ∨ t = FAIL.toNat ∨ t = SPECIAL.toNat then NOT_STARTED.toNat
          else t))).2
      else inst) = inst.assignState k (loadedState t) := by
  by_cases h5 : t < 5
  · have hcases : t = 0 ∨ t = 1 ∨ t = 2 ∨ t = 3 ∨ t = 4 := by omega
    rcases hcases with h | h | h | h | h <;> subst h <;>
      simp [EncounterState.toNat, EncounterState.ofUInt32, loadedState,
        SetBossState_loading inst k bossInfo _ hboss hfresh]
  · have hl : loadedState t = TO_BE_DECIDED := by
      unfold loadedState
      rw [if_neg (by omega), if_neg (by omega)]
    have h1 : ¬ (t = IN_PROGRESS.toNat ∨ t = FAIL.toNat ∨ t = SPECIAL.toNat) := by
      simp only [EncounterState.toNat]
      omega
    rw [if_neg h1, if_neg (by simpa [EncounterState.toNat] using h5), hl, ← hfresh]
    exact (assignState_same inst k bossInfo hboss).symm

/-- The text of a token list, after leading whitespace, starts with the digits
of its first token. -/
theorem dropWhile_tokenText_cons (t : Nat) (ts : List Nat) (rest : List Char) :
    List.dropWhile isspace (tokenText (t :: ts) ++ rest) =
      writeUInt32 t ++ ' ' :: (tokenText ts ++ rest) := by
  obtain ⟨hne, hdig, _⟩ := writeUInt32_spec t
  have hshape : tokenText (t :: ts) ++ rest = writeUInt32 t ++ ' ' :: (tokenText ts ++ rest) := by
    simp [tokenText, List.flatMap_cons, List.append_assoc]
  rw [hshape]
  cases hw : writeUInt32 t with
  | nil => exact absurd hw hne
  | cons d ds =>
    have hd : isdigit d = true := hdig d (by rw [hw]; exact List.mem_cons_self _ _)
    exact dropWhile_isspace_cons _ (isspace_of_isdigit hd)

/-- `ReadSaveDataBossStates` on an instance whose bosses from `k` on are still
in `TO_BE_DECIDED`, reading tokens written in the save format: boss `k + i` is
left in `loadedState` of the `i`-th token, nothing but boss states changes,
and the stream is left, still good, in front of what follows the tokens. -/
theorem ReadSaveDataBossStates_loop_tokenText (u : Indeterminate) (rest : List Char) :
    ∀ (ts : List Nat) (k : Nat) (inst : InstanceScript) (data : IStringStream),
      data.good = true →
      data.buf.dropWhile isspace = (tokenText ts ++ rest).dropWhile isspace →
      (∀ t ∈ ts, t ≤ UINT32_MAX) →
      (∀ j bossInfo, k ≤ j → inst.bosses[j]? = some bossInfo → bossInfo.state = TO_BE_DECIDED) →
      k + ts.length ≤ inst.bosses.length →
      ∃ (inst1 : InstanceScript) (d : IStringStream),
        ReadSaveDataBossStates.loop u ts.length k inst data = (inst1, d) ∧
        d.good = true ∧ d.buf.dropWhile isspace = rest.dropWhile isspace ∧
        inst1.bosses.length = inst.bosses.length ∧
        { inst1 with bosses := inst.bosses } = inst ∧
        ∀ j, inst1.bossState j =
          if k ≤ j ∧ j < k + ts.length then loadedState (ts.getD (j - k) 0)
          else inst.bossState j := by
  intro ts
  induction ts with
  | nil =>
    intro k inst data hgood hbuf _ _ _
    refine ⟨inst, data, rfl, hgood, by simpa [tokenText] using hbuf, rfl, rfl, ?_⟩
    intro j
    rw [if_neg]
    simp
  | cons t ts ih =>
    intro k inst data hgood hbuf hmax hfresh hlen
    simp only [List.length_cons] at hlen
    obtain ⟨hne, hdig, hval⟩ := writeUInt32_spec t
    have hk : k < inst.bosses.length := by omega
    have hbk : inst.bosses[k]? = some inst.bosses[k] := List.getElem?_eq_getElem hk
    have hfk : (inst.bosses[k]).state = TO_BE_DECIDED := hfresh k _ (Nat.le_refl k) hbk
    rw [dropWhile_tokenText_cons] at hbuf
    have hext := IStringStream.extractUInt32_of_digits data (writeUInt32 t) ' '
      (tokenText ts ++ rest) hgood hbuf hne hdig (by decide)
      (by rw [hval]; exact hmax t (List.mem_cons_self _ _))
    rw [hval] at hext
    obtain ⟨inst1, d, hloop, hdg, hdb, hl1, hframe, hstates⟩ := ih (k + 1)
      (inst.assignState k (loadedState t))
      { buf := ' ' :: (tokenText ts ++ rest), eofbit := false, failbit := false } rfl
      (by
        have hsp : isspace ' ' = true := by decide
        simp [hsp])
      (fun x hx => hmax x (List.mem_cons_of_mem _ hx))
      (by
        intro j bossInfo hj hb
        have hne : k ≠ j := by omega
        rw [assignState_bosses, List.getElem?_modify_ne _ _ hne] at hb
        exact hfresh j bossInfo (by omega) hb)
      (by rw [assignState_bosses, List.length_modify]; omega)
    refine ⟨inst1, d, ?_, hdg, hdb, ?_, ?_, ?_⟩
    · rw [List.length_cons, ReadSaveDataBossStates.loop]
      simp only [hext, Option.getD_some]
      rw [loadRound_fresh inst k _ t hbk hfk]
      exact hloop
    · rw [hl1, assignState_bosses, List.length_modify]
    · have h2 : ({ inst1 with bosses := inst.bosses } : InstanceScript) =
          { ({ inst1 with bosses := (inst.assignState k (loadedState t)).bosses } :
              InstanceScript) with bosses := inst.bosses } := rfl
      rw [h2, hframe]
      rfl
    · intro j
      rw [hstates j]
      by_cases hjk : j = k
      · subst hjk
        rw [if_neg (by omega), if_pos (by simp), bossState_assignState _ _ _ hk]
        simp
      · rw [bossState_assignState_ne _ _ _ _ (fun h => hjk h.symm)]
        by_cases hin : k + 1 ≤ j ∧ j < k + 1 + ts.length
        · rw [if_pos hin, if_pos (by simp only [List.length_cons]; omega)]
          have hsub : j - k = (j - (k + 1)) + 1 := by omega
          rw [hsub, List.getD_cons_succ]
        · rw [if_neg hin, if_neg (by simp only [List.length_cons]; omega)]

/-- Whatever path `SetBossState` takes, the bosses other than `id` keep their
state. -/
theorem SetBossState_bossState_ne (inst : InstanceScript) (id j : Nat) (st : EncounterState)
    (h : id ≠ j) : (inst.SetBossState id st).2.bossState j = inst.bossState j := by
  unfold SetBossState
  cases hb : inst.bosses[id]? with
  | none => rfl
  | some bossInfo =>
    dsimp only
    split
    · exact bossState_assignState_ne inst id j st h
    · split
      · rfl
      · split
        · rfl
        · simp only [bossState, updateMinions_bosses, updateDoors_bosses, SaveToDB_bosses,
            assignState_bosses, enterState_bosses, List.getElem?_modify_ne _ _ h]

/-- `SetBossState` never changes the number of bosses. -/
theorem SetBossState_length (inst : InstanceScript) (id : Nat) (st : EncounterState) :
    (inst.SetBossState id st).2.bosses.length = inst.bosses.length := by
  unfold SetBossState
  cases hb : inst.bosses[id]? with
  | none => rfl
  | some bossInfo =>
    dsimp only
    split
    · simp
    · split
      · rfl
      · split
        · rfl
        · simp

/-- One round of the loop body of `ReadSaveDataBossStates` for boss `k` keeps
the state of every other boss. -/
theorem loadRound_bossState_ne (inst : InstanceScript) (k j buff : Nat) (h : k ≠ j) :
    (if buff < TO_BE_DECIDED.toNat then (inst.SetBossState k (EncounterState.ofUInt32 buff)).2
      else inst).bossState j = inst.bossState j := by
  split
  · exact SetBossState_bossState_ne inst k j _ h
  · rfl

/-- One round of the loop body of `ReadSaveDataBossStates` keeps the number of
bosses. -/
theorem loadRound_length (inst : InstanceScript) (k buff : Nat) :
    (if buff < TO_BE_DECIDED.toNat then (inst.SetBossState k (EncounterState.ofUInt32 buff)).2
      else inst).bosses.length = inst.bosses.length := by
  split
  · exact SetBossState_length inst k _
  · rfl

/-- The loop of `ReadSaveDataBossStates` keeps the number of bosses. -/
theorem ReadSaveDataBossStates_loop_length (u : Indeterminate) :
    ∀ (count k : Nat) (inst : InstanceScript) (data : IStringStream),
      (ReadSaveDataBossStates.loop u count k inst data).1.bosses.length = inst.bosses.length := by
  intro count
  induction count with
  | zero => intro k inst data; rfl
  | succ count ih =>
    intro k inst data
    rw [ReadSaveDataBossStates.loop, ih]
    exact loadRound_length inst k _

/-- The loop of `ReadSaveDataBossStates` started at boss `k` leaves the bosses
below `k` alone. -/
theorem ReadSaveDataBossStates_loop_below (u : Indeterminate) :
    ∀ (count k : Nat) (inst : InstanceScript) (data : IStringStream) (j : Nat), j < k →
      (ReadSaveDataBossStates.loop u count k inst data).1.bossState j = inst.bossState j := by
  intro count
  induction count with
  | zero => intro k inst data j _; rfl
  | succ count ih =>
    intro k inst data j hj
    rw [ReadSaveDataBossStates.loop, ih (k + 1) _ _ j (by omega)]
    exact loadRound_bossState_ne inst k j _ (by omega)

/-- Running the loop for `n + m` bosses is running it for `n` and then for `m`. -/
theorem ReadSaveDataBossStates_loop_add (u : Indeterminate) :
    ∀ (n m k : Nat) (inst : InstanceScript) (data : IStringStream),
      ReadSaveDataBossStates.loop u (n + m) k inst data =
        ReadSaveDataBossStates.loop u m (k + n)
          (ReadSaveDataBossStates.loop u n k inst data).1
          (ReadSaveDataBossStates.loop u n k inst data).2 := by
  intro n
  induction n with
  | zero => intro m k inst data; simp [ReadSaveDataBossStates.loop]
  | succ n ih =>
    intro m k inst data
    have h1 : n + 1 + m = (n + m) + 1 := by omega
    have h2 : k + (n + 1) = (k + 1) + n := by omega
    rw [h1, h2, ReadSaveDataBossStates.loop, ReadSaveDataBossStates.loop, ih]

/-- In range, `bossState` is the state of the boss at that index. -/
theorem bossState_eq_getElem (inst : InstanceScript) (j : Nat) (h : j < inst.bosses.length) :
    inst.bossState j = (inst.bosses[j]).state := by
  simp [bossState, List.getElem?_eq_getElem h]

/-- Loading a blob in the save format into an instance whose bosses are all
still in `TO_BE_DECIDED`: the header text is accepted and boss `i` is left in
`loadedState` of the `i`-th token. -/
theorem Load_saveFormat (u : Indeterminate) (fresh : InstanceScript) (ts : List Nat)
    (rest : List Char) (hheaders : ∀ h ∈ fresh.headers, isalpha h = true)
    (hfresh : ∀ b ∈ fresh.bosses, b.state = TO_BE_DECIDED)
    (hmax : ∀ t ∈ ts, t ≤ UINT32_MAX) (hlen : ts.length ≤ fresh.bosses.length) :
    (fresh.Load u (some (headerText fresh.headers ++ tokenText ts ++ rest))).bosses.length =
        fresh.bosses.length ∧
      ∀ i, i < ts.length →
        (fresh.Load u (some (headerText fresh.headers ++ tokenText ts ++ rest))).bossState i =
          loadedState (ts.getD i 0) := by
  obtain ⟨d, hd, hdg, hdb⟩ := ReadSaveDataHeaders_loop_headerText u (tokenText ts ++ rest)
    fresh.headers 0 (IStringStream.ofString (headerText fresh.headers ++ tokenText ts ++ rest))
    (fun h hh => isspace_of_isalpha (hheaders h hh)) rfl
    (by simp [IStringStream.ofString, List.append_assoc])
  obtain ⟨inst1, d1, hloop, _, _, hl1, _, hstates⟩ :=
    ReadSaveDataBossStates_loop_tokenText u rest ts 0 fresh d hdg
      (by rw [hdb])
      hmax
      (fun j b _ hb => hfresh b (List.getElem?_mem hb))
      (by omega)
  obtain ⟨m, hm⟩ : ∃ m, fresh.bosses.length = ts.length + m := ⟨_, (Nat.add_sub_cancel' hlen).symm⟩
  have hload : fresh.Load u (some (headerText fresh.headers ++ tokenText ts ++ rest)) =
      (ReadSaveDataBossStates.loop u m (0 + ts.length) inst1 d1).1 := by
    unfold Load ReadSaveDataHeaders ReadSaveDataBossStates ReadSaveDataMore
    simp only [hd, if_true]
    rw [hm, ReadSaveDataBossStates_loop_add, hloop]
  rw [hload]
  constructor
  · rw [ReadSaveDataBossStates_loop_length, hl1]
  · intro i hi
    rw [ReadSaveDataBossStates_loop_below u m (0 + ts.length) inst1 d1 i (by omega), hstates i,
      if_pos (by omega)]
    simp

end InstanceScript

theorem filter_notspace_cons {l : List Char} {c : Char} {cs : List Char}
    (h : l.filter (fun x => !isspace x) = c :: cs) :
    ∃ tail, l.dropWhile isspace = c :: tail ∧ tail.filter (fun x => !isspace x) = cs := by
  induction l with
  | nil => simp at h
  | cons x xs ih =>
    cases hx : isspace x
    · rw [List.filter_cons_of_pos (by simp [hx])] at h
      injection h with h1 h2
      subst h1
      exact ⟨xs, by simp [hx], h2⟩
    · rw [List.filter_cons_of_neg (by simp [hx])] at h
      obtain ⟨tail, h1, h2⟩ := ih h
      exact ⟨tail, by simpa [hx] using h1, h2⟩

namespace InstanceScript

open EncounterState DoorType GOState

/-- `SetHeaders` keeps the headers alphabetic: it is the only writer of
`headers`, so the header sequence of an instance never holds anything else. -/
theorem SetHeaders_isalpha (inst : InstanceScript) (dataHeaders : List Char)
    (h : ∀ c ∈ inst.headers, isalpha c = true) :
    ∀ c ∈ (inst.SetHeaders dataHeaders).headers, isalpha c = true := by
  unfold SetHeaders
  dsimp only
  generalize inst.headers = hs at h
  induction dataHeaders generalizing hs with
  | nil => exact h
  | cons x xs ih =>
    rw [List.foldl_cons]
    apply ih
    split
    · intro c hc
      rw [List.mem_append, List.mem_singleton] at hc
      rcases hc with hc | hc
      · exact h c hc
      · rw [hc]
        assumption
    · exact h

/-! ## Save and load round trip -/

/-- C7. For headers as `SetHeaders` stores them (alphabetic), an instance
`saved` holding any boss-state vector, and a fresh instance (every boss still
in `TO_BE_DECIDED`) with the same headers and the same number of bosses:
loading `saved.GetSaveData()` into the fresh instance yields the boss-state
vector of `saved` with every `IN_PROGRESS`, `FAIL` or `SPECIAL` entry replaced
by `NOT_STARTED`, whatever the unset buffers hold and whatever extra data the
subclass appended. -/
theorem Load_GetSaveData_roundtrip (u : Indeterminate) (saved fresh : InstanceScript)
    (hheaders : ∀ h ∈ saved.headers, isalpha h = true)
    (hsame : fresh.headers = saved.headers)
    (hcount : fresh.bosses.length = saved.bosses.length)
    (hfresh : ∀ b ∈ fresh.bosses, b.state = TO_BE_DECIDED) :
    (fresh.Load u (some saved.GetSaveData)).bosses.map (fun b => b.state) =
      saved.bosses.map (fun b =>
        if b.state = IN_PROGRESS ∨ b.state = FAIL ∨ b.state = SPECIAL then NOT_STARTED
        else b.state) := by
  have hts : ∀ t ∈ saved.bosses.map (fun b => b.state.toNat), t ≤ UINT32_MAX := by
    intro t ht
    rw [List.mem_map] at ht
    obtain ⟨b, _, rfl⟩ := ht
    cases b.state <;> decide
  have hblob : saved.GetSaveData =
      headerText fresh.headers ++ tokenText (saved.bosses.map (fun b => b.state.toNat)) ++
        saved.saveDataMore := by
    rw [GetSaveData_eq, hsame]
  obtain ⟨hlen, hstates⟩ := Load_saveFormat u fresh (saved.bosses.map (fun b => b.state.toNat))
    saved.saveDataMore (by rw [hsame]; exact hheaders) hfresh hts (by simp [hcount])
  rw [← hblob] at hlen hstates
  apply List.ext_getElem?
  intro j
  by_cases hj : j < saved.bosses.length
  · have hj1 : j < (fresh.Load u (some saved.GetSaveData)).bosses.length := by omega
    have h1 := hstates j (by simpa using hj)
    rw [bossState_eq_getElem _ j hj1] at h1
    simp only [List.getElem?_map, List.getElem?_eq_getElem hj1, List.getElem?_eq_getElem hj,
      Option.map_some', Option.some.injEq]
    rw [h1]
    simp only [List.getD_eq_getElem?_getD, List.getElem?_map, List.getElem?_eq_getElem hj,
      Option.map_some', Option.getD_some]
    cases (saved.bosses[j]).state <;> decide
  · have hj1 : ¬ j < (fresh.Load u (some saved.GetSaveData)).bosses.length := by omega
    simp [List.getElem?_eq_none (Nat.le_of_not_lt hj), List.getElem?_eq_none (Nat.le_of_not_lt hj1)]

/-- C7 at `savedInstance` and `freshInstance`. -/
theorem Load_GetSaveData_roundtrip_witness :
    ((∀ h ∈ savedInstance.headers, isalpha h = true) ∧
      freshInstance.headers = savedInstance.headers ∧
      freshInstance.bosses.length = savedInstance.bosses.length ∧
      ∀ b ∈ freshInstance.bosses, b.state = TO_BE_DECIDED) ∧
    (freshInstance.Load idleBuffers (some savedInstance.GetSaveData)).bosses.map
        (fun b => b.state) =
      savedInstance.bosses.map (fun b =>
        if b.state = IN_PROGRESS ∨ b.state = FAIL ∨ b.state = SPECIAL then NOT_STARTED
        else b.state) :=
  ⟨⟨by decide, rfl, rfl, by decide⟩,
    Load_GetSaveData_roundtrip idleBuffers savedInstance freshInstance (by decide) rfl rfl
      (by decide)⟩

/-! ## Header mismatch -/

/-- When the non-whitespace characters of the buffer agree with the expected
headers up to a position where the buffer has a different character, the loop
of `ReadSaveDataHeaders` returns false, whatever the unset buffers hold. -/
theorem ReadSaveDataHeaders_loop_differing (u : Indeterminate) :
    ∀ (common : List Char) (pos : Nat) (data : IStringStream) (c h : Char)
      (cs hs : List Char), data.good = true →
      data.buf.filter (fun x => !isspace x) = common ++ c :: cs → c ≠ h →
      (ReadSaveDataHeaders.loop u (common ++ h :: hs) pos data).1 = false := by
  intro common
  induction common with
  | nil =>
    intro pos data c h cs hs hgood hbuf hne
    obtain ⟨tail, hdrop, _⟩ := filter_notspace_cons (by simpa using hbuf)
    have hext := IStringStream.extractChar_of_dropWhile data c tail hgood hdrop
    rw [List.nil_append, ReadSaveDataHeaders.loop]
    simp only [hext, Option.getD_some]
    rw [if_pos (fun heq => hne heq.symm)]
  | cons x common ih =>
    intro pos data c h cs hs hgood hbuf hne
    obtain ⟨tail, hdrop, htail⟩ := filter_notspace_cons (by simpa using hbuf)
    have hext := IStringStream.extractChar_of_dropWhile data x tail hgood hdrop
    rw [List.cons_append, ReadSaveDataHeaders.loop]
    simp only [hext, Option.getD_some, ne_eq, not_true_eq_false, if_false]
    exact ih (pos + 1) _ c h cs hs rfl htail hne

/-- The part of the header check that holds for every blob: if the blob's
non-whitespace characters agree with the configured headers up to a position
where the blob has a different character, `Load` rejects the blob and leaves
the instance as it was, whatever the unset buffers hold. -/
theorem Load_differing_header (u : Indeterminate) (inst : InstanceScript) (blob : List Char)
    (common : List Char) (c h : Char) (cs hs : List Char)
    (hheaders : inst.headers = common ++ h :: hs)
    (hblob : blob.filter (fun x => !isspace x) = common ++ c :: cs) (hne : c ≠ h) :
    inst.Load u (some blob) = inst := by
  have := ReadSaveDataHeaders_loop_differing u common 0 (IStringStream.ofString blob) c h cs hs
    rfl hblob hne
  unfold Load ReadSaveDataHeaders
  rw [hheaders]
  simp [this]

/-- C8, the code at the failing input. The blob `A` ends before the second
header: the second extraction stores nothing, the comparison reads the unset
`buff`, and with `staleBuffers` the header check passes; the boss-state loop
then reads its own unset `buff` and moves boss 0 from `NOT_STARTED` to `DONE`,
with an encounter-end broadcast and a save. -/
theorem Load_short_blob_accepted :
    (repeatedHeaderInstance.ReadSaveDataHeaders staleBuffers (IStringStream.ofString ['A'])).1 =
        true ∧
      repeatedHeaderInstance.bossState 0 = NOT_STARTED ∧
      (repeatedHeaderInstance.Load staleBuffers (some ['A'])).bossState 0 = DONE ∧
      (repeatedHeaderInstance.Load staleBuffers (some ['A'])).trace =
        [Event.EncounterEnd, Event.UpdateInstanceData 0 ['A', ' ', 'A', ' ', '3', ' '] 0 0] := by
  decide

/-! ## Coercion of loaded states -/

/-- `ReadSaveDataBossStates` on an instance whose bosses from `k` on are still
in `TO_BE_DECIDED`, for any stream: each boss of the loop is left in
`loadedState` of what its round's `buff` held, and nothing but boss states
changes. -/
theorem ReadSaveDataBossStates_loop_fresh (u : Indeterminate) :
    ∀ (count k : Nat) (inst : InstanceScript) (data : IStringStream),
      (∀ j bossInfo, k ≤ j → inst.bosses[j]? = some bossInfo → bossInfo.state = TO_BE_DECIDED) →
      k + count ≤ inst.bosses.length →
      (ReadSaveDataBossStates.loop u count k inst data).2 = data.afterUInt32s count ∧
      (ReadSaveDataBossStates.loop u count k inst data).1.bosses.length = inst.bosses.length ∧
      { (ReadSaveDataBossStates.loop u count k inst data).1 with bosses := inst.bosses } = inst ∧
      ∀ j, (ReadSaveDataBossStates.loop u count k inst data).1.bossState j =
        if k ≤ j ∧ j < k + count then
          loadedState ((data.afterUInt32s (j - k)).extractUInt32.1.getD
            (u.bossBuff j % 4294967296))
        else inst.bossState j := by
  intro count
  induction count with
  | zero =>
    intro k inst data _ _
    refine ⟨rfl, rfl, rfl, ?_⟩
    intro j
    rw [if_neg (by omega)]
    rfl
  | succ count ih =>
    intro k inst data hfresh hlen
    have hk : k < inst.bosses.length := by omega
    have hbk : inst.bosses[k]? = some inst.bosses[k] := List.getElem?_eq_getElem hk
    have hfk : (inst.bosses[k]).state = TO_BE_DECIDED := hfresh k _ (Nat.le_refl k) hbk
    have hstep : ReadSaveDataBossStates.loop u (count + 1) k inst data =
        ReadSaveDataBossStates.loop u count (k + 1)
          (inst.assignState k (loadedState
            (data.extractUInt32.1.getD (u.bossBuff k % 4294967296))))
          data.extractUInt32.2 := by
      rw [ReadSaveDataBossStates.loop, loadRound_fresh inst k _ _ hbk hfk]
    obtain ⟨hs, hl, hframe, hstates⟩ := ih (k + 1)
      (inst.assignState k (loadedState (data.extractUInt32.1.getD (u.bossBuff k % 4294967296))))
      data.extractUInt32.2
      (by
        intro j bossInfo hj hb
        have hne : k ≠ j := by omega
        rw [assignState_bosses, List.getElem?_modify_ne _ _ hne] at hb
        exact hfresh j bossInfo (by omega) hb)
      (by rw [assignState_bosses, List.length_modify]; omega)
    rw [hstep]
    refine ⟨?_, ?_, ?_, ?_⟩
    · rw [hs]
      rfl
    · rw [hl, assignState_bosses, List.length_modify]
    · have h2 : ∀ x : InstanceScript, ({ x with bosses := inst.bosses } : InstanceScript) =
          { ({ x with bosses := (inst.assignState k (loadedState
              (data.extractUInt32.1.getD (u.bossBuff k % 4294967296)))).bosses } :
              InstanceScript) with bosses := inst.bosses } := fun _ => rfl
      rw [h2, hframe]
      rfl
    · intro j
      rw [hstates j]
      by_cases hjk : j = k
      · subst hjk
        rw [if_neg (by omega), if_pos (by omega), bossState_assignState _ _ _ hk, Nat.sub_self]
        rfl
      · rw [bossState_assignState_ne _ _ _ _ (fun h => hjk h.symm)]
        by_cases hin : k + 1 ≤ j ∧ j < k + 1 + count
        · rw [if_pos hin, if_pos (by omega)]
          have hsub : j - k = (j - (k + 1)) + 1 := by omega
          rw [hsub]
          rfl
        · rw [if_neg hin, if_neg (by omega)]

/-- Loading any blob whose header check passes into an instance whose bosses
are all still in `TO_BE_DECIDED`: boss `i` is left in `loadedState` of what
its round's `buff` held, and nothing but boss states changes. -/
theorem Load_fresh (u : Indeterminate) (fresh : InstanceScript) (blob : List Char)
    (d : IStringStream) (hfresh : ∀ b ∈ fresh.bosses, b.state = TO_BE_DECIDED)
    (hheader : fresh.ReadSaveDataHeaders u (IStringStream.ofString blob) = (true, d)) :
    { fresh.Load u (some blob) with bosses := fresh.bosses } = fresh ∧
      (fresh.Load u (some blob)).bosses.length = fresh.bosses.length ∧
      ∀ i, i < fresh.bosses.length →
        (fresh.Load u (some blob)).bossState i = loadedState (bossBuffAt u d i) := by
  have hload : fresh.Load u (some blob) =
      (ReadSaveDataBossStates.loop u fresh.bosses.length 0 fresh d).1 := by
    unfold Load ReadSaveDataBossStates ReadSaveDataMore
    simp only [hheader, if_true]
  obtain ⟨_, hl, hframe, hstates⟩ := ReadSaveDataBossStates_loop_fresh u fresh.bosses.length 0
    fresh d (fun j b _ hb => hfresh b (List.getElem?_mem hb)) (by omega)
  rw [hload]
  refine ⟨hframe, hl, ?_⟩
  intro i hi
  rw [hstates i, if_pos (by omega)]
  rfl

/-- C9. A blob whose header check passes is loaded into a fresh instance
(every boss still in `TO_BE_DECIDED`). If the extraction for boss `i` stores
the value of `IN_PROGRESS`, `FAIL` or `SPECIAL`, the boss is left in
`NOT_STARTED`; if it stores the value of `NOT_STARTED`, in `NOT_STARTED`; if
it stores the value of `DONE`, in `DONE`. -/
theorem Load_token_coercion (u : Indeterminate) (fresh : InstanceScript) (blob : List Char)
    (d : IStringStream) (i t : Nat)
    (hfresh : ∀ b ∈ fresh.bosses, b.state = TO_BE_DECIDED)
    (hheader : fresh.ReadSaveDataHeaders u (IStringStream.ofString blob) = (true, d))
    (hi : i < fresh.bosses.length)
    (htoken : (d.afterUInt32s i).extractUInt32.1 = some t) :
    ((t = IN_PROGRESS.toNat ∨ t = FAIL.toNat ∨ t = SPECIAL.toNat) →
      (fresh.Load u (some blob)).bossState i = NOT_STARTED) ∧
    (t = NOT_STARTED.toNat → (fresh.Load u (some blob)).bossState i = NOT_STARTED) ∧
    (t = DONE.toNat → (fresh.Load u (some blob)).bossState i = DONE) := by
  have hst := (Load_fresh u fresh blob d hfresh hheader).2.2 i hi
  unfold bossBuffAt at hst
  rw [htoken, Option.getD_some] at hst
  rw [hst]
  refine ⟨?_, ?_, ?_⟩
  · rintro (h | h | h) <;> subst h <;> decide
  · intro h
    subst h
    decide
  · intro h
    subst h
    decide

/-- C9 at `freshInstance` and the blob `T K 3 1 2 0 4 r`: the header check
passes, the extraction for boss 1 stores 1 (`IN_PROGRESS`), and the boss is
left in `NOT_STARTED`. -/
theorem Load_token_coercion_witness :
    ((∀ b ∈ freshInstance.bosses, b.state = TO_BE_DECIDED) ∧
      freshInstance.ReadSaveDataHeaders idleBuffers (IStringStream.ofString
          ['T', ' ', 'K', ' ', '3', ' ', '1', ' ', '2', ' ', '0', ' ', '4', ' ', 'r']) =
        (true, { buf := [' ', '3', ' ', '1', ' ', '2', ' ', '0', ' ', '4', ' ', 'r'] }) ∧
      1 < freshInstance.bosses.length ∧
      ((IStringStream.mk [' ', '3', ' ', '1', ' ', '2', ' ', '0', ' ', '4', ' ', 'r'] false
          false).afterUInt32s 1).extractUInt32.1 = some 1) ∧
    (freshInstance.Load idleBuffers
        (some ['T', ' ', 'K', ' ', '3', ' ', '1', ' ', '2', ' ', '0', ' ', '4', ' ', 'r'])).bossState
      1 = NOT_STARTED :=
  ⟨⟨by decide, by decide, by decide, by decide⟩,
    (Load_token_coercion idleBuffers freshInstance
      ['T', ' ', 'K', ' ', '3', ' ', '1', ' ', '2', ' ', '0', ' ', '4', ' ', 'r']
      { buf := [' ', '3', ' ', '1', ' ', '2', ' ', '0', ' ', '4', ' ', 'r'] } 1 1
      (by decide) (by decide) (by decide) (by decide)).1 (Or.inl rfl)⟩

/-! ## The save data -/

/-- C10, refuted as stated. With no headers, no bosses and no subclass data the
save data is empty, yet `SaveToDB` has already called the scenario's
`SaveToDB`: its trace is not empty. -/
theorem SaveToDB_empty_counterexample :
    scenarioOnlyInstance.headers = [] ∧ scenarioOnlyInstance.bosses = [] ∧
      scenarioOnlyInstance.GetSaveData = [] ∧ scenarioOnlyInstance.trace = [] ∧
      scenarioOnlyInstance.SaveToDB.trace = [Event.ScenarioSaveToDB] := by
  decide

/-- C10, amended. `GetSaveData` returns each header character followed by one
space, in header order, then each boss's state as a decimal integer followed
by one space, in boss order, then the subclass's extra data. With no headers,
no bosses and no extra data the result is empty, and `SaveToDB` then executes
no instance-data update: all it does is call the scenario's `SaveToDB` when the
map has a scenario. -/
theorem GetSaveData_format (inst : InstanceScript) :
    inst.GetSaveData =
        inst.headers.flatMap (fun header => [header, ' ']) ++
          inst.bosses.flatMap (fun bossInfo => writeUInt32 bossInfo.state.toNat ++ [' ']) ++
          inst.saveDataMore ∧
      (inst.headers = [] ∧ inst.bosses = [] ∧ inst.saveDataMore = [] →
        inst.GetSaveData = [] ∧
          inst.SaveToDB =
            if inst.hasInstanceScenario then inst.emit Event.ScenarioSaveToDB else inst) := by
  have hfmt : inst.GetSaveData =
      inst.headers.flatMap (fun header => [header, ' ']) ++
        inst.bosses.flatMap (fun bossInfo => writeUInt32 bossInfo.state.toNat ++ [' ']) ++
        inst.saveDataMore := by
    rw [GetSaveData_eq]
    simp only [headerText, tokenText, List.flatMap_map]
  refine ⟨hfmt, ?_⟩
  rintro ⟨hh, hb, hm⟩
  have hempty : inst.GetSaveData = [] := by
    rw [hfmt, hh, hb, hm]
    rfl
  refine ⟨hempty, ?_⟩
  unfold SaveToDB
  dsimp only
  have hdata : ∀ i : InstanceScript, i.headers = inst.headers → i.bosses = inst.bosses →
      i.saveDataMore = inst.saveDataMore → i.GetSaveData = [] := by
    intro i h1 h2 h3
    rw [GetSaveData_eq, h1, h2, h3, ← GetSaveData_eq]
    exact hempty
  by_cases hs : inst.hasInstanceScenario = true
  · rw [if_pos hs, hdata (inst.emit Event.ScenarioSaveToDB) rfl rfl rfl]
    rfl
  · rw [if_neg hs, hempty]
    rfl

/-! ## What a load leaves behind -/

/-- When the header check fails, or there is no data, `Load` returns its
`InstanceScript` as it was. -/
theorem Load_of_rejected (u : Indeterminate) (inst : InstanceScript) (data : Option (List Char))
    (hrej : data = none ∨ ∃ blob, data = some blob ∧
      (inst.ReadSaveDataHeaders u (IStringStream.ofString blob)).1 = false) :
    inst.Load u data = inst := by
  rcases hrej with h | ⟨blob, h, hfalse⟩
  · subst h
    rfl
  · subst h
    unfold Load
    simp [hfalse]

/-- Load on an instance whose bosses are all still in `TO_BE_DECIDED` changes
nothing but boss states, for every blob. -/
theorem Load_fresh_frame (u : Indeterminate) (fresh : InstanceScript) (data : Option (List Char))
    (hfresh : fresh.isFresh) :
    { fresh.Load u data with bosses := fresh.bosses } = fresh := by
  cases data with
  | none => rfl
  | some blob =>
    cases hh : fresh.ReadSaveDataHeaders u (IStringStream.ofString blob) with
    | mk ok d =>
      cases ok with
      | true => exact (Load_fresh u fresh blob d hfresh hh).1
      | false =>
        rw [Load_of_rejected u fresh (some blob) (Or.inr ⟨blob, rfl, by rw [hh]⟩)]

/-- C11. For every blob (and for no data), `Load` on a fresh instance, every
boss still in the pre-load sentinel, changes nothing but boss states: the
trace is as before, so no encounter-start, no encounter-end and no save, and
the three combat-resurrection fields are as before. -/
theorem Load_fresh_no_side_effects (u : Indeterminate) (fresh : InstanceScript)
    (data : Option (List Char)) (hfresh : fresh.isFresh) :
    { fresh.Load u data with bosses := fresh.bosses } = fresh ∧
      (fresh.Load u data).trace = fresh.trace ∧
      (fresh.Load u data)._combatResurrectionCharges = fresh._combatResurrectionCharges ∧
      (fresh.Load u data)._combatResurrectionTimer = fresh._combatResurrectionTimer ∧
      (fresh.Load u data)._combatResurrectionTimerStarted =
        fresh._combatResurrectionTimerStarted := by
  have h := Load_fresh_frame u fresh data hfresh
  refine ⟨h, ?_, ?_, ?_, ?_⟩
  · exact congrArg (fun i => i.trace) h
  · exact congrArg (fun i => i._combatResurrectionCharges) h
  · exact congrArg (fun i => i._combatResurrectionTimer) h
  · exact congrArg (fun i => i._combatResurrectionTimerStarted) h

/-- C11 at `freshInstance` with the save data of `savedInstance`. -/
theorem Load_fresh_no_side_effects_witness :
    freshInstance.isFresh ∧
      (freshInstance.Load idleBuffers (some savedInstance.GetSaveData)).trace =
        freshInstance.trace :=
  ⟨by decide,
    (Load_fresh_no_side_effects idleBuffers freshInstance (some savedInstance.GetSaveData)
      (by decide)).2.1⟩

/-- C12, refuted as stated. The blob `T K 5 ` has the header of
`freshInstance`, and after the load boss 0 is still in `TO_BE_DECIDED`: the
value 5 is not below `TO_BE_DECIDED`, so `SetBossState` is not called. -/
theorem Load_leaves_sentinel_counterexample :
    freshInstance.isFresh ∧
      (freshInstance.ReadSaveDataHeaders idleBuffers
        (IStringStream.ofString ['T', ' ', 'K', ' ', '5', ' '])).1 = true ∧
      (freshInstance.Load idleBuffers (some ['T', ' ', 'K', ' ', '5', ' '])).bossState 0 =
        TO_BE_DECIDED := by
  decide

/-- C12, amended. After `Load` on a fresh instance with a blob whose header
check passes, a boss whose extraction stored the value `t` is left in
`TO_BE_DECIDED` exactly when `t` is not below `TO_BE_DECIDED`; when `t` is one
of 0..4 the boss is in `NOT_STARTED` or `DONE`. -/
theorem Load_leaves_sentinel_iff (u : Indeterminate) (fresh : InstanceScript) (blob : List Char)
    (d : IStringStream) (i t : Nat) (hfresh : fresh.isFresh)
    (hheader : fresh.ReadSaveDataHeaders u (IStringStream.ofString blob) = (true, d))
    (hi : i < fresh.bosses.length)
    (htoken : (d.afterUInt32s i).extractUInt32.1 = some t) :
    ((fresh.Load u (some blob)).bossState i = TO_BE_DECIDED ↔ TO_BE_DECIDED.toNat ≤ t) ∧
      (t < TO_BE_DECIDED.toNat →
        (fresh.Load u (some blob)).bossState i = NOT_STARTED ∨
          (fresh.Load u (some blob)).bossState i = DONE) := by
  have hst := (Load_fresh u fresh blob d hfresh hheader).2.2 i hi
  unfold bossBuffAt at hst
  rw [htoken, Option.getD_some] at hst
  rw [hst]
  simp only [EncounterState.toNat]
  by_cases h5 : t < 5
  · have hcases : t = 0 ∨ t = 1 ∨ t = 2 ∨ t = 3 ∨ t = 4 := by omega
    rcases hcases with h | h | h | h | h <;> subst h <;> decide
  · have hl : loadedState t = TO_BE_DECIDED := by
      unfold loadedState
      rw [if_neg (by omega), if_neg (by omega)]
    rw [hl]
    exact ⟨⟨fun _ => by omega, fun _ => rfl⟩, fun h => absurd h h5⟩

/-- C12 at `freshInstance` and the blob `T K 3 9 `: the extraction for boss 1
stores 9 and the boss stays in `TO_BE_DECIDED`. -/
theorem Load_leaves_sentinel_iff_witness :
    (freshInstance.isFresh ∧
      freshInstance.ReadSaveDataHeaders idleBuffers
          (IStringStream.ofString ['T', ' ', 'K', ' ', '3', ' ', '9', ' ']) =
        (true, { buf := [' ', '3', ' ', '9', ' '] }) ∧
      1 < freshInstance.bosses.length ∧
      ((IStringStream.mk [' ', '3', ' ', '9', ' '] false false).afterUInt32s 1).extractUInt32.1 =
        some 9) ∧
    (freshInstance.Load idleBuffers (some ['T', ' ', 'K', ' ', '3', ' ', '9', ' '])).bossState 1 =
      TO_BE_DECIDED :=
  ⟨⟨by decide, by decide, by decide, by decide⟩,
    (Load_leaves_sentinel_iff idleBuffers freshInstance ['T', ' ', 'K', ' ', '3', ' ', '9', ' ']
      { buf := [' ', '3', ' ', '9', ' '] } 1 9 (by decide) (by decide) (by decide)
      (by decide)).1.mpr (by decide)⟩

/-- C13, refuted as stated. `freshInstance` is freshly constructed and expects
the headers `T K`; the blob `X` is rejected, no data is rejected too, and in
both cases boss 0 is in `TO_BE_DECIDED` afterwards, not in `NOT_STARTED`. -/
theorem Load_rejected_counterexample :
    freshInstance.isFresh ∧
      (freshInstance.ReadSaveDataHeaders idleBuffers (IStringStream.ofString ['X'])).1 = false ∧
      (freshInstance.Load idleBuffers (some ['X'])).bossState 0 = TO_BE_DECIDED ∧
      (freshInstance.Load idleBuffers none).bossState 0 = TO_BE_DECIDED := by
  decide

/-- C13, amended. After `Load` receives no data, or rejects a blob because the
header check fails, the instance is what it was before the call: every boss
keeps its state, which on a freshly constructed instance is the pre-load
sentinel `TO_BE_DECIDED`. -/
theorem Load_rejected_unchanged (u : Indeterminate) (inst : InstanceScript)
    (data : Option (List Char))
    (hrej : data = none ∨ ∃ blob, data = some blob ∧
      (inst.ReadSaveDataHeaders u (IStringStream.ofString blob)).1 = false) :
    inst.Load u data = inst ∧
      (inst.isFresh → ∀ i, i < inst.bosses.length →
        (inst.Load u data).bossState i = TO_BE_DECIDED) := by
  have h := Load_of_rejected u inst data hrej
  refine ⟨h, ?_⟩
  intro hfresh i hi
  rw [h, bossState_eq_getElem inst i hi]
  exact hfresh _ (List.getElem_mem _)

/-- C13 at `freshInstance` and the blob `X`. -/
theorem Load_rejected_unchanged_witness :
    (∃ blob, some ['X'] = some blob ∧
      (freshInstance.ReadSaveDataHeaders idleBuffers (IStringStream.ofString blob)).1 = false) ∧
    freshInstance.Load idleBuffers (some ['X']) = freshInstance :=
  ⟨⟨['X'], rfl, by decide⟩,
    (Load_rejected_unchanged idleBuffers freshInstance (some ['X'])
      (Or.inr ⟨['X'], rfl, by decide⟩)).1⟩

/-! ## Object registry -/

/-- Looking a role up after the pairs of role `type` were filtered out. -/
theorem find?_filter_ne (l : List (Nat × ObjectGuid)) (type r : Nat) :
    (l.filter (fun kv => decide (kv.1 ≠ type))).find? (fun kv => decide (kv.1 = r)) =
      if r = type then none else l.find? (fun kv => decide (kv.1 = r)) := by
  induction l with
  | nil => simp
  | cons kv rest ih =>
    by_cases h1 : kv.1 = type
    · rw [List.filter_cons_of_neg (by simp [h1]), ih]
      by_cases h2 : r = type
      · simp [h2]
      · have h3 : ¬ kv.1 = r := fun h => h2 (h ▸ h1)
        simp [h2, h3]
    · rw [List.filter_cons_of_pos (by simp [h1])]
      by_cases h2 : kv.1 = r
      · have h3 : ¬ r = type := fun h => h1 (h2.trans h)
        simp [h2, h3]
      · simp only [List.find?_cons, h2, decide_False, ih]

/-- C14. After `AddObject(g, r, add)`: `GetObjectGuid(r)` is `g` when `add` is
true; it is empty when `add` is false and the identity stored for `r` was `g`;
it is what it was when `add` is false and the stored identity differs from
`g`; and `GetObjectGuid` of every other role is what it was. -/
theorem AddObject_GetObjectGuid (inst : InstanceScript) (g : ObjectGuid) (r : Nat) (add : Bool) :
    (add = true → (inst.AddObject g r add).GetObjectGuid r = g) ∧
    (add = false → inst.GetObjectGuid r = g → (inst.AddObject g r add).GetObjectGuid r = 0) ∧
    (add = false → inst.GetObjectGuid r ≠ g →
      (inst.AddObject g r add).GetObjectGuid r = inst.GetObjectGuid r) ∧
    (∀ other, other ≠ r → (inst.AddObject g r add).GetObjectGuid other =
      inst.GetObjectGuid other) := by
  refine ⟨?_, ?_, ?_, ?_⟩
  · intro hadd
    subst hadd
    simp [AddObject, GetObjectGuid]
  · intro hadd hold
    subst hadd
    unfold AddObject GetObjectGuid at *
    simp only [Bool.false_eq_true, if_false]
    cases hf : inst._objectGuids.find? (fun kv => decide (kv.1 = r)) with
    | none => simp only [hf]
    | some kv =>
      simp only [hf] at hold ⊢
      rw [if_pos hold]
      simp only [find?_filter_ne, if_true]
  · intro hadd hold
    subst hadd
    unfold AddObject GetObjectGuid at *
    simp only [Bool.false_eq_true, if_false]
    cases hf : inst._objectGuids.find? (fun kv => decide (kv.1 = r)) with
    | none => simp only [hf]
    | some kv =>
      simp only [hf] at hold ⊢
      rw [if_neg hold]
      simp only [hf]
  · intro other hother
    unfold AddObject GetObjectGuid
    cases add with
    | true =>
      have h1 : ¬ r = other := fun h => hother h.symm
      simp only [if_true, List.find?_cons, h1, decide_False, find?_filter_ne, if_neg hother]
    | false =>
      simp only [Bool.false_eq_true, if_false]
      cases hf : inst._objectGuids.find? (fun kv => decide (kv.1 = r)) with
      | none => rfl
      | some kv =>
        by_cases hk : kv.2 = g
        · simp only [if_pos hk, find?_filter_ne, if_neg hother]
        · simp only [if_neg hk]

/-! ## Deferred operations -/

/-- A delay that stays within `int32` is not changed by the conversion. -/
theorem toInt32_of_range (x : Int) (h1 : -2147483648 ≤ x) (h2 : x < 2147483648) :
    toInt32 x = x := by
  unfold toInt32
  omega

/-- On a queue without cleared callbacks the first loop of `UpdateOperations`
does not throw: it lowers every delay, clears the callbacks of the entries
whose delay went negative, and has invoked exactly those, in queue order. -/
theorem UpdateOperations_loop_eq (diff : Nat) :
    ∀ (queue : List (Int × Option DelayedOperation)) (trace : List Event),
      (∀ entry ∈ queue, entry.2 ≠ none) →
      UpdateOperations.loop diff queue trace =
        some (queue.map (fun entry =>
            (toInt32 (entry.1 - (diff : Int)),
              if toInt32 (entry.1 - (diff : Int)) < 0 then none else entry.2)),
          trace ++ (firedOperations diff queue).map Event.OperationCalled) := by
  intro queue
  induction queue with
  | nil => intro trace _; simp [UpdateOperations.loop, firedOperations]
  | cons entry rest ih =>
    intro trace hset
    obtain ⟨first, second⟩ := entry
    have hrest : ∀ e ∈ rest, e.2 ≠ none := fun e he => hset e (List.mem_cons_of_mem _ he)
    cases second with
    | none => exact absurd rfl (hset (first, none) (List.mem_cons_self _ _))
    | some operation =>
      unfold UpdateOperations.loop
      by_cases hneg : toInt32 (first - (diff : Int)) < 0
      · simp only [hneg, if_true]
        rw [ih _ hrest]
        simp [firedOperations, hneg, List.append_assoc]
      · simp only [hneg, if_false]
        rw [ih _ hrest]
        simp [firedOperations, hneg]

/-- Erasing the first cleared entry lowers the number of cleared entries by
one (when there is one). -/
theorem countP_eraseFirstCleared (queue : List (Int × Option DelayedOperation)) :
    (UpdateOperations.eraseFirstCleared queue).countP (fun entry => entry.2.isNone) =
      queue.countP (fun entry => entry.2.isNone) - 1 := by
  induction queue with
  | nil => rfl
  | cons entry rest ih =>
    unfold UpdateOperations.eraseFirstCleared
    by_cases h : entry.2.isNone = true
    · simp [h, List.countP_cons_of_pos]
    · simp only [h, if_false, Bool.false_eq_true]
      have hc : ∀ l : List (Int × Option DelayedOperation),
          List.countP (fun e => e.2.isNone) (entry :: l) = List.countP (fun e => e.2.isNone) l := by
        intro l
        rw [List.countP_cons]
        simp [h]
      rw [hc, hc, ih]

/-- Erasing the first cleared entry keeps the entries that are not cleared. -/
theorem filter_eraseFirstCleared (queue : List (Int × Option DelayedOperation)) :
    (UpdateOperations.eraseFirstCleared queue).filter (fun entry => !entry.2.isNone) =
      queue.filter (fun entry => !entry.2.isNone) := by
  induction queue with
  | nil => rfl
  | cons entry rest ih =>
    unfold UpdateOperations.eraseFirstCleared
    by_cases h : entry.2.isNone = true
    · simp [h]
    · simp only [h, if_false, Bool.false_eq_true]
      rw [List.filter_cons, List.filter_cons, ih]

/-- The count-then-find-and-erase loop, run at least as often as there are
cleared entries, removes exactly the cleared entries. -/
theorem UpdateOperations_remove_eq :
    ∀ (count : Nat) (queue : List (Int × Option DelayedOperation)),
      queue.countP (fun entry => entry.2.isNone) ≤ count →
      UpdateOperations.remove count queue = queue.filter (fun entry => !entry.2.isNone) := by
  intro count
  induction count with
  | zero =>
    intro queue h
    have h0 : queue.countP (fun entry => entry.2.isNone) = 0 := by omega
    rw [List.countP_eq_zero] at h0
    unfold UpdateOperations.remove
    symm
    rw [List.filter_eq_self]
    intro entry he
    have := h0 entry he
    cases h2 : entry.2 with
    | none => simp [h2] at this
    | some op => rfl
  | succ count ih =>
    intro queue h
    unfold UpdateOperations.remove
    rw [ih _ (by rw [countP_eraseFirstCleared]; omega), filter_eraseFirstCleared]

/-- Removing the cleared entries after the first loop leaves the ticked queue
of the specification. -/
theorem filter_loop_eq_tickQueue (diff : Nat) (queue : List (Int × Option DelayedOperation))
    (hset : ∀ entry ∈ queue, entry.2 ≠ none) :
    (queue.map (fun entry =>
        (toInt32 (entry.1 - (diff : Int)),
          if toInt32 (entry.1 - (diff : Int)) < 0 then none else entry.2))).filter
      (fun entry => !entry.2.isNone) = tickQueue diff queue := by
  induction queue with
  | nil => rfl
  | cons entry rest ih =>
    have hrest : ∀ e ∈ rest, e.2 ≠ none := fun e he => hset e (List.mem_cons_of_mem _ he)
    have he : entry.2 ≠ none := hset entry (List.mem_cons_self _ _)
    obtain ⟨first, second⟩ := entry
    cases second with
    | none => exact absurd rfl he
    | some operation =>
      have ih' := ih hrest
      unfold tickQueue at ih' ⊢
      by_cases hneg : toInt32 (first - (diff : Int)) < 0
      · have h0 : ¬ (0 ≤ toInt32 (first - (diff : Int))) := by omega
        simp only [List.map_cons, hneg, if_true, Option.isNone_none, Bool.not_true,
          Bool.false_eq_true, not_false_eq_true, List.filter_cons_of_neg, h0, decide_False]
        exact ih'
      · have h0 : 0 ≤ toInt32 (first - (diff : Int)) := by omega
        simp only [List.map_cons, hneg, if_false, Option.isNone_some, Bool.not_false,
          List.filter_cons_of_pos, h0, decide_True]
        rw [ih']

/-- The set of effects of one tick on a queue without cleared callbacks and
with fewer than `2 ^ 32` entries: the tick does not throw, the queue becomes
the ticked queue, the fired callbacks are appended to the trace, and the
drained notification follows when the queue is empty and the latch is not yet
set. -/
theorem UpdateOperations_eq (inst : InstanceScript) (diff : Nat)
    (hset : ∀ entry ∈ inst.timedDelayedOperations, entry.2 ≠ none)
    (hlen : inst.timedDelayedOperations.length < 4294967296) :
    inst.UpdateOperations diff =
      some (if (tickQueue diff inst.timedDelayedOperations).isEmpty ∧ inst.emptyWarned = false
        then
          { inst with
            timedDelayedOperations := tickQueue diff inst.timedDelayedOperations
            trace := inst.trace ++
              (firedOperations diff inst.timedDelayedOperations).map Event.OperationCalled ++
              [Event.LastOperationCalled]
            emptyWarned := true }
        else
          { inst with
            timedDelayedOperations := tickQueue diff inst.timedDelayedOperations
            trace := inst.trace ++
              (firedOperations diff inst.timedDelayedOperations).map Event.OperationCalled }) := by
  unfold UpdateOperations
  rw [UpdateOperations_loop_eq diff _ _ hset]
  dsimp only
  have hcount : (List.countP (fun entry => entry.2.isNone)
      (inst.timedDelayedOperations.map (fun entry =>
        (toInt32 (entry.1 - (diff : Int)),
          if toInt32 (entry.1 - (diff : Int)) < 0 then none else entry.2)))) < 4294967296 := by
    refine Nat.lt_of_le_of_lt (List.countP_le_length _) ?_
    simpa using hlen
  rw [Nat.mod_eq_of_lt hcount, UpdateOperations_remove_eq _ _ (Nat.le_refl _),
    filter_loop_eq_tickQueue diff _ hset]
  split <;> rfl

/-- The ticked queue holds no cleared callback when the queue held none. -/
theorem tickQueue_set (diff : Nat) (queue : List (Int × Option DelayedOperation))
    (hset : ∀ entry ∈ queue, entry.2 ≠ none) : ∀ entry ∈ tickQueue diff queue, entry.2 ≠ none := by
  intro entry he
  unfold tickQueue at he
  rw [List.mem_filter, List.mem_map] at he
  obtain ⟨⟨e0, he0, rfl⟩, _⟩ := he
  exact hset e0 he0

/-- A tick never lengthens the queue. -/
theorem tickQueue_length (diff : Nat) (queue : List (Int × Option DelayedOperation)) :
    (tickQueue diff queue).length ≤ queue.length := by
  unfold tickQueue
  refine Nat.le_trans (List.length_filter_le _ _) ?_
  simp

/-- Ticking commutes with selecting the entries of one callback. -/
theorem tickQueue_filter (diff : Nat) (operation : DelayedOperation)
    (queue : List (Int × Option DelayedOperation)) :
    (tickQueue diff queue).filter (fun entry => decide (entry.2 = some operation)) =
      tickQueue diff (queue.filter (fun entry => decide (entry.2 = some operation))) := by
  induction queue with
  | nil => rfl
  | cons entry rest ih =>
    unfold tickQueue at ih ⊢
    by_cases hop : entry.2 = some operation <;>
      by_cases hpos : 0 ≤ toInt32 (entry.1 - (diff : Int)) <;>
      simp [List.filter_cons, hop, hpos, ih]

/-- The calls of one callback among the fired ones are the fired entries of
that callback. -/
theorem count_firedOperations (diff : Nat) (operation : DelayedOperation)
    (queue : List (Int × Option DelayedOperation)) :
    (firedOperations diff queue).count operation =
      (firedOperations diff
        (queue.filter (fun entry => decide (entry.2 = some operation)))).length := by
  induction queue with
  | nil => rfl
  | cons entry rest ih =>
    unfold firedOperations at ih ⊢
    obtain ⟨first, second⟩ := entry
    by_cases hneg : toInt32 (first - (diff : Int)) < 0
    · cases second with
      | none => simpa [List.filter_cons, hneg] using ih
      | some op =>
        by_cases hop : op = operation
        · subst hop
          simp [List.filter_cons, hneg, ih]
        · have hop' : ¬ (some op = some operation) := fun h => hop (Option.some.inj h)
          simpa [List.filter_cons, hneg, hop', List.count_cons, hop] using ih
    · by_cases hop : second = some operation
      · simpa [List.filter_cons, hneg, hop] using ih
      · simpa [List.filter_cons, hneg, hop] using ih

/-- Counting the calls of a callback in a list of call events. -/
theorem count_map_OperationCalled (operation : DelayedOperation) (ops : List DelayedOperation) :
    (ops.map Event.OperationCalled).count (Event.OperationCalled operation) =
      ops.count operation := by
  induction ops with
  | nil => rfl
  | cons op rest ih =>
    by_cases h : op = operation
    · subst h
      simp [ih]
    · have h' : ¬ (Event.OperationCalled op = Event.OperationCalled operation) :=
        fun heq => h (Event.OperationCalled.inj heq)
      simp [List.count_cons, h, h', ih]

/-- Call events are not drained notifications. -/
theorem count_map_LastOperationCalled (ops : List DelayedOperation) :
    (ops.map Event.OperationCalled).count Event.LastOperationCalled = 0 := by
  induction ops with
  | nil => rfl
  | cons op rest ih => simp [List.count_cons, ih]

/-- What one tick does, on a queue without cleared callbacks and with fewer
than `2 ^ 32` entries, to the quantities the queue properties are about. -/
theorem UpdateOperations_facts (inst : InstanceScript) (diff : Nat)
    (hset : ∀ entry ∈ inst.timedDelayedOperations, entry.2 ≠ none)
    (hlen : inst.timedDelayedOperations.length < 4294967296) :
    ∃ inst1, inst.UpdateOperations diff = some inst1 ∧
      inst1.timedDelayedOperations = tickQueue diff inst.timedDelayedOperations ∧
      (∀ operation, callCount operation inst1.trace =
        callCount operation inst.trace +
          (firedOperations diff inst.timedDelayedOperations).count operation) ∧
      drainedCount inst1.trace = drainedCount inst.trace +
        (if tickQueue diff inst.timedDelayedOperations = [] ∧ inst.emptyWarned = false then 1
          else 0) ∧
      inst1.emptyWarned =
        (inst.emptyWarned || (tickQueue diff inst.timedDelayedOperations).isEmpty) := by
  refine ⟨_, UpdateOperations_eq inst diff hset hlen, ?_⟩
  by_cases hc : (tickQueue diff inst.timedDelayedOperations).isEmpty ∧ inst.emptyWarned = false
  · have hnil : tickQueue diff inst.timedDelayedOperations = [] := List.isEmpty_iff.mp hc.1
    rw [if_pos hc]
    refine ⟨rfl, ?_, ?_, ?_⟩
    · intro operation
      simp [callCount, List.count_append, count_map_OperationCalled, List.count_cons]
    · simp [drainedCount, List.count_append, count_map_LastOperationCalled, hnil, hc.2]
    · simp [hc.1, hc.2]
  · rw [if_neg hc]
    refine ⟨rfl, ?_, ?_, ?_⟩
    · intro operation
      simp [callCount, List.count_append, count_map_OperationCalled]
    · have hc' : ¬ (tickQueue diff inst.timedDelayedOperations = [] ∧ inst.emptyWarned = false) :=
        fun h => hc ⟨List.isEmpty_iff.mpr h.1, h.2⟩
      simp [drainedCount, List.count_append, count_map_LastOperationCalled, hc']
    · dsimp only
      cases he : inst.emptyWarned
      · have : (tickQueue diff inst.timedDelayedOperations).isEmpty = false := by
          cases hq : (tickQueue diff inst.timedDelayedOperations).isEmpty
          · rfl
          · exact absurd ⟨hq, he⟩ hc
        simp [this]
      · simp

/-- Once no entry of the queue holds the callback, no sequence of ticks
invokes it. -/
theorem runTicks_absent (operation : DelayedOperation) :
    ∀ (diffs : List Nat) (inst : InstanceScript),
      (∀ entry ∈ inst.timedDelayedOperations, entry.2 ≠ none) →
      inst.timedDelayedOperations.length < 4294967296 →
      inst.timedDelayedOperations.filter (fun entry => decide (entry.2 = some operation)) = [] →
      ∃ inst1, runTicks diffs inst = some inst1 ∧
        callCount operation inst1.trace = callCount operation inst.trace := by
  intro diffs
  induction diffs with
  | nil => intro inst _ _ _; exact ⟨inst, rfl, rfl⟩
  | cons diff rest ih =>
    intro inst hset hlen habsent
    obtain ⟨inst1, hu, hq, hcalls, _, _⟩ := UpdateOperations_facts inst diff hset hlen
    obtain ⟨inst2, hrun, hcount⟩ := ih inst1
      (by rw [hq]; exact tickQueue_set diff _ hset)
      (by rw [hq]; exact Nat.lt_of_le_of_lt (tickQueue_length diff _) hlen)
      (by rw [hq, tickQueue_filter, habsent]; rfl)
    refine ⟨inst2, ?_, ?_⟩
    · simp [runTicks, hu, hrun]
    · rw [hcount, hcalls operation, count_firedOperations, habsent]
      rfl

/-- While exactly one entry holds the callback, with a remaining delay `r`
that is not negative, a sequence of ticks whose deltas are at most `2 ^ 31`
invokes it once if the deltas sum to more than `r`, and not at all otherwise. -/
theorem runTicks_pending (operation : DelayedOperation) :
    ∀ (diffs : List Nat) (inst : InstanceScript) (r : Int),
      (∀ entry ∈ inst.timedDelayedOperations, entry.2 ≠ none) →
      inst.timedDelayedOperations.length < 4294967296 →
      inst.timedDelayedOperations.filter (fun entry => decide (entry.2 = some operation)) =
        [(r, some operation)] →
      0 ≤ r → r < 2147483648 → (∀ diff ∈ diffs, diff ≤ 2147483648) →
      ∃ inst1, runTicks diffs inst = some inst1 ∧
        callCount operation inst1.trace =
          callCount operation inst.trace + (if r < (diffs.sum : Int) then 1 else 0) := by
  intro diffs
  induction diffs with
  | nil =>
    intro inst r _ _ _ h0 _ _
    refine ⟨inst, rfl, ?_⟩
    rw [if_neg (by simpa using h0)]
    rfl
  | cons diff rest ih =>
    intro inst r hset hlen hentry h0 hmax hdiffs
    have hdiff : diff ≤ 2147483648 := hdiffs diff (List.mem_cons_self _ _)
    have hconv : toInt32 (r - (diff : Int)) = r - (diff : Int) :=
      toInt32_of_range _ (by omega) (by omega)
    obtain ⟨inst1, hu, hq, hcalls, _, _⟩ := UpdateOperations_facts inst diff hset hlen
    have hset1 : ∀ entry ∈ inst1.timedDelayedOperations, entry.2 ≠ none := by
      rw [hq]
      exact tickQueue_set diff _ hset
    have hlen1 : inst1.timedDelayedOperations.length < 4294967296 := by
      rw [hq]
      exact Nat.lt_of_le_of_lt (tickQueue_length diff _) hlen
    have hfilter1 : inst1.timedDelayedOperations.filter
        (fun entry => decide (entry.2 = some operation)) =
        tickQueue diff [(r, some operation)] := by
      rw [hq, tickQueue_filter, hentry]
    have hsum : ((diff :: rest).sum : Int) = (diff : Int) + (rest.sum : Int) := by
      simp
    by_cases hfire : r < (diff : Int)
    · have hfired : (firedOperations diff inst.timedDelayedOperations).count operation = 1 := by
        rw [count_firedOperations, hentry]
        simp [firedOperations, hconv, hfire]
      obtain ⟨inst2, hrun, hcount⟩ := runTicks_absent operation rest inst1 hset1 hlen1
        (by
          rw [hfilter1]
          simp [tickQueue, hconv, hfire])
      refine ⟨inst2, ?_, ?_⟩
      · simp [runTicks, hu, hrun]
      · rw [hcount, hcalls operation, hfired, hsum, if_pos (by omega)]
    · have hfired : (firedOperations diff inst.timedDelayedOperations).count operation = 0 := by
        rw [count_firedOperations, hentry]
        simp [firedOperations, hconv, hfire]
      obtain ⟨inst2, hrun, hcount⟩ := ih inst1 (r - (diff : Int)) hset1 hlen1
        (by
          rw [hfilter1]
          have : 0 ≤ r - (diff : Int) := by omega
          simp [tickQueue, hconv, this])
        (by omega) (by omega) (fun x hx => hdiffs x (List.mem_cons_of_mem _ hx))
      refine ⟨inst2, ?_, ?_⟩
      · simp [runTicks, hu, hrun]
      · rw [hcount, hcalls operation, hfired, hsum]
        by_cases hlt : r - (diff : Int) < (rest.sum : Int)
        · rw [if_pos hlt, if_pos (by omega)]
        · rw [if_neg hlt, if_neg (by omega)]

/-- C15. An operation is scheduled with a delay `d` that is not negative as an
`int32`, on a queue that holds no cleared callback and not yet this callback.
For every sequence of ticks whose deltas are at most `2 ^ 31` (so the delay
never wraps) and every number `k` of ticks run: no tick throws, and the
callback has been invoked once if the first `k` deltas sum to more than `d`
and not at all otherwise. So it is invoked exactly once, in the first tick
after which the cumulative delta exceeds `d`, and in no earlier or later
tick. -/
theorem scheduled_operation_called_once (inst : InstanceScript) (d : Nat)
    (operation : DelayedOperation) (diffs : List Nat)
    (hset : ∀ entry ∈ inst.timedDelayedOperations, entry.2 ≠ none)
    (hother : ∀ entry ∈ inst.timedDelayedOperations, entry.2 ≠ some operation)
    (hlen : inst.timedDelayedOperations.length + 1 < 4294967296)
    (hd : d < 2147483648) (hdiffs : ∀ diff ∈ diffs, diff ≤ 2147483648) (k : Nat) :
    ∃ inst1, runTicks (diffs.take k) (inst.AddTimedDelayedOperation d operation) = some inst1 ∧
      callCount operation inst1.trace =
        callCount operation inst.trace + (if d < (diffs.take k).sum then 1 else 0) := by
  have hconv : toInt32 (d : Int) = (d : Int) := toInt32_of_range _ (by omega) (by omega)
  have hnone : inst.timedDelayedOperations.filter
      (fun entry => decide (entry.2 = some operation)) = [] := by
    rw [List.filter_eq_nil_iff]
    intro entry he
    simpa using hother entry he
  obtain ⟨inst1, hrun, hcount⟩ := runTicks_pending operation (diffs.take k)
    (inst.AddTimedDelayedOperation d operation) (d : Int)
    (by
      intro entry he
      unfold AddTimedDelayedOperation at he
      rw [List.mem_append, List.mem_singleton] at he
      rcases he with he | he
      · exact hset entry he
      · rw [he]
        simp)
    (by
      unfold AddTimedDelayedOperation
      simpa using hlen)
    (by
      unfold AddTimedDelayedOperation
      rw [List.filter_append, hnone, hconv]
      simp)
    (by omega) (by omega) (fun x hx => hdiffs x (List.mem_of_mem_take hx))
  refine ⟨inst1, hrun, ?_⟩
  rw [hcount]
  have htrace : (inst.AddTimedDelayedOperation d operation).trace = inst.trace := rfl
  rw [htrace]
  by_cases hlt : d < (diffs.take k).sum
  · rw [if_pos hlt, if_pos (by exact_mod_cast hlt)]
  · rw [if_neg hlt, if_neg (by exact_mod_cast hlt)]

/-- C15 at the example of the specification: `Schedule(100, f)` on an empty
queue, then `Tick(50)`, `Tick(51)` and a further `Tick(7)`: after the first
tick `f` has not been invoked, after the second once, after the third still
once. -/
theorem scheduled_operation_called_once_witness :
    ((∀ entry ∈ ({ } : InstanceScript).timedDelayedOperations, entry.2 ≠ none) ∧
      (∀ entry ∈ ({ } : InstanceScript).timedDelayedOperations,
        entry.2 ≠ some (DelayedOperation.Script 1)) ∧
      ({ } : InstanceScript).timedDelayedOperations.length + 1 < 4294967296 ∧
      100 < 2147483648 ∧ ∀ diff ∈ [50, 51, 7], diff ≤ 2147483648) ∧
    (∃ inst1, runTicks [50]
        (({ } : InstanceScript).AddTimedDelayedOperation 100 (DelayedOperation.Script 1)) =
          some inst1 ∧
        callCount (DelayedOperation.Script 1) inst1.trace = 0) ∧
    (∃ inst1, runTicks [50, 51]
        (({ } : InstanceScript).AddTimedDelayedOperation 100 (DelayedOperation.Script 1)) =
          some inst1 ∧
        callCount (DelayedOperation.Script 1) inst1.trace = 1) ∧
    (∃ inst1, runTicks [50, 51, 7]
        (({ } : InstanceScript).AddTimedDelayedOperation 100 (DelayedOperation.Script 1)) =
          some inst1 ∧
        callCount (DelayedOperation.Script 1) inst1.trace = 1) :=
  ⟨⟨by decide, by decide, by decide, by decide, by decide⟩,
    scheduled_operation_called_once { } 100 (DelayedOperation.Script 1) [50, 51, 7]
      (by decide) (by decide) (by decide) (by decide) (by decide) 1,
    scheduled_operation_called_once { } 100 (DelayedOperation.Script 1) [50, 51, 7]
      (by decide) (by decide) (by decide) (by decide) (by decide) 2,
    scheduled_operation_called_once { } 100 (DelayedOperation.Script 1) [50, 51, 7]
      (by decide) (by decide) (by decide) (by decide) (by decide) 3⟩

/-- Over a sequence of schedule and tick calls on a queue without cleared
callbacks no tick throws, the latch `emptyWarned` is never reset, and the
drained notification is invoked exactly when the latch goes from unset to
set. -/
theorem runCalls_drained :
    ∀ (calls : List QueueCall) (inst : InstanceScript),
      (∀ entry ∈ inst.timedDelayedOperations, entry.2 ≠ none) →
      inst.timedDelayedOperations.length + calls.length < 4294967296 →
      ∃ inst1, runCalls calls inst = some inst1 ∧
        (inst.emptyWarned = true → inst1.emptyWarned = true) ∧
        drainedCount inst1.trace + (if inst.emptyWarned = true then 1 else 0) =
          drainedCount inst.trace + (if inst1.emptyWarned = true then 1 else 0) := by
  intro calls
  induction calls with
  | nil => intro inst _ _; exact ⟨inst, rfl, id, rfl⟩
  | cons call rest ih =>
    intro inst hset hlen
    simp only [List.length_cons] at hlen
    cases call with
    | Schedule timeout operation =>
      obtain ⟨inst1, hrun, hlatch, hcount⟩ := ih (inst.AddTimedDelayedOperation timeout operation)
        (by
          intro entry he
          unfold AddTimedDelayedOperation at he
          rw [List.mem_append, List.mem_singleton] at he
          rcases he with he | he
          · exact hset entry he
          · rw [he]
            simp)
        (by
          unfold AddTimedDelayedOperation
          simp only [List.length_append, List.length_singleton]
          omega)
      exact ⟨inst1, hrun, hlatch, hcount⟩
    | Tick diff =>
      obtain ⟨inst1, hu, hq, _, hdrained, hwarned⟩ :=
        UpdateOperations_facts inst diff hset (by omega)
      obtain ⟨inst2, hrun, hlatch, hcount⟩ := ih inst1
        (by rw [hq]; exact tickQueue_set diff _ hset)
        (by
          rw [hq]
          have := tickQueue_length diff inst.timedDelayedOperations
          omega)
      refine ⟨inst2, by simp [runCalls, hu, hrun], ?_, ?_⟩
      · intro h
        apply hlatch
        rw [hwarned, h]
        rfl
      · rw [hdrained] at hcount
        rw [hwarned] at hcount hlatch
        cases he : inst.emptyWarned <;> cases hq2 : tickQueue diff inst.timedDelayedOperations <;>
          simp [he, hq2] at hcount hlatch ⊢ <;> omega

/-- C16. Over every sequence of schedule and `UpdateOperations` calls, on a
queue without cleared callbacks: no call throws; the drained notification is
invoked at most once; it is not invoked at all when the latch was already set;
it has been invoked exactly when the latch went from unset to set, and the
latch is never reset. And a single tick invokes it exactly when the tick ends
with an empty queue and the latch was unset, which sets the latch: so it fires
in the first tick that ends with an empty queue and never again, also when
operations are scheduled and drained afterwards. -/
theorem LastOperationCalled_at_most_once (inst : InstanceScript) (calls : List QueueCall)
    (hset : ∀ entry ∈ inst.timedDelayedOperations, entry.2 ≠ none)
    (hlen : inst.timedDelayedOperations.length + calls.length < 4294967296) :
    (∃ inst1, runCalls calls inst = some inst1 ∧
      drainedCount inst1.trace ≤ drainedCount inst.trace + 1 ∧
      (inst.emptyWarned = true → drainedCount inst1.trace = drainedCount inst.trace) ∧
      (drainedCount inst1.trace = drainedCount inst.trace + 1 ↔
        inst.emptyWarned = false ∧ inst1.emptyWarned = true) ∧
      (inst.emptyWarned = true → inst1.emptyWarned = true)) ∧
    (∀ diff, ∃ inst1, inst.UpdateOperations diff = some inst1 ∧
      (drainedCount inst1.trace = drainedCount inst.trace + 1 ↔
        inst1.timedDelayedOperations = [] ∧ inst.emptyWarned = false) ∧
      (inst1.timedDelayedOperations = [] → inst1.emptyWarned = true)) := by
  constructor
  · obtain ⟨inst1, hrun, hlatch, hcount⟩ := runCalls_drained calls inst hset hlen
    refine ⟨inst1, hrun, ?_, ?_, ?_, hlatch⟩
    · cases he : inst.emptyWarned <;> cases he1 : inst1.emptyWarned <;>
        simp [he, he1] at hcount hlatch ⊢ <;> omega
    · intro he
      have he1 := hlatch he
      simp [he, he1] at hcount
      exact hcount
    · cases he : inst.emptyWarned <;> cases he1 : inst1.emptyWarned <;>
        simp [he, he1] at hcount hlatch ⊢ <;> omega
  · intro diff
    obtain ⟨inst1, hu, hq, _, hdrained, hwarned⟩ :=
      UpdateOperations_facts inst diff hset (by omega)
    refine ⟨inst1, hu, ?_, ?_⟩
    · rw [hdrained, hq]
      by_cases hc : tickQueue diff inst.timedDelayedOperations = [] ∧ inst.emptyWarned = false
      · simp [hc]
      · rw [if_neg hc]
        simp only [Nat.add_zero, Nat.self_eq_add_right, one_ne_zero, false_iff]
        exact hc
    · intro hnil
      rw [hwarned, ← hq, hnil]
      simp

/-- C16 at `queuedInstance`: a tick drains the queue (one notification), then
an operation is scheduled and drained again; the notification has still been
invoked once. -/
theorem LastOperationCalled_at_most_once_witness :
    ((∀ entry ∈ queuedInstance.timedDelayedOperations, entry.2 ≠ none) ∧
      queuedInstance.timedDelayedOperations.length +
        [QueueCall.Tick 40, QueueCall.Schedule 10 (DelayedOperation.Script 2),
          QueueCall.Tick 40].length < 4294967296) ∧
    ∃ inst1, runCalls [QueueCall.Tick 40, QueueCall.Schedule 10 (DelayedOperation.Script 2),
        QueueCall.Tick 40] queuedInstance = some inst1 ∧
      drainedCount inst1.trace ≤ drainedCount queuedInstance.trace + 1 ∧
      (queuedInstance.emptyWarned = true →
        drainedCount inst1.trace = drainedCount queuedInstance.trace) ∧
      (drainedCount inst1.trace = drainedCount queuedInstance.trace + 1 ↔
        queuedInstance.emptyWarned = false ∧ inst1.emptyWarned = true) ∧
      (queuedInstance.emptyWarned = true → inst1.emptyWarned = true) :=
  ⟨⟨by decide, by decide⟩,
    (LastOperationCalled_at_most_once queuedInstance
      [QueueCall.Tick 40, QueueCall.Schedule 10 (DelayedOperation.Script 2), QueueCall.Tick 40]
      (by decide) (by decide)).1⟩

/-! ## Challenge mode -/

/-- The threshold loop counts the thresholds that are greater than the
duration; the count is at most 3 whatever the entry holds. -/
theorem mythicIncrement_le (mapChallengeModeEntry : MapChallengeModeEntry) (E : Nat) :
    mythicIncrement mapChallengeModeEntry E ≤ 3 := by
  unfold mythicIncrement
  simp only [List.range, List.range.loop, List.foldl]
  split_ifs <;> omega

/-- The threshold loop on an entry with the three thresholds `t0`, `t1`, `t2`. -/
theorem mythicIncrement_eq (mapChallengeModeEntry : MapChallengeModeEntry) (t0 t1 t2 E : Nat)
    (h : mapChallengeModeEntry.CriteriaCount = [t0, t1, t2]) :
    mythicIncrement mapChallengeModeEntry E =
      ([t0, t1, t2].filter (fun t => decide (E < t))).length := by
  unfold mythicIncrement
  simp only [List.range, List.range.loop, List.foldl, h, List.getD_cons_zero,
    List.getD_cons_succ, gt_iff_lt]
  by_cases h0 : E < t0 <;> by_cases h1 : E < t1 <;> by_cases h2 : E < t2 <;>
    simp [List.filter_cons, h0, h1, h2]

/-- The trace after `CompleteChallengeMode` with a known mode: the completion
packet carries the duration and the level raised by the bonus. -/
theorem ChallengeModeComplete_mem (inst : InstanceScript) (msDiffToNow : Nat)
    (mapChallengeModeEntry : MapChallengeModeEntry)
    (hlookup : inst.GetMapChallengeModeEntryByModeId inst._challengeModeId =
      some mapChallengeModeEntry) :
    Event.ChallengeModeComplete (inst.GetChallengeModeCurrentDuration msDiffToNow) inst.mapId
        mapChallengeModeEntry.ID
        (inst._challengeModeLevel +
          mythicIncrement mapChallengeModeEntry
            (inst.GetChallengeModeCurrentDuration msDiffToNow)) ∈
      (inst.CompleteChallengeMode msDiffToNow).trace := by
  unfold CompleteChallengeMode
  simp only [hlookup, emitAll]
  simp

/-- C17, refuted as stated. With the thresholds 1800, 1500 and 1200 seconds and
an elapsed duration of 1500 seconds (1495 s on the clock and one death), two
thresholds are greater than or equal to the duration, but the bonus computed
is 1: `runningInstance` at level 4 completes at level 5. -/
theorem mythicIncrement_counterexample :
    runningInstance.GetMapChallengeModeEntryByModeId runningInstance._challengeModeId =
        some { ID := 244, CriteriaCount := [1800, 1500, 1200] } ∧
      runningInstance.GetChallengeModeCurrentDuration 1495000 = 1500 ∧
      ([1800, 1500, 1200].filter (fun t => decide (t ≥ 1500))).length = 2 ∧
      mythicIncrement { ID := 244, CriteriaCount := [1800, 1500, 1200] } 1500 = 1 ∧
      Event.ChallengeModeComplete 1500 1763 244 5 ∈
        (runningInstance.CompleteChallengeMode 1495000).trace := by
  decide

/-- C17, amended. For every triple of tier thresholds and every elapsed
duration `E`, the bonus computed by `CompleteChallengeMode` is the number of
thresholds that are strictly greater than `E`, and lies between 0 and 3; the
completion packet carries the run level plus that number. -/
theorem mythicIncrement_count (inst : InstanceScript) (msDiffToNow : Nat)
    (mapChallengeModeEntry : MapChallengeModeEntry) (t0 t1 t2 : Nat)
    (hlookup : inst.GetMapChallengeModeEntryByModeId inst._challengeModeId =
      some mapChallengeModeEntry)
    (hthresholds : mapChallengeModeEntry.CriteriaCount = [t0, t1, t2]) :
    mythicIncrement mapChallengeModeEntry (inst.GetChallengeModeCurrentDuration msDiffToNow) =
        ([t0, t1, t2].filter
          (fun t => decide (inst.GetChallengeModeCurrentDuration msDiffToNow < t))).length ∧
      mythicIncrement mapChallengeModeEntry (inst.GetChallengeModeCurrentDuration msDiffToNow) ≤
        3 ∧
      Event.ChallengeModeComplete (inst.GetChallengeModeCurrentDuration msDiffToNow) inst.mapId
          mapChallengeModeEntry.ID
          (inst._challengeModeLevel +
            ([t0, t1, t2].filter
              (fun t => decide (inst.GetChallengeModeCurrentDuration msDiffToNow < t))).length) ∈
        (inst.CompleteChallengeMode msDiffToNow).trace := by
  have h := mythicIncrement_eq mapChallengeModeEntry t0 t1 t2
    (inst.GetChallengeModeCurrentDuration msDiffToNow) hthresholds
  refine ⟨h, mythicIncrement_le _ _, ?_⟩
  rw [← h]
  exact ChallengeModeComplete_mem inst msDiffToNow mapChallengeModeEntry hlookup

/-- C17 at the example of the specification: thresholds of 30, 25 and 20
minutes and 22 minutes elapsed give the bonus 2. -/
theorem mythicIncrement_count_witness :
    (runningInstance.GetMapChallengeModeEntryByModeId runningInstance._challengeModeId =
        some { ID := 244, CriteriaCount := [1800, 1500, 1200] } ∧
      ({ ID := 244, CriteriaCount := [1800, 1500, 1200] } : MapChallengeModeEntry).CriteriaCount =
        [1800, 1500, 1200] ∧
      runningInstance.GetChallengeModeCurrentDuration 1315000 = 1320) ∧
    mythicIncrement { ID := 244, CriteriaCount := [1800, 1500, 1200] }
        (runningInstance.GetChallengeModeCurrentDuration 1315000) =
      ([1800, 1500, 1200].filter
        (fun t => decide (runningInstance.GetChallengeModeCurrentDuration 1315000 < t))).length :=
  ⟨⟨by decide, rfl, by decide⟩,
    (mythicIncrement_count runningInstance 1315000 { ID := 244, CriteriaCount := [1800, 1500, 1200] }
      1800 1500 1200 (by decide) rfl).1⟩

/-- A start that meets an active run, or a nonzero completed-encounter mask,
or an unknown mode, changes the stored mode id and nothing else. -/
theorem StartChallengeMode_rejected (inst : InstanceScript)
    (modeid level affix1 affix2 affix3 affix4 : Nat)
    (h : inst.IsChallengeModeStarted = true ∨ inst.completedEncounters ≠ 0 ∨
      inst.GetMapChallengeModeEntryByModeId modeid = none) :
    inst.StartChallengeMode modeid level affix1 affix2 affix3 affix4 =
      { inst with _challengeModeId := modeid } := by
  unfold StartChallengeMode
  dsimp only
  have hl : ({ inst with _challengeModeId := modeid } : InstanceScript).GetMapChallengeModeEntryByModeId
      modeid = inst.GetMapChallengeModeEntryByModeId modeid := rfl
  rw [hl]
  cases hm : inst.GetMapChallengeModeEntryByModeId modeid with
  | none => rfl
  | some mapChallengeModeEntry =>
    dsimp only
    rcases h with h | h | h
    · have hs : ({ inst with _challengeModeId := modeid } : InstanceScript).IsChallengeModeStarted =
          true := h
      rw [if_pos hs]
    · by_cases hs : ({ inst with _challengeModeId := modeid } :
          InstanceScript).IsChallengeModeStarted = true
      · rw [if_pos hs]
      · rw [if_neg hs, if_pos h]
    · rw [hm] at h
      cases h

/-- C18, the code at the failing input. `runningInstance` has an active run of
mode 1. `StartChallengeMode(2, 9, 1, 2, 3, 4)` is rejected, the flag, level,
affixes, affix set, start time, death count and queue are as before, but the
stored mode id is now 2: the assignment `_challengeModeId = modeid` comes
before the guards. The run then completes as mode 2 (challenge 245, bonus 3)
where it would have completed as mode 1 (challenge 244, bonus 2). -/
theorem StartChallengeMode_overwrites_mode_id :
    runningInstance.IsChallengeModeStarted = true ∧
      runningInstance._challengeModeId = 1 ∧
      (runningInstance.StartChallengeMode 2 9 1 2 3 4)._challengeModeId = 2 ∧
      runningInstance.StartChallengeMode 2 9 1 2 3 4 =
        { runningInstance with _challengeModeId := 2 } ∧
      Event.ChallengeModeComplete 1320 1763 244 6 ∈
        (runningInstance.CompleteChallengeMode 1315000).trace ∧
      Event.ChallengeModeComplete 1320 1763 245 7 ∈
        ((runningInstance.StartChallengeMode 2 9 1 2 3 4).CompleteChallengeMode 1315000).trace := by
  decide

/-- `CompleteChallengeMode` changes nothing but the trace. -/
theorem CompleteChallengeMode_frame (inst : InstanceScript) (msDiffToNow : Nat) :
    { inst.CompleteChallengeMode msDiffToNow with trace := inst.trace } = inst := by
  unfold CompleteChallengeMode
  split <;> rfl

/-- C19, refuted as stated. `runningInstance` has an active run whose mode
lookup succeeds; after `CompleteChallengeMode` the run is still active. -/
theorem CompleteChallengeMode_counterexample :
    runningInstance.IsChallengeModeStarted = true ∧
      runningInstance.GetMapChallengeModeEntryByModeId runningInstance._challengeModeId =
        some { ID := 244, CriteriaCount := [1800, 1500, 1200] } ∧
      (runningInstance.CompleteChallengeMode 1315000).IsChallengeModeStarted = true := by
  decide

/-- C19, amended. `CompleteChallengeMode` does not touch the active flag:
after it has run on an active challenge run, `IsChallengeModeStarted()` is
still true, a later player death still raises the death count, and a later
`StartChallengeMode` is rejected as already active (it changes the stored mode
id and nothing else). -/
theorem CompleteChallengeMode_stays_active (inst : InstanceScript) (msDiffToNow : Nat)
    (hactive : inst.IsChallengeModeStarted = true) :
    (inst.CompleteChallengeMode msDiffToNow).IsChallengeModeStarted = true ∧
      (∀ ms, ((inst.CompleteChallengeMode msDiffToNow).OnPlayerDeath ms)._challengeModeDeathCount =
        (inst._challengeModeDeathCount + 1) % 4294967296) ∧
      (∀ modeid level affix1 affix2 affix3 affix4,
        (inst.CompleteChallengeMode msDiffToNow).StartChallengeMode modeid level affix1 affix2
            affix3 affix4 =
          { inst.CompleteChallengeMode msDiffToNow with _challengeModeId := modeid }) := by
  have hframe := CompleteChallengeMode_frame inst msDiffToNow
  have hstarted : (inst.CompleteChallengeMode msDiffToNow).IsChallengeModeStarted = true := by
    have := congrArg (fun i => i._challengeModeStarted) hframe
    exact this.trans hactive
  have hdeaths : (inst.CompleteChallengeMode msDiffToNow)._challengeModeDeathCount =
      inst._challengeModeDeathCount := congrArg (fun i => i._challengeModeDeathCount) hframe
  refine ⟨hstarted, ?_, ?_⟩
  · intro ms
    unfold OnPlayerDeath
    rw [if_pos hstarted, ← hdeaths]
    rfl
  · intro modeid level affix1 affix2 affix3 affix4
    exact StartChallengeMode_rejected _ modeid level affix1 affix2 affix3 affix4 (Or.inl hstarted)

/-- C19 at `runningInstance`. -/
theorem CompleteChallengeMode_stays_active_witness :
    runningInstance.IsChallengeModeStarted = true ∧
      (runningInstance.CompleteChallengeMode 1315000).IsChallengeModeStarted = true :=
  ⟨rfl, (CompleteChallengeMode_stays_active runningInstance 1315000 rfl).1⟩

/-- The key grants of a list of grant events. -/
theorem keyGrants_map_AddChallengeKey (players : List Player) (challengeLevel : Nat) :
    keyGrants (players.map (fun player => Event.AddChallengeKey player.guid challengeLevel)) =
      players.map (fun player => (player.guid, challengeLevel)) := by
  induction players with
  | nil => rfl
  | cons p rest ih =>
    unfold keyGrants at ih ⊢
    simp only [List.map_cons, List.filterMap_cons]
    rw [ih]

/-- The per-player reward calls hold no key grant. -/
theorem keyGrants_rewards (players : List Player) (f : Player → List Event)
    (hf : ∀ p, keyGrants (f p) = []) : keyGrants (players.flatMap f) = [] := by
  induction players with
  | nil => rfl
  | cons p rest ih =>
    unfold keyGrants at ih hf ⊢
    rw [List.flatMap_cons, List.filterMap_append, ih, hf p]
    rfl

/-- C20. With a known mode and a run level of at most 255, `CompleteChallengeMode`
grants every player, in player order, a key of level `max(level + bonus, 1)`,
where `bonus` is the computed increment, at most 3; the level is the true sum
(it can be up to 258, nothing is reduced modulo 256), it is at least 1, and it
is `level + bonus` whenever that sum is positive. -/
theorem CompleteChallengeMode_key_level (inst : InstanceScript) (msDiffToNow : Nat)
    (mapChallengeModeEntry : MapChallengeModeEntry)
    (hlookup : inst.GetMapChallengeModeEntryByModeId inst._challengeModeId =
      some mapChallengeModeEntry)
    (hlevel : inst._challengeModeLevel ≤ 255) :
    mythicIncrement mapChallengeModeEntry (inst.GetChallengeModeCurrentDuration msDiffToNow) ≤ 3 ∧
    keyGrants (inst.CompleteChallengeMode msDiffToNow).trace =
      keyGrants inst.trace ++ inst.players.map (fun player =>
        (player.guid, max (inst._challengeModeLevel +
          mythicIncrement mapChallengeModeEntry
            (inst.GetChallengeModeCurrentDuration msDiffToNow)) 1)) ∧
    1 ≤ max (inst._challengeModeLevel +
      mythicIncrement mapChallengeModeEntry (inst.GetChallengeModeCurrentDuration msDiffToNow)) 1 ∧
    max (inst._challengeModeLevel +
      mythicIncrement mapChallengeModeEntry (inst.GetChallengeModeCurrentDuration msDiffToNow)) 1 ≤
        258 ∧
    (0 < inst._challengeModeLevel +
        mythicIncrement mapChallengeModeEntry (inst.GetChallengeModeCurrentDuration msDiffToNow) →
      max (inst._challengeModeLevel +
        mythicIncrement mapChallengeModeEntry (inst.GetChallengeModeCurrentDuration msDiffToNow))
          1 =
        inst._challengeModeLevel +
          mythicIncrement mapChallengeModeEntry
            (inst.GetChallengeModeCurrentDuration msDiffToNow)) := by
  have hle := mythicIncrement_le mapChallengeModeEntry
    (inst.GetChallengeModeCurrentDuration msDiffToNow)
  refine ⟨hle, ?_, by omega, by omega, by omega⟩
  have happ : ∀ a b : List Event, keyGrants (a ++ b) = keyGrants a ++ keyGrants b := by
    intro a b
    unfold keyGrants
    rw [List.filterMap_append]
  have hach : ∀ increment, keyGrants (inst.challengeAchievements increment) = [] := by
    intro increment
    unfold challengeAchievements
    split_ifs <;> rfl
  have hrewards := keyGrants_rewards inst.players
    (fun player => inst.challengeRewardCalls
      (inst.GetChallengeModeCurrentDuration msDiffToNow) player) (fun _ => rfl)
  unfold CompleteChallengeMode
  simp only [hlookup, emitAll]
  rw [happ, happ, happ, happ, happ, happ, keyGrants_map_AddChallengeKey, hach, hrewards]
  simp [keyGrants]

/-- C20 at `runningInstance` (level 4) completing in 1320 seconds: the bonus is
2 and both players are granted a key of level 6. -/
theorem CompleteChallengeMode_key_level_witness :
    (runningInstance.GetMapChallengeModeEntryByModeId runningInstance._challengeModeId =
        some { ID := 244, CriteriaCount := [1800, 1500, 1200] } ∧
      runningInstance._challengeModeLevel ≤ 255) ∧
    keyGrants (runningInstance.CompleteChallengeMode 1315000).trace =
      keyGrants runningInstance.trace ++ runningInstance.players.map (fun player =>
        (player.guid, max (runningInstance._challengeModeLevel +
          mythicIncrement { ID := 244, CriteriaCount := [1800, 1500, 1200] }
            (runningInstance.GetChallengeModeCurrentDuration 1315000)) 1)) :=
  ⟨⟨by decide, by decide⟩,
    (CompleteChallengeMode_key_level runningInstance 1315000
      { ID := 244, CriteriaCount := [1800, 1500, 1200] } (by decide) (by decide)).2.1⟩

/-! ## Accepted transitions -/

/-- What `SaveToDB` leaves alone: everything but the trace. -/
theorem SaveToDB_frame {β : Type} (p : InstanceScript → β)
    (hp : ∀ i e, p (emit i e) = p i) (inst : InstanceScript) : p inst.SaveToDB = p inst := by
  unfold SaveToDB
  dsimp only
  split <;> split <;> simp only [hp]

/-- What `UpdateMinionState` leaves alone: everything but the trace. -/
theorem UpdateMinionState_frame {β : Type} (p : InstanceScript → β)
    (hp : ∀ i e, p (emit i e) = p i) (inst : InstanceScript) (m : Creature)
    (st : EncounterState) : p (inst.UpdateMinionState m st) = p inst := by
  unfold UpdateMinionState
  split
  · split
    · exact hp _ _
    · split
      · exact hp _ _
      · rfl
  · split
    · exact hp _ _
    · split
      · exact hp _ _
      · rfl
  · rfl

/-- What the minion loop leaves alone: everything but the trace. -/
theorem updateMinions_frame {β : Type} (p : InstanceScript → β)
    (hp : ∀ i e, p (emit i e) = p i) (inst : InstanceScript) (guids : List ObjectGuid)
    (st : EncounterState) : p (inst.updateMinions guids st) = p inst := by
  unfold updateMinions
  apply foldl_preserves p
  intro acc guid
  dsimp only
  split
  · exact UpdateMinionState_frame p hp _ _ _
  · rfl

/-- What the encounter-start proc leaves alone: everything but the trace. -/
theorem procEncounterStart_frame {β : Type} (p : InstanceScript → β)
    (hp : ∀ i e, p (emit i e) = p i) (inst : InstanceScript) :
    p inst.procEncounterStart = p inst := by
  unfold procEncounterStart
  apply foldl_preserves p
  intro acc player
  dsimp only
  split
  · exact hp _ _
  · rfl

/-- What `UpdateDoorState` leaves alone: everything but the game objects. -/
theorem UpdateDoorState_frame {β : Type} (p : InstanceScript → β)
    (hp : ∀ i g st, p (SetGoState i g st) = p i) (inst : InstanceScript) (door : GameObject) :
    p (inst.UpdateDoorState door) = p inst := by
  unfold UpdateDoorState
  split
  · rfl
  · exact hp _ _ _

/-- What the door loop leaves alone: everything but the game objects. -/
theorem updateDoors_frame {β : Type} (p : InstanceScript → β)
    (hp : ∀ i g st, p (SetGoState i g st) = p i) (inst : InstanceScript)
    (guids : List ObjectGuid) : p (inst.updateDoors guids) = p inst := by
  unfold updateDoors
  apply foldl_preserves p
  intro acc guid
  dsimp only
  split
  · exact UpdateDoorState_frame p hp _ _
  · rfl

/-- The accepted path of `SetBossState`, written out: the boss exists, is
loaded, is in another state, and the world-boss guard does not apply. -/
theorem SetBossState_accepted (inst : InstanceScript) (id : Nat) (st : EncounterState)
    (bossInfo : BossInfo) (hboss : inst.bosses[id]? = some bossInfo)
    (hloaded : bossInfo.state ≠ TO_BE_DECIDED) (hother : bossInfo.state ≠ st)
    (hguard : ¬ (st = DONE ∧ inst.worldBossMinionAlive bossInfo = true)) :
    inst.SetBossState id st =
      (true, ((((inst.enterState bossInfo.state st).assignState id st).SaveToDB).updateDoors
        bossInfo.door.flatten).updateMinions bossInfo.minion st) := by
  unfold SetBossState
  rw [hboss]
  dsimp only
  rw [if_neg hloaded, if_neg hother, if_neg hguard]

/-- The combat-resurrection fields after an accepted transition are those the
`switch` of `SetBossState` left. -/
theorem SetBossState_accepted_combat (inst : InstanceScript) (id : Nat) (st : EncounterState)
    (bossInfo : BossInfo) (hboss : inst.bosses[id]? = some bossInfo)
    (hloaded : bossInfo.state ≠ TO_BE_DECIDED) (hother : bossInfo.state ≠ st)
    (hguard : ¬ (st = DONE ∧ inst.worldBossMinionAlive bossInfo = true)) :
    (inst.SetBossState id st).1 = true ∧
      (inst.SetBossState id st).2._combatResurrectionCharges =
        (inst.enterState bossInfo.state st)._combatResurrectionCharges ∧
      (inst.SetBossState id st).2._combatResurrectionTimer =
        (inst.enterState bossInfo.state st)._combatResurrectionTimer ∧
      (inst.SetBossState id st).2._combatResurrectionTimerStarted =
        (inst.enterState bossInfo.state st)._combatResurrectionTimerStarted := by
  rw [SetBossState_accepted inst id st bossInfo hboss hloaded hother hguard]
  refine ⟨rfl, ?_, ?_, ?_⟩
  · dsimp only
    rw [updateMinions_frame (fun i => i._combatResurrectionCharges) (fun _ _ => rfl),
      updateDoors_frame (fun i => i._combatResurrectionCharges) (fun _ _ _ => rfl),
      SaveToDB_frame (fun i => i._combatResurrectionCharges) (fun _ _ => rfl)]
    rfl
  · dsimp only
    rw [updateMinions_frame (fun i => i._combatResurrectionTimer) (fun _ _ => rfl),
      updateDoors_frame (fun i => i._combatResurrectionTimer) (fun _ _ _ => rfl),
      SaveToDB_frame (fun i => i._combatResurrectionTimer) (fun _ _ => rfl)]
    rfl
  · dsimp only
    rw [updateMinions_frame (fun i => i._combatResurrectionTimerStarted) (fun _ _ => rfl),
      updateDoors_frame (fun i => i._combatResurrectionTimerStarted) (fun _ _ _ => rfl),
      SaveToDB_frame (fun i => i._combatResurrectionTimerStarted) (fun _ _ => rfl)]
    rfl

/-- The combat-resurrection fields that entering `IN_PROGRESS` leaves: one
charge; with an interval other than 0 the timer holds it and is started, with
the interval 0 the timer and its flag are as before. -/
theorem enterState_IN_PROGRESS_combat (inst : InstanceScript) (old : EncounterState) :
    (inst.enterState old IN_PROGRESS)._combatResurrectionCharges = 1 ∧
      (inst.GetCombatResurrectionChargeInterval ≠ 0 →
        (inst.enterState old IN_PROGRESS)._combatResurrectionTimer =
            inst.GetCombatResurrectionChargeInterval ∧
          (inst.enterState old IN_PROGRESS)._combatResurrectionTimerStarted = true) ∧
      (inst.GetCombatResurrectionChargeInterval = 0 →
        (inst.enterState old IN_PROGRESS)._combatResurrectionTimer =
            inst._combatResurrectionTimer ∧
          (inst.enterState old IN_PROGRESS)._combatResurrectionTimerStarted =
            inst._combatResurrectionTimerStarted) := by
  unfold enterState
  dsimp only
  rw [procEncounterStart_frame (fun i => i._combatResurrectionCharges) (fun _ _ => rfl),
    procEncounterStart_frame (fun i => i._combatResurrectionTimer) (fun _ _ => rfl),
    procEncounterStart_frame (fun i => i._combatResurrectionTimerStarted) (fun _ _ => rfl)]
  unfold SendEncounterStart InitializeCombatResurrections emit
  dsimp only
  refine ⟨?_, ?_, ?_⟩
  · split <;> rfl
  · intro h
    rw [if_neg h]
    exact ⟨rfl, rfl⟩
  · intro h
    rw [if_pos h]
    exact ⟨rfl, rfl⟩

/-- The recharge interval by player count. -/
theorem GetCombatResurrectionChargeInterval_eq (inst : InstanceScript) :
    (inst.players.length = 0 → inst.GetCombatResurrectionChargeInterval = 0) ∧
      (0 < inst.players.length →
        inst.GetCombatResurrectionChargeInterval = 5400000 / inst.players.length) := by
  unfold GetCombatResurrectionChargeInterval
  constructor
  · intro h
    rw [if_pos h]
  · intro h
    rw [if_neg (by omega)]

/-! ## Combat resurrection -/

/-- C23, refuted as stated. `crowdedInstance` has n = 5,400,001 players, so
n > 0, and its boss 0 is not started. The integer division 5,400,000 / n gives
the interval 0; the transition of boss 0 to `IN_PROGRESS` is accepted and
leaves 1 charge, but `InitializeCombatResurrections` returns before it touches
the timer, which is left not started. -/
theorem combat_resurrection_interval_counterexample :
    0 < crowdedInstance.players.length ∧
      crowdedInstance.GetCombatResurrectionChargeInterval = 0 ∧
      (crowdedInstance.SetBossState 0 IN_PROGRESS).1 = true ∧
      (crowdedInstance.SetBossState 0 IN_PROGRESS).2._combatResurrectionCharges = 1 ∧
      (crowdedInstance.SetBossState 0 IN_PROGRESS).2._combatResurrectionTimerStarted = false := by
  have hlen : crowdedInstance.players.length = 5400001 := List.length_replicate _ _
  have hint : crowdedInstance.GetCombatResurrectionChargeInterval = 0 := by
    unfold GetCombatResurrectionChargeInterval
    rw [hlen]
    norm_num
  have hacc := SetBossState_accepted_combat crowdedInstance 0 IN_PROGRESS
    { state := NOT_STARTED } rfl (by decide) (by decide) (by decide)
  have hent := enterState_IN_PROGRESS_combat crowdedInstance NOT_STARTED
  refine ⟨by omega, hint, hacc.1, ?_, ?_⟩
  · rw [hacc.2.1]
    exact hent.1
  · rw [hacc.2.2.2, (hent.2.2 hint).2]
    rfl

/-- C23, amended. For every player count n the recharge interval is 0 when
n = 0 and 5,400,000 / n (integer division, 90 minutes in milliseconds) when
n > 0, so it is the full 5,400,000 ms with exactly one player. An accepted
transition of a boss to `IN_PROGRESS` with 0 < n ≤ 5,400,000 players, that is
with an interval other than 0, leaves 1 charge and the timer set to that
interval and started. -/
theorem combat_resurrection_interval (inst : InstanceScript) (id : Nat) (bossInfo : BossInfo)
    (hboss : inst.bosses[id]? = some bossInfo) (hloaded : bossInfo.state ≠ TO_BE_DECIDED)
    (hother : bossInfo.state ≠ IN_PROGRESS) :
    (inst.players.length = 0 → inst.GetCombatResurrectionChargeInterval = 0) ∧
      (0 < inst.players.length →
        inst.GetCombatResurrectionChargeInterval = 5400000 / inst.players.length) ∧
      (inst.players.length = 1 → inst.GetCombatResurrectionChargeInterval = 5400000) ∧
      (0 < inst.players.length → inst.players.length ≤ 5400000 →
        (inst.SetBossState id IN_PROGRESS).1 = true ∧
          (inst.SetBossState id IN_PROGRESS).2._combatResurrectionCharges = 1 ∧
          (inst.SetBossState id IN_PROGRESS).2._combatResurrectionTimer =
            inst.GetCombatResurrectionChargeInterval ∧
          (inst.SetBossState id IN_PROGRESS).2._combatResurrectionTimerStarted = true) := by
  have hint := GetCombatResurrectionChargeInterval_eq inst
  refine ⟨hint.1, hint.2, ?_, ?_⟩
  · intro h1
    rw [hint.2 (by omega), h1]
  · intro hpos hle
    have hne : inst.GetCombatResurrectionChargeInterval ≠ 0 := by
      rw [hint.2 hpos]
      have := Nat.div_pos hle hpos
      omega
    have hacc := SetBossState_accepted_combat inst id IN_PROGRESS bossInfo hboss hloaded hother
      (by simp)
    have hent := enterState_IN_PROGRESS_combat inst bossInfo.state
    refine ⟨hacc.1, ?_, ?_, ?_⟩
    · rw [hacc.2.1]
      exact hent.1
    · rw [hacc.2.2.1]
      exact (hent.2.1 hne).1
    · rw [hacc.2.2.2]
      exact (hent.2.1 hne).2

/-- C23 at `runningInstance`: two players and a boss that is done; the interval
is 2,700,000 ms and the transition to `IN_PROGRESS` leaves 1 charge and the
timer started at 2,700,000. -/
theorem combat_resurrection_interval_witness :
    (runningInstance.bosses[0]? = some { state := DONE } ∧
      0 < runningInstance.players.length ∧ runningInstance.players.length ≤ 5400000) ∧
    runningInstance.GetCombatResurrectionChargeInterval = 2700000 ∧
    ((runningInstance.SetBossState 0 IN_PROGRESS).1 = true ∧
      (runningInstance.SetBossState 0 IN_PROGRESS).2._combatResurrectionCharges = 1 ∧
      (runningInstance.SetBossState 0 IN_PROGRESS).2._combatResurrectionTimer =
        runningInstance.GetCombatResurrectionChargeInterval ∧
      (runningInstance.SetBossState 0 IN_PROGRESS).2._combatResurrectionTimerStarted = true) :=
  ⟨⟨rfl, by decide, by decide⟩, by decide,
    (combat_resurrection_interval runningInstance 0 { state := DONE } rfl (by decide)
      (by decide)).2.2.2 (by decide) (by decide)⟩

/-- C29: an accepted transition of a boss to `IN_PROGRESS` while the instance
has no players sets the charge count to 1 and leaves the recharge timer and its
started flag exactly as they were. -/
theorem SetBossState_IN_PROGRESS_no_players (inst : InstanceScript) (id : Nat)
    (bossInfo : BossInfo) (hboss : inst.bosses[id]? = some bossInfo)
    (hloaded : bossInfo.state ≠ TO_BE_DECIDED) (hother : bossInfo.state ≠ IN_PROGRESS)
    (hplayers : inst.players.length = 0) :
    (inst.SetBossState id IN_PROGRESS).1 = true ∧
      (inst.SetBossState id IN_PROGRESS).2._combatResurrectionCharges = 1 ∧
      (inst.SetBossState id IN_PROGRESS).2._combatResurrectionTimer =
        inst._combatResurrectionTimer ∧
      (inst.SetBossState id IN_PROGRESS).2._combatResurrectionTimerStarted =
        inst._combatResurrectionTimerStarted := by
  have hint := (GetCombatResurrectionChargeInterval_eq inst).1 hplayers
  have hacc := SetBossState_accepted_combat inst id IN_PROGRESS bossInfo hboss hloaded hother
    (by simp)
  have hent := enterState_IN_PROGRESS_combat inst bossInfo.state
  refine ⟨hacc.1, ?_, ?_, ?_⟩
  · rw [hacc.2.1]
    exact hent.1
  · rw [hacc.2.2.1]
    exact (hent.2.2 hint).1
  · rw [hacc.2.2.2]
    exact (hent.2.2 hint).2

/-- C29 at `emptyInstance`: no players, the timer holds 77 and is started;
after the accepted transition there is 1 charge, and the timer still holds 77
and is still started. -/
theorem SetBossState_IN_PROGRESS_no_players_witness :
    (emptyInstance.bosses[0]? = some { state := NOT_STARTED } ∧
      emptyInstance.players.length = 0) ∧
    (emptyInstance.SetBossState 0 IN_PROGRESS).1 = true ∧
    (emptyInstance.SetBossState 0 IN_PROGRESS).2._combatResurrectionCharges = 1 ∧
    (emptyInstance.SetBossState 0 IN_PROGRESS).2._combatResurrectionTimer = 77 ∧
    (emptyInstance.SetBossState 0 IN_PROGRESS).2._combatResurrectionTimerStarted = true :=
  ⟨⟨rfl, rfl⟩,
    SetBossState_IN_PROGRESS_no_players emptyInstance 0 { state := NOT_STARTED } rfl (by decide)
      (by decide) rfl⟩

/-- C30: for every combat-resurrection state and every `diff`,
`UpdateCombatResurrection(diff)` does nothing while the timer is not started;
with the timer started and above `diff` it only lowers the timer by `diff`
(the charges stay, and the subtraction does not pass below 0); with the timer
started and at most `diff` it raises the charge count by exactly one (the count
being below 255, the largest value of its 8-bit type), sets the timer to the
full current recharge interval, whatever was left of `diff`, and sends the new
count and timer to the players. -/
theorem UpdateCombatResurrection_cases (inst : InstanceScript) (diff : Nat) :
    (inst._combatResurrectionTimerStarted = false → inst.UpdateCombatResurrection diff = inst) ∧
      (inst._combatResurrectionTimerStarted = true → diff < inst._combatResurrectionTimer →
        inst.UpdateCombatResurrection diff =
            { inst with _combatResurrectionTimer := inst._combatResurrectionTimer - diff } ∧
          (inst.UpdateCombatResurrection diff)._combatResurrectionTimer + diff =
            inst._combatResurrectionTimer ∧
          (inst.UpdateCombatResurrection diff)._combatResurrectionCharges =
            inst._combatResurrectionCharges) ∧
      (inst._combatResurrectionTimerStarted = true → inst._combatResurrectionTimer ≤ diff →
        inst._combatResurrectionCharges < 255 →
        inst.UpdateCombatResurrection diff =
            { inst with
              _combatResurrectionCharges := inst._combatResurrectionCharges + 1
              _combatResurrectionTimer := inst.GetCombatResurrectionChargeInterval
              trace := inst.trace ++
                [Event.GainCombatResurrectionCharge (inst._combatResurrectionCharges + 1)
                  inst.GetCombatResurrectionChargeInterval] }) := by
  refine ⟨?_, ?_, ?_⟩
  · intro h
    unfold UpdateCombatResurrection
    rw [if_pos h]
  · intro h hlt
    have h1 : ¬ inst._combatResurrectionTimerStarted = false := by simp [h]
    have h2 : ¬ inst._combatResurrectionTimer ≤ diff := by omega
    have heq : inst.UpdateCombatResurrection diff =
        { inst with _combatResurrectionTimer := inst._combatResurrectionTimer - diff } := by
      unfold UpdateCombatResurrection
      rw [if_neg h1, if_neg h2]
    rw [heq]
    refine ⟨rfl, ?_, rfl⟩
    show inst._combatResurrectionTimer - diff + diff = inst._combatResurrectionTimer
    omega
  · intro h hle hc
    have h1 : ¬ inst._combatResurrectionTimerStarted = false := by simp [h]
    have hmod : (inst._combatResurrectionCharges + 1) % 256 =
        inst._combatResurrectionCharges + 1 := Nat.mod_eq_of_lt (by omega)
    unfold UpdateCombatResurrection
    rw [if_neg h1, if_pos hle]
    unfold AddCombatResurrectionCharge emit
    dsimp only
    rw [hmod]

/-- C30 at `sampleInstance` (timer not started) and at `rechargingInstance`
(two players, 1 charge, 500 ms left): a tick of 200 ms leaves 300 ms and the
charge; a tick of 700 ms gives the second charge and the full interval of
2,700,000 ms. -/
theorem UpdateCombatResurrection_cases_witness :
    (sampleInstance._combatResurrectionTimerStarted = false ∧
      rechargingInstance._combatResurrectionTimerStarted = true ∧
      200 < rechargingInstance._combatResurrectionTimer ∧
      rechargingInstance._combatResurrectionTimer ≤ 700 ∧
      rechargingInstance._combatResurrectionCharges < 255) ∧
    sampleInstance.UpdateCombatResurrection 200 = sampleInstance ∧
    (rechargingInstance.UpdateCombatResurrection 200)._combatResurrectionTimer + 200 =
      rechargingInstance._combatResurrectionTimer ∧
    rechargingInstance.UpdateCombatResurrection 700 =
      { rechargingInstance with
        _combatResurrectionCharges := rechargingInstance._combatResurrectionCharges + 1
        _combatResurrectionTimer := rechargingInstance.GetCombatResurrectionChargeInterval
        trace := rechargingInstance.trace ++
          [Event.GainCombatResurrectionCharge (rechargingInstance._combatResurrectionCharges + 1)
            rechargingInstance.GetCombatResurrectionChargeInterval] } :=
  ⟨⟨rfl, rfl, by decide, by decide, by decide⟩,
    (UpdateCombatResurrection_cases sampleInstance 200).1 rfl,
    ((UpdateCombatResurrection_cases rechargingInstance 200).2.1 rfl (by decide)).2.1,
    (UpdateCombatResurrection_cases rechargingInstance 700).2.2 rfl (by decide) (by decide)⟩

/-! ## Other bosses -/

/-- C25: for every boss index `id`, every state and every instance,
`SetBossState(id, s)` leaves the state of every boss `j ≠ id` as it was,
whatever path the call takes, and the number of bosses with it. -/
theorem SetBossState_other_bosses (inst : InstanceScript) (id j : Nat) (st : EncounterState)
    (h : j ≠ id) :
    (inst.SetBossState id st).2.bosses.length = inst.bosses.length ∧
      ((inst.SetBossState id st).2.bosses[j]?).map (fun bossInfo => bossInfo.state) =
        (inst.bosses[j]?).map (fun bossInfo => bossInfo.state) := by
  have hl := SetBossState_length inst id st
  have hs := SetBossState_bossState_ne inst id j st (Ne.symm h)
  refine ⟨hl, ?_⟩
  by_cases hj : j < inst.bosses.length
  · have hj2 : j < (inst.SetBossState id st).2.bosses.length := by omega
    rw [bossState_eq_getElem _ j hj, bossState_eq_getElem _ j hj2] at hs
    rw [List.getElem?_eq_getElem hj, List.getElem?_eq_getElem hj2]
    simp [hs]
  · rw [List.getElem?_eq_none (by omega), List.getElem?_eq_none (by omega)]

/-- C25 at `sampleInstance`: the accepted transition of boss 0 to `FAIL` leaves
boss 1 in its state. -/
theorem SetBossState_other_bosses_witness :
    (1 : Nat) ≠ 0 ∧
      (sampleInstance.SetBossState 0 FAIL).1 = true ∧
      ((sampleInstance.SetBossState 0 FAIL).2.bosses[1]?).map (fun bossInfo => bossInfo.state) =
        (sampleInstance.bosses[1]?).map (fun bossInfo => bossInfo.state) :=
  ⟨by decide, by decide, (SetBossState_other_bosses sampleInstance 0 1 FAIL (by decide)).2⟩

/-! ## The queue after a tick -/

/-- Without `int32` wrap the ticked queue is the entries whose delay minus
`diff` is not negative, each with that delay. -/
theorem tickQueue_of_range (diff : Nat) (queue : List (Int × Option DelayedOperation))
    (hwrap : ∀ entry ∈ queue,
      -2147483648 ≤ entry.1 - (diff : Int) ∧ entry.1 - (diff : Int) < 2147483648) :
    tickQueue diff queue =
      (queue.filter (fun entry => decide (0 ≤ entry.1 - (diff : Int)))).map
        (fun entry => (entry.1 - (diff : Int), entry.2)) := by
  induction queue with
  | nil => rfl
  | cons entry rest ih =>
    have h1 := hwrap entry (List.mem_cons_self _ _)
    have hr := ih (fun x hx => hwrap x (List.mem_cons_of_mem _ hx))
    have ht := toInt32_of_range _ h1.1 h1.2
    unfold tickQueue at hr ⊢
    by_cases hp : 0 ≤ entry.1 - (diff : Int)
    · simp only [List.map_cons, List.filter_cons, ht, hp, decide_True, if_true, hr]
    · simp only [List.map_cons, List.filter_cons, ht, hp, decide_False, Bool.false_eq_true,
        if_false, hr]

/-- Without `int32` wrap the fired callbacks are those of the entries whose
delay minus `diff` is negative. -/
theorem firedOperations_of_range (diff : Nat) (queue : List (Int × Option DelayedOperation))
    (hwrap : ∀ entry ∈ queue,
      -2147483648 ≤ entry.1 - (diff : Int) ∧ entry.1 - (diff : Int) < 2147483648) :
    firedOperations diff queue =
      (queue.filter (fun entry => decide (entry.1 - (diff : Int) < 0))).filterMap
        (fun entry => entry.2) := by
  induction queue with
  | nil => rfl
  | cons entry rest ih =>
    have h1 := hwrap entry (List.mem_cons_self _ _)
    have hr := ih (fun x hx => hwrap x (List.mem_cons_of_mem _ hx))
    have ht := toInt32_of_range _ h1.1 h1.2
    unfold firedOperations at hr ⊢
    by_cases hp : entry.1 - (diff : Int) < 0
    · simp only [List.filter_cons, ht, hp, decide_True, if_true, List.filterMap_cons, hr]
    · simp only [List.filter_cons, ht, hp, decide_False, Bool.false_eq_true, if_false, hr]

/-- C28: for every queue of non-empty actions (with fewer than `2 ^ 32`
entries) and every `diff` that keeps the delays within `int32`, after
`UpdateOperations(diff)` the queue holds exactly the entries whose delay minus
`diff` is still non-negative, in their original order, each with its delay
reduced by `diff`; the removal loop (count the cleared entries, then that many
times find the first one and erase it) removes from any queue exactly what
filtering out the cleared entries removes; and the fired actions are invoked in
queue order, followed at most by the drained notification. -/
theorem UpdateOperations_refines_filter (inst : InstanceScript) (diff : Nat)
    (hset : ∀ entry ∈ inst.timedDelayedOperations, entry.2 ≠ none)
    (hlen : inst.timedDelayedOperations.length < 4294967296)
    (hwrap : ∀ entry ∈ inst.timedDelayedOperations,
      -2147483648 ≤ entry.1 - (diff : Int) ∧ entry.1 - (diff : Int) < 2147483648) :
    (∃ inst1 tail, inst.UpdateOperations diff = some inst1 ∧
      inst1.timedDelayedOperations =
        (inst.timedDelayedOperations.filter
          (fun entry => decide (0 ≤ entry.1 - (diff : Int)))).map
          (fun entry => (entry.1 - (diff : Int), entry.2)) ∧
      inst1.trace = inst.trace ++
        ((inst.timedDelayedOperations.filter
          (fun entry => decide (entry.1 - (diff : Int) < 0))).filterMap
          (fun entry => entry.2)).map Event.OperationCalled ++ tail ∧
      (tail = [] ∨ tail = [Event.LastOperationCalled])) ∧
    ∀ marked : List (Int × Option DelayedOperation), marked.length < 4294967296 →
      UpdateOperations.remove (marked.countP (fun entry => entry.2.isNone) % 4294967296) marked =
        marked.filter (fun entry => !entry.2.isNone) := by
  constructor
  · have heq := UpdateOperations_eq inst diff hset hlen
    rw [tickQueue_of_range diff _ hwrap, firedOperations_of_range diff _ hwrap] at heq
    split at heq
    · exact ⟨_, [Event.LastOperationCalled], heq, rfl, rfl, Or.inr rfl⟩
    · exact ⟨_, [], heq, rfl, by simp, Or.inl rfl⟩
  · intro marked hm
    have hc : marked.countP (fun entry => entry.2.isNone) ≤ marked.length :=
      List.countP_le_length _
    rw [Nat.mod_eq_of_lt (by omega)]
    exact UpdateOperations_remove_eq _ marked (Nat.le_refl _)

/-- C28 at `threeOperations` with a tick of 25 ms: the callbacks due after 10
and 20 ms are invoked, in that order, and the queue keeps the third with 25 ms
left. -/
theorem UpdateOperations_refines_filter_witness :
    ((∀ entry ∈ threeOperations.timedDelayedOperations, entry.2 ≠ none) ∧
      threeOperations.timedDelayedOperations.length < 4294967296 ∧
      ∀ entry ∈ threeOperations.timedDelayedOperations,
        -2147483648 ≤ entry.1 - ((25 : Nat) : Int) ∧ entry.1 - ((25 : Nat) : Int) < 2147483648) ∧
    ∃ inst1 tail, threeOperations.UpdateOperations 25 = some inst1 ∧
      inst1.timedDelayedOperations =
        (threeOperations.timedDelayedOperations.filter
          (fun entry => decide (0 ≤ entry.1 - ((25 : Nat) : Int)))).map
          (fun entry => (entry.1 - ((25 : Nat) : Int), entry.2)) ∧
      inst1.trace = threeOperations.trace ++
        ((threeOperations.timedDelayedOperations.filter
          (fun entry => decide (entry.1 - ((25 : Nat) : Int) < 0))).filterMap
          (fun entry => entry.2)).map Event.OperationCalled ++ tail ∧
      (tail = [] ∨ tail = [Event.LastOperationCalled]) :=
  ⟨⟨by decide, by decide, by decide⟩,
    (UpdateOperations_refines_filter threeOperations 25 (by decide) (by decide) (by decide)).1⟩

/-! ## Duration and deaths of a challenge run -/

/-- C21: `GetChallengeModeCurrentDuration` is the whole seconds elapsed since
the start timestamp, `msDiffToNow / 1000` for the milliseconds `msDiffToNow`
that `GetMSTimeDiffToNow(_challengeModeStartTime)` returns, plus 5 times the
death count; `OnPlayerDeath` while a run is active raises the death count by
exactly one, which adds exactly 5 seconds to the duration at the same clock
reading; while no run is active it leaves the instance, and with it the death
count, as it is. The sums are taken to fit `uint32`. -/
theorem challenge_duration_and_deaths (inst : InstanceScript) (msDiffToNow : Nat)
    (hfit : msDiffToNow / 1000 + 5 * (inst._challengeModeDeathCount + 1) < 4294967296) :
    inst.GetChallengeModeCurrentDuration msDiffToNow =
        msDiffToNow / 1000 + 5 * inst._challengeModeDeathCount ∧
      (inst._challengeModeStarted = true →
        (inst.OnPlayerDeath msDiffToNow)._challengeModeDeathCount =
          inst._challengeModeDeathCount + 1 ∧
        (inst.OnPlayerDeath msDiffToNow).GetChallengeModeCurrentDuration msDiffToNow =
          inst.GetChallengeModeCurrentDuration msDiffToNow + 5) ∧
      (inst._challengeModeStarted = false → inst.OnPlayerDeath msDiffToNow = inst) := by
  have hdur : ∀ deaths, msDiffToNow / 1000 + 5 * deaths < 4294967296 →
      (msDiffToNow / 1000 % 4294967296 + 5 * deaths) % 4294967296 =
        msDiffToNow / 1000 + 5 * deaths := by
    intro deaths h
    omega
  refine ⟨?_, ?_, ?_⟩
  · unfold GetChallengeModeCurrentDuration
    exact hdur _ (by omega)
  · intro hstarted
    have hcount : (inst.OnPlayerDeath msDiffToNow)._challengeModeDeathCount =
        inst._challengeModeDeathCount + 1 := by
      unfold OnPlayerDeath IsChallengeModeStarted
      rw [if_pos hstarted]
      show (inst._challengeModeDeathCount + 1) % 4294967296 = _
      omega
    refine ⟨hcount, ?_⟩
    unfold GetChallengeModeCurrentDuration
    rw [hcount, hdur _ hfit, hdur _ (by omega)]
    omega
  · intro hidle
    unfold OnPlayerDeath IsChallengeModeStarted
    rw [hidle]
    rfl

/-- C21 at `runningInstance` (active, one death) 61,500 ms after the start: the
duration is 61 + 5 = 66 s, a death raises the count to 2 and the duration to
71 s; and at the idle `sampleInstance` a death changes nothing. -/
theorem challenge_duration_and_deaths_witness :
    (61500 / 1000 + 5 * (runningInstance._challengeModeDeathCount + 1) < 4294967296 ∧
      runningInstance._challengeModeStarted = true ∧
      sampleInstance._challengeModeStarted = false) ∧
    runningInstance.GetChallengeModeCurrentDuration 61500 = 66 ∧
    ((runningInstance.OnPlayerDeath 61500)._challengeModeDeathCount = 2 ∧
      (runningInstance.OnPlayerDeath 61500).GetChallengeModeCurrentDuration 61500 =
        runningInstance.GetChallengeModeCurrentDuration 61500 + 5) ∧
    sampleInstance.OnPlayerDeath 61500 = sampleInstance :=
  ⟨⟨by decide, rfl, rfl⟩,
    (challenge_duration_and_deaths runningInstance 61500 (by decide)).1,
    (challenge_duration_and_deaths runningInstance 61500 (by decide)).2.1 rfl,
    (challenge_duration_and_deaths sampleInstance 61500 (by decide)).2.2 rfl⟩

/-! ## The guild of a run record -/

/-- One `guildCounter[guild]++` raises what the counter holds for `guild` by at
most one and leaves what it holds for the other guilds. -/
theorem guildTotal_guildCounterIncrement (guild g : Nat) (counter : List (Nat × Nat)) :
    guildTotal g (guildCounterIncrement guild counter) ≤
      guildTotal g counter + (if g = guild then 1 else 0) := by
  induction counter with
  | nil =>
    by_cases hg : g = guild
    · simp [guildCounterIncrement, guildTotal, hg]
    · have hg2 : ¬ guild = g := fun h => hg h.symm
      simp [guildCounterIncrement, guildTotal, hg, hg2]
  | cons v rest ih =>
    obtain ⟨g0, n⟩ := v
    unfold guildCounterIncrement
    by_cases h1 : guild < g0
    · rw [if_pos h1]
      by_cases hg : g = guild
      · simp [guildTotal, List.filter_cons, hg]
        omega
      · have hg2 : ¬ guild = g := fun h => hg h.symm
        simp [guildTotal, List.filter_cons, hg, hg2]
    · rw [if_neg h1]
      by_cases h2 : guild = g0
      · rw [if_pos h2]
        have hmod : (n + 1) % 4294967296 ≤ n + 1 := Nat.mod_le _ _
        by_cases hg : g0 = g
        · have hg3 : g = guild := by omega
          simp only [guildTotal, List.filter_cons, hg, decide_True, if_true, List.map_cons,
            List.sum_cons, hg3, if_true]
          omega
        · have hg3 : ¬ g = guild := by omega
          simp only [guildTotal, List.filter_cons, hg, decide_False, Bool.false_eq_true,
            if_false, hg3]
          omega
      · rw [if_neg h2]
        unfold guildTotal at ih ⊢
        by_cases hg : g0 = g
        · simp only [List.filter_cons, hg, decide_True, if_true, List.map_cons, List.sum_cons]
          omega
        · simp only [List.filter_cons, hg, decide_False, Bool.false_eq_true, if_false]
          exact ih

/-- What the guild counter holds for a guild other than 0 is at most the number
of players in that guild, and it holds nothing for guild 0. -/
theorem guildTotal_foldl (g : Nat) :
    ∀ (players : List Player) (counter : List (Nat × Nat)),
      guildTotal g
          (players.foldl
            (fun counter player =>
              if player.GetGuildId ≠ 0 then guildCounterIncrement player.GetGuildId counter
              else counter)
            counter) ≤
        guildTotal g counter + (if g = 0 then 0 else guildMembers players g) := by
  intro players
  induction players with
  | nil => intro counter; simp
  | cons player rest ih =>
    intro counter
    simp only [List.foldl_cons]
    refine Nat.le_trans (ih _) ?_
    by_cases hz : player.GetGuildId = 0
    · have hz2 : ¬ player.GetGuildId ≠ 0 := fun h => h hz
      rw [if_neg hz2]
      by_cases hg : g = 0
      · simp [hg]
      · have hne : ¬ player.GetGuildId = g := by omega
        simp [hg, guildMembers, List.filter_cons, hne]
    · rw [if_pos hz]
      have hstep := guildTotal_guildCounterIncrement player.GetGuildId g counter
      by_cases hg : g = 0
      · have hne : ¬ g = player.GetGuildId := by omega
        rw [if_neg hne] at hstep
        simp only [hg, if_true] at hstep ⊢
        omega
      · by_cases hp : player.GetGuildId = g
        · have hp2 : g = player.GetGuildId := hp.symm
          rw [if_pos hp2] at hstep
          simp only [hg, if_false, guildMembers, List.filter_cons, hp, decide_True, if_true,
            List.length_cons] at hstep ⊢
          omega
        · have hp2 : ¬ g = player.GetGuildId := fun h => hp h.symm
          rw [if_neg hp2] at hstep
          simp only [hg, if_false, guildMembers, List.filter_cons, hp, decide_False,
            Bool.false_eq_true] at hstep ⊢
          omega

/-- The count of an entry of a guild counter is at most what the counter holds
for its guild. -/
theorem le_guildTotal_of_mem (counter : List (Nat × Nat)) (v : Nat × Nat) (h : v ∈ counter) :
    v.2 ≤ guildTotal v.1 counter := by
  induction counter with
  | nil => cases h
  | cons w rest ih =>
    unfold guildTotal at ih ⊢
    rcases List.mem_cons.mp h with hv | hv
    · subst hv
      simp [List.filter_cons]
    · have := ih hv
      by_cases hw : w.1 = v.1
      · simp only [List.filter_cons, hw, decide_True, if_true, List.map_cons, List.sum_cons]
        omega
      · simp only [List.filter_cons, hw, decide_False, Bool.false_eq_true, if_false]
        exact this

/-- The loop that picks the guild id returns its initial value or the guild of
an entry with a count of at least 3. -/
theorem guildId_foldl (counter : List (Nat × Nat)) :
    ∀ init : Nat,
      counter.foldl (fun guildId v => if v.2 ≥ 3 then v.1 else guildId) init = init ∨
        ∃ v ∈ counter, 3 ≤ v.2 ∧
          v.1 = counter.foldl (fun guildId v => if v.2 ≥ 3 then v.1 else guildId) init := by
  induction counter with
  | nil => intro init; exact Or.inl rfl
  | cons w rest ih =>
    intro init
    simp only [List.foldl_cons]
    rcases ih (if w.2 ≥ 3 then w.1 else init) with h | ⟨v, hv, h3, heq⟩
    · by_cases hw : w.2 ≥ 3
      · right
        refine ⟨w, List.mem_cons_self _ _, hw, ?_⟩
        rw [h, if_pos hw]
      · left
        rw [h, if_neg hw]
    · exact Or.inr ⟨v, List.mem_cons_of_mem _ hv, h3, heq⟩

/-- A guild id other than 0 picked for the run record is the guild of at least
three players. -/
theorem challengeGuildId_members (players : List Player) (h : challengeGuildId players ≠ 0) :
    3 ≤ guildMembers players (challengeGuildId players) := by
  unfold challengeGuildId at h ⊢
  rcases guildId_foldl (guildCounter players) 0 with h0 | ⟨v, hv, h3, heq⟩
  · exact absurd h0 h
  · rw [← heq]
    rw [← heq] at h
    have h1 := le_guildTotal_of_mem _ v hv
    have h2 := guildTotal_foldl v.1 players []
    rw [if_neg h] at h2
    have h4 : guildTotal v.1 [] = 0 := rfl
    unfold guildCounter at h1
    omega

/-- C22: the run record that `CompleteChallengeMode` hands over holds the guild
id picked by the counter loop; that id is nonzero only if at least three of
the participating players share it, and it is 0 when no guild has three or
more members among the participants. -/
theorem CompleteChallengeMode_guild (inst : InstanceScript) (msDiffToNow : Nat)
    (mapChallengeModeEntry : MapChallengeModeEntry)
    (hmode : inst.GetMapChallengeModeEntryByModeId inst._challengeModeId =
      some mapChallengeModeEntry) :
    (∃ challengeData, Event.SaveChallenge challengeData ∈ (inst.CompleteChallengeMode msDiffToNow).trace ∧
      challengeData.GuildID = challengeGuildId inst.players) ∧
    (challengeGuildId inst.players ≠ 0 →
      3 ≤ guildMembers inst.players (challengeGuildId inst.players)) ∧
    ((∀ guild, guild ≠ 0 → guildMembers inst.players guild < 3) →
      challengeGuildId inst.players = 0) := by
  refine ⟨?_, challengeGuildId_members inst.players, ?_⟩
  · refine ⟨inst.challengeData mapChallengeModeEntry
      (inst.GetChallengeModeCurrentDuration msDiffToNow), ?_, rfl⟩
    unfold CompleteChallengeMode
    rw [hmode]
    simp [emitAll]
  · intro hall
    by_contra hne
    have := challengeGuildId_members inst.players hne
    have := hall _ hne
    omega

/-- C22 at `guildRunInstance`: three of the five players are in guild 7, and
the record holds guild 7. -/
theorem CompleteChallengeMode_guild_witness :
    (guildRunInstance.GetMapChallengeModeEntryByModeId guildRunInstance._challengeModeId =
        some { ID := 244, CriteriaCount := [1800, 1500, 1200] } ∧
      challengeGuildId guildRunInstance.players ≠ 0) ∧
    challengeGuildId guildRunInstance.players = 7 ∧
    3 ≤ guildMembers guildRunInstance.players (challengeGuildId guildRunInstance.players) :=
  ⟨⟨by decide, by decide⟩, by decide,
    (CompleteChallengeMode_guild guildRunInstance 0
      { ID := 244, CriteriaCount := [1800, 1500, 1200] } (by decide)).2.1 (by decide)⟩

/-! ## Boss indices out of range -/

/-- C24, refuted as stated. `sampleInstance` has two bosses, so the index 7 is
out of range; `GetBossInfo(7)` fails its `ASSERT` and aborts. It returns
nothing, neither a null pointer nor any other failure value. -/
theorem GetBossInfo_counterexample :
    ¬ (7 < sampleInstance.bosses.length) ∧
      sampleInstance.GetBossInfo 7 = Except.error Abort.ASSERT ∧
      sampleInstance.GetBossInfo 7 ≠ Except.ok none ∧
      ∀ value, sampleInstance.GetBossInfo 7 ≠ Except.ok value := by
  refine ⟨by decide, rfl, ?_, ?_⟩
  · intro h
    cases h
  · intro value h
    cases h

/-- C24, amended. Every operation that takes a boss index checks it against
the boss vector. For `SetBossState` and the table loaders an out-of-range
index is a no-op and no abort: `SetBossState` returns false and changes
nothing, and `LoadDoorData`, `LoadMinionData` and `LoadBossBoundaries` skip the
row and go on with the rest of the table. `GetBossInfo` asserts the range
instead: with an index in range it returns that boss, with an index out of
range it aborts. -/
theorem boss_index_out_of_range (inst : InstanceScript) (id : Nat)
    (h : inst.bosses.length ≤ id) :
    (∀ state, inst.SetBossState id state = (false, inst)) ∧
      (∀ entry type rest, entry ≠ 0 →
        inst.LoadDoorData ({ entry := entry, bossId := id, type := type } :: rest) =
          inst.LoadDoorData rest) ∧
      (∀ entry rest, entry ≠ 0 →
        inst.LoadMinionData ({ entry := entry, bossId := id } :: rest) =
          inst.LoadMinionData rest) ∧
      (∀ boundary rest,
        inst.LoadBossBoundaries ({ BossId := id, Boundary := boundary } :: rest) =
          inst.LoadBossBoundaries rest) ∧
      inst.GetBossInfo id = Except.error Abort.ASSERT ∧
      ∀ j, j < inst.bosses.length → inst.GetBossInfo j = Except.ok (some j) := by
  have hnot : ¬ id < inst.bosses.length := by omega
  refine ⟨?_, ?_, ?_, ?_, ?_, ?_⟩
  · intro state
    unfold SetBossState
    rw [List.getElem?_eq_none h]
  · intro entry type rest hentry
    rw [LoadDoorData]
    dsimp only
    rw [if_neg hentry, if_neg hnot]
  · intro entry rest hentry
    rw [LoadMinionData]
    dsimp only
    rw [if_neg hentry, if_neg hnot]
  · intro boundary rest
    unfold LoadBossBoundaries
    rw [List.foldl_cons]
    dsimp only
    rw [if_neg hnot]
  · unfold GetBossInfo
    rw [if_neg hnot]
  · intro j hj
    unfold GetBossInfo
    rw [if_pos hj]

/-- C24 at `sampleInstance` (two bosses) with the index 7: `SetBossState`
returns false and changes nothing, a door row for boss 7 is skipped and the
row after it, for boss 1, is loaded. -/
theorem boss_index_out_of_range_witness :
    sampleInstance.bosses.length ≤ 7 ∧
      sampleInstance.SetBossState 7 DONE = (false, sampleInstance) ∧
      sampleInstance.LoadDoorData
          [{ entry := 80, bossId := 7, type := DOOR_TYPE_ROOM },
            { entry := 81, bossId := 1, type := DOOR_TYPE_ROOM }] =
        sampleInstance.LoadDoorData [{ entry := 81, bossId := 1, type := DOOR_TYPE_ROOM }] ∧
      (sampleInstance.LoadDoorData
          [{ entry := 80, bossId := 7, type := DOOR_TYPE_ROOM },
            { entry := 81, bossId := 1, type := DOOR_TYPE_ROOM }]).doors =
        sampleInstance.doors ++ [(81, { bossId := 1, type := DOOR_TYPE_ROOM })] :=
  ⟨by decide,
    (boss_index_out_of_range sampleInstance 7 (by decide)).1 DONE,
    (boss_index_out_of_range sampleInstance 7 (by decide)).2.1 80 DOOR_TYPE_ROOM
      [{ entry := 81, bossId := 1, type := DOOR_TYPE_ROOM }] (by decide),
    by decide⟩

/-! ## Doors after an accepted transition -/

/-- A call of `SetBossState` that returns true took the accepted path. -/
theorem SetBossState_true_path (inst : InstanceScript) (id : Nat) (st : EncounterState)
    (h : (inst.SetBossState id st).1 = true) :
    ∃ bossInfo, inst.bosses[id]? = some bossInfo ∧
      inst.SetBossState id st =
        (true, ((((inst.enterState bossInfo.state st).assignState id st).SaveToDB).updateDoors
          bossInfo.door.flatten).updateMinions bossInfo.minion st) := by
  unfold SetBossState at h ⊢
  cases hb : inst.bosses[id]? with
  | none =>
    rw [hb] at h
    cases h
  | some bossInfo =>
    rw [hb] at h
    dsimp only at h ⊢
    refine ⟨bossInfo, rfl, ?_⟩
    by_cases h1 : bossInfo.state = TO_BE_DECIDED
    · rw [if_pos h1] at h
      cases h
    · rw [if_neg h1] at h ⊢
      by_cases h2 : bossInfo.state = st
      · rw [if_pos h2] at h
        cases h
      · rw [if_neg h2] at h ⊢
        by_cases h3 : st = DONE ∧ inst.worldBossMinionAlive bossInfo = true
        · rw [if_pos h3] at h
          cases h
        · rw [if_neg h3]

/-- What `enterState` leaves alone: everything but the trace and the
combat-resurrection fields. -/
theorem enterState_frame {β : Type} (p : InstanceScript → β)
    (hp : ∀ i e, p (emit i e) = p i)
    (hr : ∀ i, p (ResetCombatResurrections i) = p i)
    (hi : ∀ i charges interval, p (InitializeCombatResurrections i charges interval) = p i)
    (inst : InstanceScript) (old st : EncounterState) : p (inst.enterState old st) = p inst := by
  unfold enterState
  cases st <;> dsimp only
  · split
    · unfold SendEncounterEnd
      rw [hp, hr]
    · rfl
  · rw [procEncounterStart_frame p hp]
    unfold SendEncounterStart
    rw [hp, hi]
  · unfold SendEncounterEnd
    rw [hp, hr]
  · unfold SendEncounterEnd
    rw [hp, hr]

/-- `InitializeCombatResurrections` leaves the game objects and the door table
alone. -/
theorem InitializeCombatResurrections_objects (inst : InstanceScript) (charges interval : Nat) :
    (inst.InitializeCombatResurrections charges interval).gameObjects = inst.gameObjects ∧
      (inst.InitializeCombatResurrections charges interval).doors = inst.doors := by
  unfold InitializeCombatResurrections
  dsimp only
  split <;> exact ⟨rfl, rfl⟩

/-- Whether a door is shown open depends on the game objects only. -/
theorem doorIsOpen_congr (a b : InstanceScript) (g : ObjectGuid)
    (h : a.GetGameObject g = b.GetGameObject g) : a.doorIsOpen g ↔ b.doorIsOpen g := by
  unfold doorIsOpen
  rw [h]

/-- The door policy depends on the bosses only. -/
theorem doorPolicy_congr (a b : InstanceScript) (links : List DoorInfo)
    (h : a.bosses = b.bosses) : a.doorPolicy links = b.doorPolicy links := by
  unfold doorPolicy linkSaysOpen bossState
  rw [h]

/-- The links of a door depend on the door table only. -/
theorem doorRange_congr (a b : InstanceScript) (entry : Nat) (h : a.doors = b.doors) :
    a.doorRange entry = b.doorRange entry := by
  unfold doorRange
  rw [h]

/-- The object `GetGameObject` finds has the guid asked for. -/
theorem GetGameObject_guid (inst : InstanceScript) (g : ObjectGuid) (door : GameObject)
    (h : inst.GetGameObject g = some door) : door.guid = g := by
  unfold GetGameObject at h
  have := List.find?_some h
  simpa using this

/-- Setting the go-state of one guid does not change what is found under
another guid. -/
theorem GetGameObject_SetGoState_ne (inst : InstanceScript) (g x : ObjectGuid) (st : GOState)
    (h : x ≠ g) : (inst.SetGoState x st).GetGameObject g = inst.GetGameObject g := by
  unfold GetGameObject SetGoState
  dsimp only
  induction inst.gameObjects with
  | nil => rfl
  | cons o rest ih =>
    simp only [List.map_cons, List.find?_cons]
    by_cases ho : o.guid = x
    · have hog : ¬ o.guid = g := fun hg => h (ho.symm.trans hg)
      have hog2 : ¬ ({ o with goState := st } : GameObject).guid = g := hog
      rw [if_pos ho]
      simp only [hog, hog2, decide_False]
      exact ih
    · rw [if_neg ho]
      cases decide (o.guid = g)
      · exact ih
      · rfl

/-- One round of the door loop keeps the bosses and the door table. -/
theorem doorRound_frame (inst : InstanceScript) (x : ObjectGuid) :
    (inst.doorRound x).bosses = inst.bosses ∧ (inst.doorRound x).doors = inst.doors := by
  unfold doorRound
  split
  · exact ⟨UpdateDoorState_bosses _ _,
      UpdateDoorState_frame (fun i => i.doors) (fun _ _ _ => rfl) _ _⟩
  · exact ⟨rfl, rfl⟩

/-- One round of the door loop for another guid does not change what is found
under `g`. -/
theorem doorRound_GetGameObject_ne (inst : InstanceScript) (g x : ObjectGuid) (h : x ≠ g) :
    (inst.doorRound x).GetGameObject g = inst.GetGameObject g := by
  unfold doorRound
  cases hx : inst.GetGameObject x with
  | none => rfl
  | some d =>
    dsimp only
    have hd := GetGameObject_guid inst x d hx
    unfold UpdateDoorState
    split
    · rfl
    · exact GetGameObject_SetGoState_ne inst g d.guid _ (by rw [hd]; exact h)

/-- One round of the door loop for a door that is on the map and has links:
the door keeps its guid and entry and is shown according to the policy. -/
theorem doorRound_self (inst : InstanceScript) (g : ObjectGuid) (door : GameObject)
    (hdoor : inst.GetGameObject g = some door) (hlinks : inst.doorRange door.entry ≠ []) :
    (∃ st, (inst.doorRound g).GetGameObject g = some { door with goState := st }) ∧
      ((inst.doorRound g).doorIsOpen g ↔
        inst.doorPolicy (inst.doorRange door.entry) = true) := by
  have hd := GetGameObject_guid inst g door hdoor
  have hdoor2 : inst.GetGameObject door.guid = some door := by rw [hd]; exact hdoor
  have hround : inst.doorRound g = inst.UpdateDoorState door := by
    unfold doorRound
    rw [hdoor]
  rw [hround]
  constructor
  · unfold UpdateDoorState
    cases hr : inst.doorRange door.entry with
    | nil => exact absurd hr hlinks
    | cons info range =>
      dsimp only
      refine ⟨(if UpdateDoorState.loop inst (info :: range) true then GO_STATE_ACTIVE
        else GO_STATE_READY), ?_⟩
      rw [← hd]
      exact GetGameObject_SetGoState inst door _ hdoor2
  · rw [← hd, doorIsOpen_UpdateDoorState inst door hdoor2 hlinks,
      UpdateDoorState_loop_eq_doorPolicy]

/-- The door loop is a sequence of rounds. -/
theorem updateDoors_cons (inst : InstanceScript) (x : ObjectGuid) (xs : List ObjectGuid) :
    inst.updateDoors (x :: xs) = (inst.doorRound x).updateDoors xs := rfl

/-- After the door loop over `guids`, a door on the map that has links and
whose guid is among `guids`, or that was shown according to the policy before,
is shown according to the policy. -/
theorem updateDoors_doorIsOpen :
    ∀ (guids : List ObjectGuid) (inst : InstanceScript) (g : ObjectGuid) (door : GameObject),
      inst.GetGameObject g = some door → inst.doorRange door.entry ≠ [] →
      (g ∈ guids ∨ (inst.doorIsOpen g ↔ inst.doorPolicy (inst.doorRange door.entry) = true)) →
      ((inst.updateDoors guids).doorIsOpen g ↔
        inst.doorPolicy (inst.doorRange door.entry) = true) := by
  intro guids
  induction guids with
  | nil =>
    intro inst g door _ _ h
    rcases h with h | h
    · cases h
    · exact h
  | cons x xs ih =>
    intro inst g door hdoor hlinks h
    rw [updateDoors_cons]
    have hframe := doorRound_frame inst x
    have hrange : ∀ entry, (inst.doorRound x).doorRange entry = inst.doorRange entry :=
      fun entry => doorRange_congr _ _ entry hframe.2
    have hpolicy : ∀ links, (inst.doorRound x).doorPolicy links = inst.doorPolicy links :=
      fun links => doorPolicy_congr _ _ links hframe.1
    by_cases hx : x = g
    · subst hx
      obtain ⟨⟨st, hget⟩, hopen⟩ := doorRound_self inst x door hdoor hlinks
      have := ih (inst.doorRound x) x { door with goState := st } hget
        (by rw [hrange]; exact hlinks)
        (Or.inr (by rw [hrange, hpolicy]; exact hopen))
      rw [hrange, hpolicy] at this
      exact this
    · have hget := doorRound_GetGameObject_ne inst g x hx
      have := ih (inst.doorRound x) g door (by rw [hget]; exact hdoor)
        (by rw [hrange]; exact hlinks)
        (by
          rcases h with h | h
          · rcases List.mem_cons.mp h with h | h
            · exact absurd h.symm hx
            · exact Or.inl h
          · right
            rw [hrange, hpolicy, doorIsOpen_congr _ inst g hget]
            exact h)
      rw [hrange, hpolicy] at this
      exact this

/-- C26: for every instance, boss `id` and state `s`, after `SetBossState(id,
s)` has returned true, every door that is on the map and registered under boss
`id`, in the door set of any type, is shown open if and only if the door
policy, evaluated over all links of the door with the boss states after the
transition, says open. A door registered by `AddDoor` has at least one link: a
door whose entry has no link is never registered, `AddDoor` returns before it
touches a door set. -/
theorem SetBossState_doors (inst : InstanceScript) (id : Nat) (st : EncounterState)
    (bossInfo : BossInfo) (hboss : inst.bosses[id]? = some bossInfo)
    (haccepted : (inst.SetBossState id st).1 = true) :
    (∀ (guid : ObjectGuid) (door : GameObject), guid ∈ bossInfo.door.flatten →
      inst.GetGameObject guid = some door → inst.doorRange door.entry ≠ [] →
      ((inst.SetBossState id st).2.doorIsOpen guid ↔
        (inst.SetBossState id st).2.doorPolicy
          ((inst.SetBossState id st).2.doorRange door.entry) = true)) ∧
    ∀ (door : GameObject) (add : Bool), inst.doorRange door.entry = [] →
      inst.AddDoor door add = inst := by
  constructor
  · intro guid door hreg hspawned hlinks
    obtain ⟨bossInfo2, hboss2, hpath⟩ := SetBossState_true_path inst id st haccepted
    rw [hboss] at hboss2
    cases hboss2
    rw [hpath]
    dsimp only
    have hobj : (((inst.enterState bossInfo.state st).assignState id st).SaveToDB).gameObjects =
        inst.gameObjects := by
      rw [SaveToDB_frame (fun i => i.gameObjects) (fun _ _ => rfl)]
      show (inst.enterState bossInfo.state st).gameObjects = inst.gameObjects
      exact enterState_frame (fun i => i.gameObjects) (fun _ _ => rfl) (fun _ => rfl)
        (fun i c n => (InitializeCombatResurrections_objects i c n).1) inst _ _
    have hdoors : (((inst.enterState bossInfo.state st).assignState id st).SaveToDB).doors =
        inst.doors := by
      rw [SaveToDB_frame (fun i => i.doors) (fun _ _ => rfl)]
      show (inst.enterState bossInfo.state st).doors = inst.doors
      exact enterState_frame (fun i => i.doors) (fun _ _ => rfl) (fun _ => rfl)
        (fun i c n => (InitializeCombatResurrections_objects i c n).2) inst _ _
    have hget : (((inst.enterState bossInfo.state st).assignState id st).SaveToDB).GetGameObject
        guid = some door := by
      unfold GetGameObject at hspawned ⊢
      rw [hobj]
      exact hspawned
    have hrange1 := doorRange_congr _ inst door.entry hdoors
    have hmain := updateDoors_doorIsOpen bossInfo.door.flatten
      (((inst.enterState bossInfo.state st).assignState id st).SaveToDB) guid door hget
      (by rw [hrange1]; exact hlinks) (Or.inl hreg)
    have hm1 := updateMinions_frame (fun i => i.gameObjects) (fun _ _ => rfl)
      ((((inst.enterState bossInfo.state st).assignState id st).SaveToDB).updateDoors
        bossInfo.door.flatten) bossInfo.minion st
    have hm2 := updateMinions_frame (fun i => i.bosses) (fun _ _ => rfl)
      ((((inst.enterState bossInfo.state st).assignState id st).SaveToDB).updateDoors
        bossInfo.door.flatten) bossInfo.minion st
    have hm3 := updateMinions_frame (fun i => i.doors) (fun _ _ => rfl)
      ((((inst.enterState bossInfo.state st).assignState id st).SaveToDB).updateDoors
        bossInfo.door.flatten) bossInfo.minion st
    have hd2 := updateDoors_bosses
      (((inst.enterState bossInfo.state st).assignState id st).SaveToDB) bossInfo.door.flatten
    have hd3 := updateDoors_frame (fun i => i.doors) (fun _ _ _ => rfl)
      (((inst.enterState bossInfo.state st).assignState id st).SaveToDB) bossInfo.door.flatten
    beta_reduce at hm1 hm2 hm3 hd3
    rw [doorIsOpen_congr _
        ((((inst.enterState bossInfo.state st).assignState id st).SaveToDB).updateDoors
          bossInfo.door.flatten) guid (by unfold GetGameObject; rw [hm1]),
      doorRange_congr _ (((inst.enterState bossInfo.state st).assignState id st).SaveToDB)
        door.entry (hm3.trans hd3),
      doorPolicy_congr _ (((inst.enterState bossInfo.state st).assignState id st).SaveToDB) _
        (hm2.trans hd2)]
    exact hmain
  · intro door add hnone
    unfold AddDoor
    rw [hnone]

/-- C26 at `sampleInstance`: the transition of boss 0 from `IN_PROGRESS` to
`FAIL` is accepted; door 9 is registered under boss 0 and has one Passage link
to it, the policy says closed, and the door is not shown open. -/
theorem SetBossState_doors_witness :
    (sampleInstance.bosses[0]? =
        some { state := IN_PROGRESS, door := [[], [9], []], minion := [5] } ∧
      (sampleInstance.SetBossState 0 FAIL).1 = true ∧
      (9 : ObjectGuid) ∈ [[], [9], []].flatten ∧
      sampleInstance.GetGameObject 9 = some { guid := 9, entry := 77 } ∧
      sampleInstance.doorRange 77 ≠ []) ∧
    ((sampleInstance.SetBossState 0 FAIL).2.doorIsOpen 9 ↔
      (sampleInstance.SetBossState 0 FAIL).2.doorPolicy
        ((sampleInstance.SetBossState 0 FAIL).2.doorRange 77) = true) ∧
    (sampleInstance.SetBossState 0 FAIL).2.doorPolicy
      ((sampleInstance.SetBossState 0 FAIL).2.doorRange 77) = false :=
  ⟨⟨rfl, by decide, by decide, rfl, by decide⟩,
    (SetBossState_doors sampleInstance 0 FAIL
      { state := IN_PROGRESS, door := [[], [9], []], minion := [5] } rfl (by decide)).1 9
      { guid := 9, entry := 77 } (by decide) rfl (by decide),
    by decide⟩

/-! ## Loading twice -/

/-- On a loaded boss that is already in the state asked for, `SetBossState`
returns false and changes nothing. -/
theorem SetBossState_equal_rejected (inst : InstanceScript) (id : Nat) (bossInfo : BossInfo)
    (st : EncounterState) (hboss : inst.bosses[id]? = some bossInfo)
    (hloaded : bossInfo.state ≠ TO_BE_DECIDED) (hsame : bossInfo.state = st) :
    inst.SetBossState id st = (false, inst) := by
  unfold SetBossState
  simp only [hboss]
  rw [if_neg hloaded, if_pos hsame]

/-- One round of the loop body of `ReadSaveDataBossStates` on a boss that is
in `loadedState t` already, with `buff` holding `t` again: the assignment is
rejected as equal to the current state, or skipped, and nothing changes. -/
theorem loadRound_loaded (inst : InstanceScript) (k : Nat) (bossInfo : BossInfo) (t : Nat)
    (hboss : inst.bosses[k]? = some bossInfo) (hstate : bossInfo.state = loadedState t) :
    (if (if t = IN_PROGRESS.toNat ∨ t = FAIL.toNat ∨ t = SPECIAL.toNat then NOT_STARTED.toNat
          else t) < TO_BE_DECIDED.toNat
      then (inst.SetBossState k (EncounterState.ofUInt32
        (if t = IN_PROGRESS.toNat ∨ t = FAIL.toNat ∨ t = SPECIAL.toNat then NOT_STARTED.toNat
          else t))).2
      else inst) = inst := by
  by_cases h5 : t < 5
  · have hcases : t = 0 ∨ t = 1 ∨ t = 2 ∨ t = 3 ∨ t = 4 := by omega
    rcases hcases with h | h | h | h | h <;> subst h
    all_goals
      have hs := hstate
      simp only [loadedState] at hs
      norm_num at hs
      simp only [EncounterState.toNat, EncounterState.ofUInt32]
      norm_num
      rw [SetBossState_equal_rejected inst k bossInfo _ hboss (by rw [hs]; decide) hs]
  · have h1 : ¬ (t = IN_PROGRESS.toNat ∨ t = FAIL.toNat ∨ t = SPECIAL.toNat) := by
      simp only [EncounterState.toNat]
      omega
    rw [if_neg h1, if_neg (by simpa [EncounterState.toNat] using h5)]

/-- A second pass of `ReadSaveDataBossStates` over bosses that each hold
`loadedState` of the value their extraction stores changes nothing. -/
theorem ReadSaveDataBossStates_loop_loaded (u : Indeterminate) :
    ∀ (count k : Nat) (inst : InstanceScript) (data : IStringStream),
      (∀ j, j < count → ∃ t bossInfo, (data.afterUInt32s j).extractUInt32.1 = some t ∧
        inst.bosses[k + j]? = some bossInfo ∧ bossInfo.state = loadedState t) →
      (ReadSaveDataBossStates.loop u count k inst data).1 = inst := by
  intro count
  induction count with
  | zero => intro k inst data _; rfl
  | succ count ih =>
    intro k inst data h
    obtain ⟨t, bossInfo, ht, hboss, hstate⟩ := h 0 (by omega)
    have ht0 : data.extractUInt32.1 = some t := ht
    rw [ReadSaveDataBossStates.loop]
    simp only [ht0, Option.getD_some]
    rw [loadRound_loaded inst k bossInfo t hboss hstate]
    apply ih
    intro j hj
    obtain ⟨t2, b2, ht2, hb2, hs2⟩ := h (j + 1) (by omega)
    refine ⟨t2, b2, ht2, ?_, hs2⟩
    rw [← hb2]
    congr 1
    omega

/-- A `Load` whose header check passes is the boss-state loop on the rest of
the stream. -/
theorem Load_of_accepted (u : Indeterminate) (inst : InstanceScript) (blob : List Char)
    (d : IStringStream)
    (hheader : inst.ReadSaveDataHeaders u (IStringStream.ofString blob) = (true, d)) :
    inst.Load u (some blob) = (ReadSaveDataBossStates.loop u inst.bosses.length 0 inst d).1 := by
  unfold Load ReadSaveDataBossStates ReadSaveDataMore
  simp only [hheader, if_true]

/-- What holds apart from the unset reads: when the header check passes and
every boss's extraction stores a value, a second `Load` of the same blob
returns the instance the first one left, whatever the unset locals hold. -/
theorem Load_twice_of_stored (u1 u2 : Indeterminate) (fresh : InstanceScript)
    (blob : List Char) (d : IStringStream) (hfresh : ∀ b ∈ fresh.bosses, b.state = TO_BE_DECIDED)
    (hheader1 : fresh.ReadSaveDataHeaders u1 (IStringStream.ofString blob) = (true, d))
    (hheader2 : fresh.ReadSaveDataHeaders u2 (IStringStream.ofString blob) = (true, d))
    (hstored : ∀ i, i < fresh.bosses.length → (d.afterUInt32s i).extractUInt32.1 ≠ none) :
    (fresh.Load u1 (some blob)).Load u2 (some blob) = fresh.Load u1 (some blob) := by
  obtain ⟨hframe, hlen, hstates⟩ := Load_fresh u1 fresh blob d hfresh hheader1
  have hheaders : (fresh.Load u1 (some blob)).headers = fresh.headers := by
    have := congrArg (fun i => i.headers) hframe
    exact this
  have hh : (fresh.Load u1 (some blob)).ReadSaveDataHeaders u2 (IStringStream.ofString blob) =
      (true, d) := by
    unfold ReadSaveDataHeaders at hheader2 ⊢
    rw [hheaders]
    exact hheader2
  rw [Load_of_accepted u2 (fresh.Load u1 (some blob)) blob d hh]
  apply ReadSaveDataBossStates_loop_loaded
  intro j hj
  rw [hlen] at hj
  cases hx : (d.afterUInt32s j).extractUInt32.1 with
  | none => exact absurd hx (hstored j hj)
  | some t =>
    have hj2 : j < (fresh.Load u1 (some blob)).bosses.length := by omega
    refine ⟨t, (fresh.Load u1 (some blob)).bosses[j], rfl, ?_, ?_⟩
    · rw [Nat.zero_add]
      exact List.getElem?_eq_getElem hj2
    · rw [← bossState_eq_getElem _ j hj2, hstates j hj]
      unfold bossBuffAt
      rw [hx]
      rfl

/-- C27, the code at the failing input. The blob `T K` has the header of
`oneBossInstance` and no token for its boss: the extraction stores nothing and
the loop reads the unset `buff`. When it holds 0 in the first `Load` the boss
goes to `NOT_STARTED` silently; when it then holds 3 in the second `Load` of
the same blob, `SetBossState` accepts the transition to `DONE`: the boss-state
vector is not the one the first `Load` left, and the second `Load` broadcasts
the encounter end and saves. -/
theorem Load_twice_short_blob :
    oneBossInstance.isFresh ∧
      (oneBossInstance.Load idleBuffers (some ['T', ' ', 'K'])).bossState 0 = NOT_STARTED ∧
      ((oneBossInstance.Load idleBuffers (some ['T', ' ', 'K'])).Load staleBuffers
        (some ['T', ' ', 'K'])).bossState 0 = DONE ∧
      ((oneBossInstance.Load idleBuffers (some ['T', ' ', 'K'])).Load staleBuffers
        (some ['T', ' ', 'K'])).trace =
        [Event.EncounterEnd, Event.UpdateInstanceData 0 ['T', ' ', 'K', ' ', '3', ' '] 0 0] := by
  decide

end InstanceScript
